import Mathlib

/-!
Verification development for the sha1-sat instance generator (main.cc).

The generator is embedded shallowly: the CNF and OPB buffers become lists of
structured lines, the variable registry becomes a counter threaded through a
state record, and every emitter (clause, xor_clause, halfadder, the gate
library, the three adder modes, the sha1 circuit class, the attacks and the
driver) is translated function-for-function from the C++ source.  Buffers are
stored most-recently-emitted-first (the emitters prepend); the driver reverses
them when assembling the output, so the observable output order matches the
C++ append-only buffers.

Randomness and the wall clock are modelled as explicit parameters: the
lrand48 stream and the two random_shuffle results are fields of an `Rng`
record, produced from the resolved seed by a caller-supplied function, and
time(0) is a plain argument of the driver.
-/

set_option maxHeartbeats 2000000
set_option maxRecDepth 8000

namespace Sha1Sat

/-- A propositional variable id (the C++ code uses positive ints, densely
assigned from 1). -/
abbrev Var := Nat

/-- A literal: variable id together with its polarity (`true` = positive).
This mirrors the signed-integer literals of the C++ code: `x` becomes
`(x, true)` and `-x` becomes `(x, false)`. -/
abbrev Lit := Var × Bool

/-- One line of the CNF buffer. -/
inductive CnfLine where
  | comm (s : String)
  | dhint (v : Var) (pos : Bool)
  | cls (lits : List Lit)
  | xcls (lits : List Lit)
  | hline (lhs rhs : List Var)
deriving DecidableEq

/-- One linear term of an OPB constraint: `coeff * x` or, when `neg` is set,
`coeff * ~x` (the OPB negated-literal syntax `~x`, valued `1 - x`). -/
structure OpbTerm where
  coeff : Int
  neg : Bool
  var : Var
deriving DecidableEq

/-- One line of the OPB buffer: a comment, an inequality `terms >= rhs;` or an
equality `terms = rhs;`. -/
inductive OpbLine where
  | comm (s : String)
  | ge (terms : List OpbTerm) (rhs : Int)
  | eqn (terms : List OpbTerm) (rhs : Int)
deriving DecidableEq

/-- The process-wide mutable state of the generator: the variable counter, the
three counters reported in the headers, and the two output buffers (stored in
reverse emission order). -/
structure St where
  nr_variables : Nat
  nr_clauses : Nat
  nr_xor_clauses : Nat
  nr_constraints : Nat
  cnf : List CnfLine
  opb : List OpbLine

def St.init : St := ⟨0, 0, 0, 0, [], []⟩

/-- The configuration assembled from the command line. `seed = none` models an
absent `--seed` option (the C++ code then uses `time(0)`). -/
structure Config where
  attack : String
  nr_rounds : Nat
  nr_message_bits : Nat
  nr_hash_bits : Nat
  cnf : Bool
  opb : Bool
  use_xor_clauses : Bool
  use_halfadder_clauses : Bool
  use_tseitin_adders : Bool
  restrict_branching : Bool
  use_compact_adders : Bool
  seed : Option Nat
deriving DecidableEq

/-- The defaults of the C++ global configuration variables. -/
def Config.default : Config :=
  ⟨"preimage", 80, 0, 160, false, false, false, false, false, false, false, none⟩

/-- Mirrors `comment()`: `c <s>` to the CNF buffer and `* <s>` to the OPB
buffer. -/
def comment (s : String) (st : St) : St :=
  { st with cnf := CnfLine.comm s :: st.cnf, opb := OpbLine.comm s :: st.opb }

/-- Mirrors `new_vars()`: allocate `n` consecutive fresh ids (the C++ code
assigns `++nr_variables`, so the ids are `nr_variables + 1, ...,
nr_variables + n`), record a comment, and when branching restriction is
active emit one decision-hint line per id, positive iff `decision_var`. -/
def new_vars (cfg : Config) (label : String) (n : Nat) (decision_var : Bool)
    (st : St) : (Nat → Var) × St :=
  let x : Nat → Var := fun i => st.nr_variables + 1 + i
  let st := { st with nr_variables := st.nr_variables + n }
  let st := comment ("var " ++ toString (x 0) ++ "/" ++ toString n ++ " " ++ label) st
  let st :=
    if cfg.restrict_branching then
      { st with
        cnf := ((List.range n).map (fun i => CnfLine.dhint (x i) decision_var)).reverse
                 ++ st.cnf }
    else st
  (x, st)

/-- Mirrors `constant()`: pin one variable with a unit clause and the OPB
equality `1 x = v;`. -/
def constant (r : Var) (value : Bool) (st : St) : St :=
  { st with
    cnf := CnfLine.cls [(r, value)] :: st.cnf
    opb := OpbLine.eqn [⟨1, false, r⟩] (if value then 1 else 0) :: st.opb
    nr_clauses := st.nr_clauses + 1
    nr_constraints := st.nr_constraints + 1 }

/-- Mirrors `constant32()`: pin the 32 bits of a word, bit `i` receiving bit
`i` of `value` (`(value >> i) & 1`). -/
def constant32 (r : Nat → Var) (value : Nat) (st : St) : St :=
  let st := comment ("constant32 (" ++ toString value ++ ")") st
  (List.range 32).foldl
    (fun st i =>
      { st with
        cnf := CnfLine.cls [(r i, value.testBit i)] :: st.cnf
        opb := OpbLine.eqn [⟨1, false, r i⟩] (if value.testBit i then 1 else 0)
                 :: st.opb
        nr_clauses := st.nr_clauses + 1
        nr_constraints := st.nr_constraints + 1 })
    st

/-- Mirrors `new_constant()`. -/
def new_constant (cfg : Config) (label : String) (value : Nat) (st : St) :
    (Nat → Var) × St :=
  let rs := new_vars cfg label 32 true st
  (rs.1, constant32 rs.1 value rs.2)

/-- Mirrors `clause()`: emit the disjunction to the CNF buffer and the
pseudo-boolean form `∑ lᵢ >= 1` to the OPB buffer (a negative literal `-x`
becomes the OPB negated literal `~x`). -/
def clause (v : List Lit) (st : St) : St :=
  { st with
    cnf := CnfLine.cls v :: st.cnf
    opb := OpbLine.ge (v.map (fun l => ⟨1, !l.2, l.1⟩)) 1 :: st.opb
    nr_clauses := st.nr_clauses + 1
    nr_constraints := st.nr_constraints + 1 }

/-- Mirrors `xor_clause()`: emit an `x ... 0` line to the CNF buffer only. -/
def xor_clause (v : List Lit) (st : St) : St :=
  { st with
    cnf := CnfLine.xcls v :: st.cnf
    nr_xor_clauses := st.nr_xor_clauses + 1 }

/-- `__builtin_popcount`, as a fuelled structural recursion (exact for all
arguments below `2^64`; the generator only applies it to numbers below 32). -/
def popcountAux : Nat → Nat → Nat
  | 0, _ => 0
  | fuel + 1, n => if n = 0 then 0 else n % 2 + popcountAux fuel (n / 2)

def popcount (n : Nat) : Nat := popcountAux 64 n

/-- `floor(log2(k))` as used by the half-adder column loop, as a fuelled
structural recursion (exact for all arguments below `2^64`). -/
def log2Aux : Nat → Nat → Nat
  | 0, _ => 0
  | fuel + 1, n => if 2 ≤ n then log2Aux fuel (n / 2) + 1 else 0

def log2floor (n : Nat) : Nat := log2Aux 64 n

/-- Modelled from the spec: the clause set returned by the external logic
minimiser espresso for a half-adder shape is not part of the repository (the
binary is spawned through a pipe); per the spec it is a product-of-sums
equivalent to the truth table whose invalid rows are exactly the assignments
with `popcount(lhs) ≠ binval(rhs)`.  We model it as the unminimised
forbidden-row CNF: one clause per invalid row, translated onto the concrete
variables with the literal mapping of the C++ reading loop (input column
`t < n` maps to `lhs[t]`, and the `m` output columns map to `rhs` reversed;
a `1` in the espresso row — which the generator writes complemented — yields
a positive literal). -/
def espressoClauses (lhs rhs : List Var) : List (List Lit) :=
  let n := lhs.length
  let m := rhs.length
  (List.range (2 ^ n)).flatMap (fun i =>
    (List.range (2 ^ m)).filterMap (fun j =>
      if popcount i ≠ j then
        some ((List.range n).map
                (fun t => ((lhs.getD t 0 : Var), !(i.testBit (n - 1 - t))))
              ++ (List.range m).map
                (fun s => ((rhs.getD (m - 1 - s) 0 : Var), !(j.testBit (m - 1 - s)))))
      else none))

/-- Mirrors `halfadder()`: in native mode emit an `h <lhs> 0 <rhs> 0` line,
otherwise emit the (minimiser-produced, here modelled) CNF clauses; in both
cases emit the pseudo-boolean equality `∑ lhs − ∑ 2^i·rhs[i] = 0` to the OPB
buffer. -/
def halfadder (cfg : Config) (lhs rhs : List Var) (st : St) : St :=
  let st :=
    if cfg.use_halfadder_clauses then
      { st with cnf := CnfLine.hline lhs rhs :: st.cnf }
    else
      let cs := espressoClauses lhs rhs
      { st with
        cnf := (cs.map CnfLine.cls).reverse ++ st.cnf
        nr_clauses := st.nr_clauses + cs.length }
  { st with
    opb := OpbLine.eqn
             ((lhs.map (fun x => (⟨1, false, x⟩ : OpbTerm)))
               ++ (List.range rhs.length).map
                    (fun i => (⟨-((2 : Int) ^ i), false, rhs.getD i 0⟩ : OpbTerm)))
             0 :: st.opb
    nr_constraints := st.nr_constraints + 1 }

/-- Mirrors `xor2()`: with XOR clauses enabled one `x` line per bit, otherwise
the forbidden-row enumeration over `j < 8`, keeping the rows with
`popcount(j ^ 1)` even (the C++ code `continue`s on odd). -/
def xor2 (cfg : Config) (r a b : Nat → Var) (n : Nat) (st : St) : St :=
  let st := comment "xor2" st
  if cfg.use_xor_clauses then
    (List.range n).foldl
      (fun st i => xor_clause [(r i, false), (a i, true), (b i, true)] st) st
  else
    (List.range n).foldl
      (fun st i =>
        (List.range 8).foldl
          (fun st j =>
            if popcount (j ^^^ 1) % 2 = 1 then st
            else
              clause [(r i, j &&& 1 == 0), (a i, !(j &&& 2 == 0)), (b i, !(j &&& 4 == 0))] st)
          st)
      st

/-- Mirrors `xor3()` (the C++ default argument `n = 32` is passed
explicitly). -/
def xor3 (cfg : Config) (r a b c : Nat → Var) (n : Nat) (st : St) : St :=
  let st := comment "xor3" st
  if cfg.use_xor_clauses then
    (List.range n).foldl
      (fun st i => xor_clause [(r i, false), (a i, true), (b i, true), (c i, true)] st) st
  else
    (List.range n).foldl
      (fun st i =>
        (List.range 16).foldl
          (fun st j =>
            if popcount (j ^^^ 1) % 2 = 0 then st
            else
              clause [(r i, j &&& 1 == 0), (a i, !(j &&& 2 == 0)),
                      (b i, !(j &&& 4 == 0)), (c i, !(j &&& 8 == 0))] st)
          st)
      st

/-- Mirrors `xor4()` (always 32 bits wide). -/
def xor4 (cfg : Config) (r a b c d : Nat → Var) (st : St) : St :=
  let st := comment "xor4" st
  if cfg.use_xor_clauses then
    (List.range 32).foldl
      (fun st i =>
        xor_clause [(r i, false), (a i, true), (b i, true), (c i, true), (d i, true)] st)
      st
  else
    (List.range 32).foldl
      (fun st i =>
        (List.range 32).foldl
          (fun st j =>
            if popcount (j ^^^ 1) % 2 = 1 then st
            else
              clause [(r i, j &&& 1 == 0), (a i, !(j &&& 2 == 0)),
                      (b i, !(j &&& 4 == 0)), (c i, !(j &&& 8 == 0)),
                      (d i, !(j &&& 16 == 0))] st)
          st)
      st

/-- Mirrors `eq()`. -/
def eq (cfg : Config) (a b : Nat → Var) (n : Nat) (st : St) : St :=
  if cfg.use_xor_clauses then
    (List.range n).foldl (fun st i => xor_clause [(a i, false), (b i, true)] st) st
  else
    (List.range n).foldl
      (fun st i => clause [(a i, true), (b i, false)] (clause [(a i, false), (b i, true)] st))
      st

/-- Mirrors `neq()`. -/
def neq (cfg : Config) (a b : Nat → Var) (n : Nat) (st : St) : St :=
  if cfg.use_xor_clauses then
    (List.range n).foldl (fun st i => xor_clause [(a i, true), (b i, true)] st) st
  else
    (List.range n).foldl
      (fun st i => clause [(a i, false), (b i, false)] (clause [(a i, true), (b i, true)] st))
      st

/-- Mirrors `and2()`. -/
def and2 (r a b : Nat → Var) (n : Nat) (st : St) : St :=
  (List.range n).foldl
    (fun st i =>
      clause [(r i, false), (b i, true)]
        (clause [(r i, false), (a i, true)]
          (clause [(r i, true), (a i, false), (b i, false)] st)))
    st

/-- Mirrors `or2()`. -/
def or2 (r a b : Nat → Var) (n : Nat) (st : St) : St :=
  (List.range n).foldl
    (fun st i =>
      clause [(r i, true), (b i, false)]
        (clause [(r i, true), (a i, false)]
          (clause [(r i, false), (a i, true), (b i, true)] st)))
    st

/-- The half-adder column loop shared by `add2` and `add5` (the C++ code
duplicates it textually; `inputs` is `[a, b]` resp. `[a, b, c, d, e]`).
For each bit column `i < 32`: append the input bits of column `i` to the
addends routed there by earlier columns, allocate `m = floor(log2(k))` fresh
carry bits, route carry `j` into column `i + j`, and emit the half-adder
constraint `lhs = [addends, inputs]`, `rhs = [r i, carries]`. -/
def addColumns (cfg : Config) (label : String) (inputs : List (Nat → Var))
    (r : Nat → Var) (st : St) : St :=
  ((List.range 32).foldl
    (fun (acc : (Nat → List Var) × St) i =>
      let addends := acc.1
      let st := acc.2
      let col := addends i ++ inputs.map (fun w => w i)
      let m := log2floor col.length
      let rs := new_vars cfg (label ++ "_rhs[" ++ toString i ++ "]") m true st
      let rhsv := rs.1
      let rhs : List Var := r i :: (List.range m).map rhsv
      let addends := fun j =>
        if i < j ∧ j ≤ i + m then addends j ++ [rhsv (j - i - 1)] else addends j
      (addends, halfadder cfg col rhs rs.2))
    (fun _ => [], st)).2

/-- Mirrors `add2()`: Tseitin ripple-carry, compact pseudo-boolean equation,
or the half-adder column encoding. -/
def add2 (cfg : Config) (label : String) (r a b : Nat → Var) (st : St) : St :=
  let st := comment "add2" st
  if cfg.use_tseitin_adders then
    let cs := new_vars cfg "carry" 31 true st
    let c := cs.1
    let t0s := new_vars cfg "t0" 31 true cs.2
    let t0 := t0s.1
    let t1s := new_vars cfg "t1" 31 true t0s.2
    let t1 := t1s.1
    let t2s := new_vars cfg "t2" 31 true t1s.2
    let t2 := t2s.1
    let st := and2 c a b 1 t2s.2
    let st := xor2 cfg r a b 1 st
    let st := xor2 cfg t0 (fun i => a (i + 1)) (fun i => b (i + 1)) 31 st
    let st := and2 t1 (fun i => a (i + 1)) (fun i => b (i + 1)) 31 st
    let st := and2 t2 t0 c 31 st
    let st := or2 (fun i => c (i + 1)) t1 t2 30 st
    xor2 cfg (fun i => r (i + 1)) t0 c 31 st
  else if cfg.use_compact_adders then
    { st with
      opb := OpbLine.eqn
               ((List.range 32).map (fun i => (⟨(2 : Int) ^ i, false, a i⟩ : OpbTerm))
                 ++ (List.range 32).map (fun i => (⟨(2 : Int) ^ i, false, b i⟩ : OpbTerm))
                 ++ (List.range 32).map (fun i => (⟨-((2 : Int) ^ i), false, r i⟩ : OpbTerm)))
               0 :: st.opb
      nr_constraints := st.nr_constraints + 1 }
  else
    addColumns cfg label [a, b] r st

/-- Mirrors `add5()`. -/
def add5 (cfg : Config) (label : String) (r a b c d e : Nat → Var) (st : St) : St :=
  let st := comment "add5" st
  if cfg.use_tseitin_adders then
    let t0s := new_vars cfg "t0" 32 true st
    let t0 := t0s.1
    let t1s := new_vars cfg "t1" 32 true t0s.2
    let t1 := t1s.1
    let t2s := new_vars cfg "t2" 32 true t1s.2
    let t2 := t2s.1
    let st := add2 cfg label t0 a b t2s.2
    let st := add2 cfg label t1 c d st
    let st := add2 cfg label t2 t0 t1 st
    add2 cfg label r t2 e st
  else if cfg.use_compact_adders then
    { st with
      opb := OpbLine.eqn
               ((List.range 32).map (fun i => (⟨(2 : Int) ^ i, false, a i⟩ : OpbTerm))
                 ++ (List.range 32).map (fun i => (⟨(2 : Int) ^ i, false, b i⟩ : OpbTerm))
                 ++ (List.range 32).map (fun i => (⟨(2 : Int) ^ i, false, c i⟩ : OpbTerm))
                 ++ (List.range 32).map (fun i => (⟨(2 : Int) ^ i, false, d i⟩ : OpbTerm))
                 ++ (List.range 32).map (fun i => (⟨(2 : Int) ^ i, false, e i⟩ : OpbTerm))
                 ++ (List.range 32).map (fun i => (⟨-((2 : Int) ^ i), false, r i⟩ : OpbTerm)))
               0 :: st.opb
      nr_constraints := st.nr_constraints + 1 }
  else
    addColumns cfg label [a, b, c, d, e] r st

/-- Mirrors the array version of `rotl()`: a pure rewiring,
`r[i] = x[(i + 32 - n) % 32]`. -/
def rotl (x : Nat → Var) (n : Nat) : Nat → Var :=
  fun i => x ((i + 32 - n) % 32)

/-- The six clauses emitted per bit for the round function of rounds 0..19,
`f = (b ∧ c) ∨ (¬b ∧ d)`, in source order. -/
def chBit (f b c d : Nat → Var) (j : Nat) (st : St) : St :=
  let st := clause [(f j, false), (b j, false), (c j, true)] st
  let st := clause [(f j, false), (b j, true), (d j, true)] st
  let st := clause [(f j, false), (c j, true), (d j, true)] st
  let st := clause [(f j, true), (b j, false), (c j, false)] st
  let st := clause [(f j, true), (b j, true), (d j, false)] st
  clause [(f j, true), (c j, false), (d j, false)] st

/-- The six clauses emitted per bit for the round function of rounds 40..59,
`f = (b ∧ c) ∨ (b ∧ d) ∨ (c ∧ d)` (majority), in source order; the seventh
clause `f ∨ ¬b ∨ ¬c ∨ ¬d` of the naive encoding is commented out in the
source. -/
def majBit (f b c d : Nat → Var) (j : Nat) (st : St) : St :=
  let st := clause [(f j, false), (b j, true), (c j, true)] st
  let st := clause [(f j, false), (b j, true), (d j, true)] st
  let st := clause [(f j, false), (c j, true), (d j, true)] st
  let st := clause [(f j, true), (b j, false), (c j, false)] st
  let st := clause [(f j, true), (b j, false), (d j, false)] st
  clause [(f j, true), (c j, false), (d j, false)] st

/-- The wire words of one `sha1` circuit instance (the public members of the
C++ class). -/
structure sha1 where
  w : Nat → Nat → Var
  h_in : Nat → Nat → Var
  h_out : Nat → Nat → Var
  a : Nat → Nat → Var

/-- The fold underlying `allocWords`: allocate one 32-bit word per index,
appending each word to the accumulator. -/
def allocFold (cfg : Config) (label : Nat → String) (decision_var : Bool)
    (idxs : List Nat) (acc : List (Nat → Var) × St) : List (Nat → Var) × St :=
  idxs.foldl
    (fun (acc : List (Nat → Var) × St) i =>
      let xs := new_vars cfg (label i) 32 decision_var acc.2
      (acc.1 ++ [xs.1], xs.2))
    acc

/-- Allocate one 32-bit word per index in `idxs` (a helper for the
allocation loops of the `sha1` constructor). -/
def allocWords (cfg : Config) (idxs : List Nat) (label : Nat → String)
    (decision_var : Bool) (st : St) : List (Nat → Var) × St :=
  allocFold cfg label decision_var idxs ([], st)

/-- The round constants and initial chaining values of SHA-1. -/
def K0 : Nat := 0x5a827999
def K1 : Nat := 0x6ed9eba1
def K2 : Nat := 0x8f1bbcdc
def K3 : Nat := 0xca62c1d6
def H0 : Nat := 0x67452301
def H1 : Nat := 0xefcdab89
def H2 : Nat := 0x98badcfe
def H3 : Nat := 0x10325476
def H4 : Nat := 0xc3d2e1f0

/-- The allocation phase of the `sha1` constructor: the 16 input words
`w[0..16)` (decision flag `!restrict_branching`), the schedule temporaries
`wt[16..R)`, the chaining words and the round outputs `a[5..R+5)`. -/
def sha1AllocPhase (cfg : Config) (nr_rounds : Nat) (name : String) (st : St) :
    (List (Nat → Var) × List (Nat → Var) × List (Nat → Var) × List (Nat → Var)
      × List (Nat → Var)) × St :=
  let ws := allocWords cfg (List.range 16)
    (fun i => "w" ++ name ++ "[" ++ toString i ++ "]") (!cfg.restrict_branching) st
  let wts := allocWords cfg (List.range' 16 (nr_rounds - 16))
    (fun i => "w" ++ name ++ "[" ++ toString i ++ "]") true ws.2
  let hins := allocWords cfg (List.range 5)
    (fun i => "h" ++ name ++ "_in" ++ toString i) true wts.2
  let houts := allocWords cfg (List.range 5)
    (fun i => "h" ++ name ++ "_out" ++ toString i) true hins.2
  let als := allocWords cfg (List.range nr_rounds)
    (fun i => "a[" ++ toString (i + 5) ++ "]") true houts.2
  ((ws.1, wts.1, hins.1, houts.1, als.1), als.2)

/-- The step of the message-schedule loop: `xor4` into `wt[i]` from the four
earlier schedule words. -/
def schedStep (cfg : Config) (wt w : Nat → Nat → Var) (st : St) (i : Nat) : St :=
  xor4 cfg (wt i) (w (i - 3)) (w (i - 8)) (w (i - 14)) (w (i - 16)) st

/-- One round body of the compression loop: the rotated window, the fresh
round-function word `f`, the round-function constraints chosen by the round
index, and the `add5`. -/
def sha1Round (cfg : Config) (aF wF : Nat → Nat → Var) (kF : Nat → Nat → Var)
    (st : St) (i : Nat) : St :=
  let prev_a := rotl (aF (i + 4)) 5
  let b := rotl (aF (i + 3)) 0
  let c := rotl (aF (i + 2)) 30
  let d := rotl (aF (i + 1)) 30
  let e := rotl (aF i) 30
  let fs := new_vars cfg ("f[" ++ toString i ++ "]") 32 true st
  let f := fs.1
  let st :=
    if i < 20 then
      (List.range 32).foldl (fun st j => chBit f b c d j st) fs.2
    else if i < 40 then
      xor3 cfg f b c d 32 fs.2
    else if i < 60 then
      (List.range 32).foldl (fun st j => majBit f b c d j st) fs.2
    else
      xor3 cfg f b c d 32 fs.2
  add5 cfg ("a[" ++ toString (i + 5) ++ "]") (aF (i + 5)) prev_a f e (kF (i / 20))
    (wF i) st

/-- Mirrors the `sha1` constructor: allocation, message schedule, round
constants, pinned chaining inputs, the pre-rotated initial window
`a[0..4]`, the `nr_rounds` compression rounds, and the five final
additions into `h_out`. -/
def sha1.build (cfg : Config) (nr_rounds : Nat) (name : String) (st : St) :
    sha1 × St :=
  let st := comment "sha1" st
  let st := comment ("parameter nr_rounds = " ++ toString nr_rounds) st
  let alloc := sha1AllocPhase cfg nr_rounds name st
  let st := alloc.2
  let z : Nat → Var := fun _ => 0
  let wtF : Nat → Nat → Var := fun i => alloc.1.2.1.getD (i - 16) z
  let wF : Nat → Nat → Var := fun i =>
    if i < 16 then alloc.1.1.getD i z else rotl (wtF i) 1
  let hinF : Nat → Nat → Var := fun i => alloc.1.2.2.1.getD i z
  let houtF : Nat → Nat → Var := fun i => alloc.1.2.2.2.1.getD i z
  -- message schedule: xor4 into wt[i], then w[i] is the rewiring rotl(wt[i], 1)
  let st := (List.range' 16 (nr_rounds - 16)).foldl (schedStep cfg wtF wF) st
  -- fix constants
  let k0s := new_constant cfg "k[0]" K0 st
  let k1s := new_constant cfg "k[1]" K1 k0s.2
  let k2s := new_constant cfg "k[2]" K2 k1s.2
  let k3s := new_constant cfg "k[3]" K3 k2s.2
  let st := k3s.2
  let kF : Nat → Nat → Var := fun i => [k0s.1, k1s.1, k2s.1, k3s.1].getD i z
  let st := constant32 (hinF 0) H0 st
  let st := constant32 (hinF 1) H1 st
  let st := constant32 (hinF 2) H2 st
  let st := constant32 (hinF 3) H3 st
  let st := constant32 (hinF 4) H4 st
  let aF : Nat → Nat → Var := fun i =>
    if i = 4 then rotl (hinF 0) 32
    else if i = 3 then rotl (hinF 1) 32
    else if i = 2 then rotl (hinF 2) 2
    else if i = 1 then rotl (hinF 3) 2
    else if i = 0 then rotl (hinF 4) 2
    else alloc.1.2.2.2.2.getD (i - 5) z
  let st := (List.range nr_rounds).foldl (sha1Round cfg aF wF kF) st
  -- rotate back and compute the chaining outputs
  let c := rotl (aF (nr_rounds + 2)) 30
  let d := rotl (aF (nr_rounds + 1)) 30
  let e := rotl (aF (nr_rounds + 0)) 30
  let st := add2 cfg "h_out" (houtF 0) (hinF 0) (aF (nr_rounds + 4)) st
  let st := add2 cfg "h_out" (houtF 1) (hinF 1) (aF (nr_rounds + 3)) st
  let st := add2 cfg "h_out" (houtF 2) (hinF 2) c st
  let st := add2 cfg "h_out" (houtF 3) (hinF 3) d st
  let st := add2 cfg "h_out" (houtF 4) (hinF 4) e st
  (⟨wF, hinF, houtF, aF⟩, st)

/-- Mirrors the `uint32_t` version of `rotl()`:
`(x << n) | (x >> (32 - n))` in 32-bit arithmetic. -/
def rotl32 (x n : Nat) : Nat :=
  ((x <<< n) % 2 ^ 32) ||| (x >>> (32 - n))

/-- One iteration of the schedule-extension loop of `sha1_forward()`:
`w[i] = rotl(w[i - 3] ^ w[i - 8] ^ w[i - 14] ^ w[i - 16], 1)` in place. -/
def fwdSchedStep (ws : List Nat) (i : Nat) : List Nat :=
  ws.set i
    (rotl32 (ws.getD (i - 3) 0 ^^^ ws.getD (i - 8) 0 ^^^ ws.getD (i - 14) 0
              ^^^ ws.getD (i - 16) 0) 1)

/-- The round function of `sha1_forward()` by round index.  `~b` on
`uint32_t` is `b ^^^ (2^32 - 1)`. -/
def fwdF (i b c d : Nat) : Nat :=
  if i < 20 then (b &&& c) ||| ((b ^^^ (2 ^ 32 - 1)) &&& d)
  else if i < 40 then b ^^^ c ^^^ d
  else if i < 60 then (b &&& c) ||| (b &&& d) ||| (c &&& d)
  else b ^^^ c ^^^ d

/-- The round constant of `sha1_forward()` by round index. -/
def fwdK (i : Nat) : Nat :=
  if i < 20 then K0 else if i < 40 then K1 else if i < 60 then K2 else K3

/-- One iteration of the round loop of `sha1_forward()` on the state tuple
`(a, b, c, d, e)`. -/
def fwdStep (w : Nat → Nat) (s : Nat × Nat × Nat × Nat × Nat) (i : Nat) :
    Nat × Nat × Nat × Nat × Nat :=
  let a := s.1
  let b := s.2.1
  let c := s.2.2.1
  let d := s.2.2.2.1
  let e := s.2.2.2.2
  let f := fwdF i b c d
  let k := fwdK i
  let t := (rotl32 a 5 + f + e + k + w i) % 2 ^ 32
  (t, a, rotl32 b 30, c, d)

/-- Mirrors `sha1_forward()`: extend the message schedule in place, run
`nr_rounds` rounds of the compression function in native 32-bit arithmetic,
and add the initial chaining values into the result. -/
def sha1_forward (nr_rounds : Nat) (w0 : Nat → Nat) : Nat → Nat :=
  let ws := (List.range' 16 (nr_rounds - 16)).foldl fwdSchedStep
    ((List.range 80).map w0)
  let w : Nat → Nat := fun i => ws.getD i 0
  let s := (List.range nr_rounds).foldl (fwdStep w) (H0, H1, H2, H3, H4)
  fun i =>
    if i = 0 then (H0 + s.1) % 2 ^ 32
    else if i = 1 then (H1 + s.2.1) % 2 ^ 32
    else if i = 2 then (H2 + s.2.2.1) % 2 ^ 32
    else if i = 3 then (H3 + s.2.2.2.1) % 2 ^ 32
    else (H4 + s.2.2.2.2) % 2 ^ 32

/-- The randomness consumed by one attack, as a function of the resolved
seed: the `lrand48()` draws for the reference message and the two
`random_shuffle` results (the shuffled index vectors `[0..512)` and
`[0..160)`).  The C++ code obtains all of these deterministically from
`srand(seed); srand48(rand())`; the PRNGs and the libstdc++ shuffle are
outside the repository, so they are abstracted as this record. -/
structure Rng where
  lrand48 : Nat → Nat
  perm512 : List Nat
  perm160 : List Nat

/-- The stderr log produced while generating. -/
abbrev Stderr := List String

/-- Mirrors `preimage()`: build one circuit, draw a reference message, hash
it forward, pin `nr_message_bits` shuffled message-bit positions and
`nr_hash_bits` shuffled hash-bit positions to their reference values. -/
def preimage (cfg : Config) (rng : Rng) (st : St) : St × Stderr :=
  let fs := sha1.build cfg cfg.nr_rounds "" st
  let f := fs.1
  let w : Nat → Nat := fun i => rng.lrand48 i
  let h := sha1_forward cfg.nr_rounds w
  let st := comment ("Fix " ++ toString cfg.nr_message_bits ++ " message bits") fs.2
  let message_bits := rng.perm512
  let st := (List.range cfg.nr_message_bits).foldl
    (fun st i =>
      let p := message_bits.getD i 0
      constant (f.w (p / 32) (p % 32)) ((w (p / 32)).testBit (p % 32)) st)
    st
  let st := comment ("Fix " ++ toString cfg.nr_hash_bits ++ " hash bits") st
  let hash_bits := rng.perm160
  let st := (List.range cfg.nr_hash_bits).foldl
    (fun st i =>
      let p := hash_bits.getD i 0
      constant (f.h_out (p / 32) (p % 32)) ((h (p / 32)).testBit (p % 32)) st)
    st
  (st, [])

/-- Mirrors `second_preimage()`: like `preimage()`, but the first selected
message-bit position (if any) is pinned to the complement of its reference
value. -/
def second_preimage (cfg : Config) (rng : Rng) (st : St) : St × Stderr :=
  let fs := sha1.build cfg cfg.nr_rounds "" st
  let f := fs.1
  let w : Nat → Nat := fun i => rng.lrand48 i
  let h := sha1_forward cfg.nr_rounds w
  let st := comment ("Fix " ++ toString cfg.nr_message_bits ++ " message bits") fs.2
  let message_bits := rng.perm512
  let st :=
    if 0 < cfg.nr_message_bits then
      let p := message_bits.getD 0 0
      constant (f.w (p / 32) (p % 32)) (!(w (p / 32)).testBit (p % 32)) st
    else st
  let st := (List.range' 1 (cfg.nr_message_bits - 1)).foldl
    (fun st i =>
      let p := message_bits.getD i 0
      constant (f.w (p / 32) (p % 32)) ((w (p / 32)).testBit (p % 32)) st)
    st
  let st := comment ("Fix " ++ toString cfg.nr_hash_bits ++ " hash bits") st
  let hash_bits := rng.perm160
  let st := (List.range cfg.nr_hash_bits).foldl
    (fun st i =>
      let p := hash_bits.getD i 0
      constant (f.h_out (p / 32) (p % 32)) ((h (p / 32)).testBit (p % 32)) st)
    st
  (st, [])

/-- Mirrors `collision()`: build two circuits, warn (on stderr) when message
bits were requested, force inequality of one shuffled message bit and
equality of `nr_hash_bits` shuffled hash bits. -/
def collision (cfg : Config) (rng : Rng) (st : St) : St × Stderr :=
  let fs := sha1.build cfg cfg.nr_rounds "0" st
  let f := fs.1
  let gs := sha1.build cfg cfg.nr_rounds "1" fs.2
  let g := gs.1
  let st := gs.2
  let warn : Stderr :=
    if 0 < cfg.nr_message_bits then
      ["warning: collision attacks do not use fixed message bits"]
    else []
  let st := comment ("Fix " ++ toString cfg.nr_message_bits ++ " message bits") st
  let message_bits := rng.perm512
  let st :=
    let p := message_bits.getD 0 0
    neq cfg (fun j => f.w (p / 32) (p % 32 + j)) (fun j => g.w (p / 32) (p % 32 + j)) 1 st
  let st := comment ("Fix " ++ toString cfg.nr_hash_bits ++ " hash bits") st
  let hash_bits := rng.perm160
  let st := (List.range cfg.nr_hash_bits).foldl
    (fun st i =>
      let p := hash_bits.getD i 0
      eq cfg (fun j => f.h_out (p / 32) (p % 32 + j)) (fun j => g.h_out (p / 32) (p % 32 + j))
        1 st)
    st
  (st, warn)

/-- One line of standard output. -/
inductive OutLine where
  | cnfHeader (vars clauses : Nat)
  | opbHeader (vars constraints : Nat)
  | cnfL (l : CnfLine)
  | opbL (l : OpbLine)
deriving DecidableEq

/-- The observable result of a run: exit code, stdout, stderr. -/
structure RunResult where
  exitCode : Nat
  stdout : List OutLine
  stderr : Stderr

/-- Mirrors `main()` after command-line parsing: the validation sequence
(each failing check reports to stderr and returns `EXIT_FAILURE` before
anything is written to stdout), the preamble comments, the seed resolution
`seed = time(0)` overridden by `--seed`, the attack dispatch, and the final
flush of the requested buffers behind their header lines.  `now` models
`time(0)` and `rngOf` models the PRNG dialogue as a function of the resolved
seed. -/
def mainModel (cfg : Config) (now : Nat) (rngOf : Nat → Rng) : RunResult :=
  if cfg.attack ≠ "preimage" ∧ cfg.attack ≠ "second-preimage" ∧ cfg.attack ≠ "collision" then
    ⟨1, [], ["Invalid --attack"]⟩
  else if ¬cfg.cnf ∧ ¬cfg.opb then
    ⟨1, [], ["Must specify either --cnf or --opb"]⟩
  else if cfg.use_xor_clauses ∧ ¬cfg.cnf then
    ⟨1, [], ["Cannot specify --xor without --cnf"]⟩
  else if cfg.use_halfadder_clauses ∧ ¬cfg.cnf then
    ⟨1, [], ["Cannot specify --halfadder without --cnf"]⟩
  else if cfg.use_compact_adders ∧ ¬cfg.opb then
    ⟨1, [], ["Cannot specify --compact-adders without --opb"]⟩
  else
    let st := St.init
    let st := comment "" st
    let st := comment "Instance generated by sha1-sat" st
    let st := comment "Written by Vegard Nossum <vegard.nossum@gmail.com>" st
    let st := comment "<https://github.com/vegard/sha1-sat>" st
    let st := comment "" st
    let st := comment "command line: (omitted)" st
    let seed := cfg.seed.getD now
    let st := comment ("parameter seed = " ++ toString seed) st
    let rng := rngOf seed
    let res :=
      if cfg.attack = "preimage" then preimage cfg rng st
      else if cfg.attack = "second-preimage" then second_preimage cfg rng st
      else collision cfg rng st
    let st := res.1
    let errs := res.2
    let outCnf : List OutLine :=
      if cfg.cnf then
        OutLine.cnfHeader st.nr_variables st.nr_clauses :: st.cnf.reverse.map OutLine.cnfL
      else []
    let outOpb : List OutLine :=
      if cfg.opb then
        OutLine.opbHeader st.nr_variables st.nr_constraints
          :: st.opb.reverse.map OutLine.opbL
      else []
    ⟨0, outCnf ++ outOpb, errs⟩

/-! ### Satisfaction semantics -/

/-- The truth value of a literal under an assignment. -/
def evalLit (σ : Var → Bool) (l : Lit) : Bool :=
  if l.2 then σ l.1 else !σ l.1

/-- A clause is satisfied when some literal is true. -/
def evalClause (σ : Var → Bool) (c : List Lit) : Bool :=
  c.any (evalLit σ)

/-- An XOR clause (`x l1 ... lk 0`) is satisfied when an odd number of its
literals are true. -/
def evalParity (σ : Var → Bool) (c : List Lit) : Bool :=
  c.foldr (fun l acc => xor (evalLit σ l) acc) false

/-- The number of true variables in a list. -/
def countTrue (σ : Var → Bool) (vs : List Var) : Nat :=
  (vs.map (fun v => (σ v).toNat)).sum

/-- The value of a bit list read as a binary number, least significant
first. -/
def binValue (σ : Var → Bool) : List Var → Nat
  | [] => 0
  | v :: vs => (σ v).toNat + 2 * binValue σ vs

/-- Satisfaction of one CNF line.  Comments and decision hints do not
constrain the assignment; a native half-adder line `h lhs 0 rhs 0` asserts
that the unary sum of `lhs` equals the binary value of `rhs`. -/
def CnfLine.sat (σ : Var → Bool) : CnfLine → Bool
  | .comm _ => true
  | .dhint _ _ => true
  | .cls c => evalClause σ c
  | .xcls c => evalParity σ c
  | .hline lhs rhs => countTrue σ lhs == binValue σ rhs

/-- Satisfaction of an entire CNF buffer. -/
def cnfSat (σ : Var → Bool) (ls : List CnfLine) : Bool :=
  ls.all (CnfLine.sat σ)

/-- The integer value of one OPB term (`~x` is `1 - x`). -/
def evalTerm (σ : Var → Bool) (t : OpbTerm) : Int :=
  t.coeff * (if t.neg then 1 - ((σ t.var).toNat : Int) else ((σ t.var).toNat : Int))

def evalTerms (σ : Var → Bool) (ts : List OpbTerm) : Int :=
  (ts.map (evalTerm σ)).sum

/-- Satisfaction of one OPB line. -/
def OpbLine.sat (σ : Var → Bool) : OpbLine → Bool
  | .comm _ => true
  | .ge ts k => k ≤ evalTerms σ ts
  | .eqn ts k => evalTerms σ ts == k

/-- Satisfaction of an entire OPB buffer. -/
def opbSat (σ : Var → Bool) (ls : List OpbLine) : Bool :=
  ls.all (OpbLine.sat σ)

/-- The value of the low `n` bits of a wire word under an assignment
(bit `i` of the word is variable `x i`). -/
def wordVal (σ : Var → Bool) (x : Nat → Var) : Nat → Nat
  | 0 => 0
  | n + 1 => wordVal σ x n + 2 ^ n * (σ (x n)).toNat

/-- The 32-bit value of a wire word. -/
def wval (σ : Var → Bool) (x : Nat → Var) : Nat := wordVal σ x 32

/-- Pointwise description of a word: bit `i` of `x` has value `g i` for all
`i < n`.  All gate-level satisfaction facts take this shape. -/
def bitsEq (σ : Var → Bool) (x : Nat → Var) (g : Nat → Bool) (n : Nat) : Bool :=
  (List.range n).all (fun i => σ (x i) == g i)

/-! ### Basic satisfaction lemmas -/

section SatLemmas

variable (σ : Var → Bool)

@[simp] theorem cnfSat_nil : cnfSat σ [] = true := rfl

@[simp] theorem cnfSat_cons (l : CnfLine) (ls : List CnfLine) :
    cnfSat σ (l :: ls) = (CnfLine.sat σ l && cnfSat σ ls) := by
  simp [cnfSat]

@[simp] theorem cnfSat_append (xs ys : List CnfLine) :
    cnfSat σ (xs ++ ys) = (cnfSat σ xs && cnfSat σ ys) := by
  simp [cnfSat]

@[simp] theorem opbSat_nil : opbSat σ [] = true := rfl

@[simp] theorem opbSat_cons (l : OpbLine) (ls : List OpbLine) :
    opbSat σ (l :: ls) = (OpbLine.sat σ l && opbSat σ ls) := by
  simp [opbSat]

@[simp] theorem opbSat_append (xs ys : List OpbLine) :
    opbSat σ (xs ++ ys) = (opbSat σ xs && opbSat σ ys) := by
  simp [opbSat]

@[simp] theorem cnfSat_comment (s : String) (st : St) :
    cnfSat σ (comment s st).cnf = cnfSat σ st.cnf := by
  simp [comment, CnfLine.sat]

@[simp] theorem opbSat_comment (s : String) (st : St) :
    opbSat σ (comment s st).opb = opbSat σ st.opb := by
  simp [comment, OpbLine.sat]

@[simp] theorem comment_nr_variables (s : String) (st : St) :
    (comment s st).nr_variables = st.nr_variables := rfl

@[simp] theorem comment_opb (s : String) (st : St) :
    (comment s st).opb = OpbLine.comm s :: st.opb := rfl

@[simp] theorem new_vars_fst (cfg : Config) (lab : String) (n : Nat) (dec : Bool)
    (st : St) :
    (new_vars cfg lab n dec st).1 = fun i => st.nr_variables + 1 + i := rfl

@[simp] theorem new_vars_nr_variables (cfg : Config) (lab : String) (n : Nat)
    (dec : Bool) (st : St) :
    (new_vars cfg lab n dec st).2.nr_variables = st.nr_variables + n := by
  simp only [new_vars]
  by_cases h : cfg.restrict_branching <;> simp [h, comment]

@[simp] theorem cnfSat_new_vars (cfg : Config) (lab : String) (n : Nat)
    (dec : Bool) (st : St) :
    cnfSat σ (new_vars cfg lab n dec st).2.cnf = cnfSat σ st.cnf := by
  simp only [new_vars]
  by_cases h : cfg.restrict_branching
  · simp [h, comment, cnfSat, CnfLine.sat, List.all_eq_true]
  · simp [h, comment, cnfSat, CnfLine.sat]

@[simp] theorem opbSat_new_vars (cfg : Config) (lab : String) (n : Nat)
    (dec : Bool) (st : St) :
    opbSat σ (new_vars cfg lab n dec st).2.opb = opbSat σ st.opb := by
  simp only [new_vars]
  by_cases h : cfg.restrict_branching
  · simp [h, comment, OpbLine.sat]
  · simp [h, comment, OpbLine.sat]

/-- A single positive or negative literal evaluates to a boolean equality. -/
theorem evalClause_singleton (r : Var) (b : Bool) :
    evalClause σ [(r, b)] = (σ r == b) := by
  cases b <;> cases h : σ r <;> simp [evalClause, evalLit, h]

@[simp] theorem cnfSat_constant (r : Var) (b : Bool) (st : St) :
    cnfSat σ (constant r b st).cnf = ((σ r == b) && cnfSat σ st.cnf) := by
  simp [constant, CnfLine.sat, evalClause_singleton]

@[simp] theorem opbSat_constant (r : Var) (b : Bool) (st : St) :
    opbSat σ (constant r b st).opb = ((σ r == b) && opbSat σ st.opb) := by
  simp only [constant, opbSat_cons]
  congr 1
  cases b <;> cases h : σ r <;>
    simp [OpbLine.sat, evalTerms, evalTerm, h]

@[simp] theorem constant_nr_variables (r : Var) (b : Bool) (st : St) :
    (constant r b st).nr_variables = st.nr_variables := rfl

@[simp] theorem cnfSat_clause (v : List Lit) (st : St) :
    cnfSat σ (clause v st).cnf = (evalClause σ v && cnfSat σ st.cnf) := by
  simp [clause, CnfLine.sat]

@[simp] theorem clause_nr_variables (v : List Lit) (st : St) :
    (clause v st).nr_variables = st.nr_variables := rfl

theorem evalTerm_of_lit (l : Lit) :
    evalTerm σ ⟨1, !l.2, l.1⟩ = if evalLit σ l then 1 else 0 := by
  rcases l with ⟨x, p⟩
  cases p <;> cases h : σ x <;> simp [evalTerm, evalLit, h]

theorem evalTerms_of_clause (v : List Lit) :
    evalTerms σ (v.map (fun l => ⟨1, !l.2, l.1⟩)) = (v.countP (evalLit σ) : Int) := by
  induction v with
  | nil => simp [evalTerms]
  | cons l ls ih =>
    simp only [List.map_cons, evalTerms, List.sum_cons] at *
    rw [evalTerm_of_lit σ l, ih, List.countP_cons]
    cases h : evalLit σ l <;> simp [h] <;> omega

/-- The OPB twin `∑ lᵢ >= 1` of a clause is satisfied exactly when the clause
is. -/
theorem opb_ge_clause (v : List Lit) :
    (OpbLine.sat σ (OpbLine.ge (v.map (fun l => ⟨1, !l.2, l.1⟩)) 1)) = evalClause σ v := by
  simp only [OpbLine.sat, evalTerms_of_clause, evalClause]
  rcases hc : v.countP (evalLit σ) with _ | n
  · have hany : v.any (evalLit σ) = false := by
      rw [List.any_eq_false]
      intro a ha
      exact (List.countP_eq_zero.mp hc) a ha
    rw [hany]
    norm_num
  · have hany : v.any (evalLit σ) = true := by
      rw [List.any_eq_true]
      exact List.countP_pos_iff.mp (by omega)
    have hle : (1 : Int) ≤ ((n + 1 : Nat) : Int) := by exact_mod_cast Nat.succ_le_succ (Nat.zero_le n)
    rw [hany]
    simp [hle]

@[simp] theorem opbSat_clause (v : List Lit) (st : St) :
    opbSat σ (clause v st).opb = (evalClause σ v && opbSat σ st.opb) := by
  simp [clause, opb_ge_clause]

@[simp] theorem cnfSat_xor_clause (v : List Lit) (st : St) :
    cnfSat σ (xor_clause v st).cnf = (evalParity σ v && cnfSat σ st.cnf) := by
  simp [xor_clause, CnfLine.sat]

@[simp] theorem opbSat_xor_clause (v : List Lit) (st : St) :
    opbSat σ (xor_clause v st).opb = opbSat σ st.opb := rfl

@[simp] theorem xor_clause_nr_variables (v : List Lit) (st : St) :
    (xor_clause v st).nr_variables = st.nr_variables := rfl

end SatLemmas

/-! ### Fold lemmas

Every loop of the generator is a `List.foldl` of an emitter over an index
list.  Satisfaction of the resulting buffer decomposes into one boolean fact
per iteration; the lemmas below do this decomposition once and for all, for
an arbitrary buffer measure `P` (instantiated with CNF satisfaction, OPB
satisfaction, and line counts). -/

section FoldLemmas

theorem sat_foldl {P : St → Bool} {step : St → Nat → St} {fact : Nat → Bool}
    (h : ∀ st i, P (step st i) = (fact i && P st)) :
    ∀ (l : List Nat) (st : St), P (l.foldl step st) = (l.all fact && P st) := by
  intro l
  induction l with
  | nil => intro st; simp
  | cons a l ih =>
    intro st
    rw [List.foldl_cons, ih, h, List.all_cons]
    cases fact a <;> cases l.all fact <;> simp

theorem nrv_foldl {step : St → Nat → St} {δ : Nat}
    (h : ∀ st i, (step st i).nr_variables = st.nr_variables + δ) :
    ∀ (l : List Nat) (st : St),
      (l.foldl step st).nr_variables = st.nr_variables + δ * l.length := by
  intro l
  induction l with
  | nil => intro st; simp
  | cons a l ih =>
    intro st
    rw [List.foldl_cons, ih, h]
    simp [List.length_cons]
    ring

theorem nrv_foldl_const {step : St → Nat → St}
    (h : ∀ st i, (step st i).nr_variables = st.nr_variables) :
    ∀ (l : List Nat) (st : St), (l.foldl step st).nr_variables = st.nr_variables := by
  intro l
  induction l with
  | nil => intro st; rfl
  | cons a l ih => intro st; rw [List.foldl_cons, ih, h]

theorem cnfSat_foldl {σ : Var → Bool} {step : St → Nat → St} {f : Nat → Bool}
    (h : ∀ st i, cnfSat σ (step st i).cnf = (f i && cnfSat σ st.cnf)) :
    ∀ (l : List Nat) (st : St),
      cnfSat σ (l.foldl step st).cnf = (l.all f && cnfSat σ st.cnf) :=
  sat_foldl (P := fun st => cnfSat σ st.cnf) h

theorem opbSat_foldl {σ : Var → Bool} {step : St → Nat → St} {f : Nat → Bool}
    (h : ∀ st i, opbSat σ (step st i).opb = (f i && opbSat σ st.opb)) :
    ∀ (l : List Nat) (st : St),
      opbSat σ (l.foldl step st).opb = (l.all f && opbSat σ st.opb) :=
  sat_foldl (P := fun st => opbSat σ st.opb) h

/-- Facts of a fold whose step advances the variable counter by `δ`: one fact
per iteration, parameterised by the counter value at the start of the
iteration, accumulated innermost-first. -/
def goFacts (fact : Nat → Nat → Bool) (δ : Nat) : Nat → List Nat → Bool → Bool
  | _, [], acc => acc
  | b, i :: l, acc => goFacts fact δ (b + δ) l (fact b i && acc)

theorem sat_foldl_ctr {P : St → Bool} {step : St → Nat → St}
    {fact : Nat → Nat → Bool} {δ : Nat}
    (h : ∀ st i, P (step st i) = (fact st.nr_variables i && P st))
    (hc : ∀ st i, (step st i).nr_variables = st.nr_variables + δ) :
    ∀ (l : List Nat) (st : St),
      P (l.foldl step st) = goFacts fact δ st.nr_variables l (P st) := by
  intro l
  induction l with
  | nil => intro st; rfl
  | cons a l ih =>
    intro st
    rw [List.foldl_cons, ih, goFacts, h, hc]

theorem goFacts_extract {fact : Nat → Nat → Bool} {δ : Nat} :
    ∀ (l : List Nat) (b : Nat) (acc : Bool),
      goFacts fact δ b l acc = true →
      acc = true ∧ ∀ k (hk : k < l.length), fact (b + δ * k) (l.get ⟨k, hk⟩) = true := by
  intro l
  induction l with
  | nil => intro b acc h; exact ⟨h, by intro k hk; simp at hk⟩
  | cons a l ih =>
    intro b acc h
    obtain ⟨h1, h2⟩ := ih (b + δ) _ h
    rw [Bool.and_eq_true] at h1
    refine ⟨h1.2, ?_⟩
    intro k hk
    match k with
    | 0 => simpa using h1.1
    | k + 1 =>
      have := h2 k (by simpa using hk)
      simpa [Nat.mul_succ, Nat.add_assoc, Nat.add_comm δ _, Nat.add_left_comm] using this

theorem all_range_extract {f : Nat → Bool} {n : Nat}
    (h : (List.range n).all f = true) : ∀ i < n, f i = true := by
  intro i hi
  rw [List.all_eq_true] at h
  exact h i (List.mem_range.mpr hi)

end FoldLemmas

/-! ### Gate-level satisfaction -/

section GateLemmas

variable (σ : Var → Bool)

theorem cnfSat_constant32 (r : Nat → Var) (value : Nat) (st : St) :
    cnfSat σ (constant32 r value st).cnf
      = (bitsEq σ r (fun i => value.testBit i) 32 && cnfSat σ st.cnf) := by
  have hstep : ∀ (st : St) i,
      cnfSat σ ({ st with
        cnf := CnfLine.cls [(r i, value.testBit i)] :: st.cnf
        opb := OpbLine.eqn [⟨1, false, r i⟩] (if value.testBit i then 1 else 0) :: st.opb
        nr_clauses := st.nr_clauses + 1
        nr_constraints := st.nr_constraints + 1 } : St).cnf
        = ((σ (r i) == value.testBit i) && cnfSat σ st.cnf) := by
    intro st i
    simp [CnfLine.sat, evalClause_singleton]
  simp only [constant32]
  rw [cnfSat_foldl hstep, cnfSat_comment]
  rfl

theorem opbSat_constant32 (r : Nat → Var) (value : Nat) (st : St) :
    opbSat σ (constant32 r value st).opb
      = (bitsEq σ r (fun i => value.testBit i) 32 && opbSat σ st.opb) := by
  have hstep : ∀ (st : St) i,
      opbSat σ ({ st with
        cnf := CnfLine.cls [(r i, value.testBit i)] :: st.cnf
        opb := OpbLine.eqn [⟨1, false, r i⟩] (if value.testBit i then 1 else 0) :: st.opb
        nr_clauses := st.nr_clauses + 1
        nr_constraints := st.nr_constraints + 1 } : St).opb
        = ((σ (r i) == value.testBit i) && opbSat σ st.opb) := by
    intro st i
    simp only [opbSat_cons]
    congr 1
    cases h : value.testBit i <;> cases hr : σ (r i) <;>
      simp [OpbLine.sat, evalTerms, evalTerm, h, hr]
  simp only [constant32]
  rw [opbSat_foldl hstep, opbSat_comment]
  rfl

theorem constant32_nr_variables (r : Nat → Var) (value : Nat) (st : St) :
    (constant32 r value st).nr_variables = st.nr_variables := by
  have hstep : ∀ (st : St) i,
      ({ st with
        cnf := CnfLine.cls [(r i, value.testBit i)] :: st.cnf
        opb := OpbLine.eqn [⟨1, false, r i⟩] (if value.testBit i then 1 else 0) :: st.opb
        nr_clauses := st.nr_clauses + 1
        nr_constraints := st.nr_constraints + 1 } : St).nr_variables = st.nr_variables :=
    fun st i => rfl
  simp only [constant32]
  rw [nrv_foldl_const hstep, comment_nr_variables]

theorem cnfSat_and2 (r a b : Nat → Var) (n : Nat) (st : St) :
    cnfSat σ (and2 r a b n st).cnf
      = (bitsEq σ r (fun i => σ (a i) && σ (b i)) n && cnfSat σ st.cnf) := by
  have hstep : ∀ (st : St) i,
      cnfSat σ (clause [(r i, false), (b i, true)]
        (clause [(r i, false), (a i, true)]
          (clause [(r i, true), (a i, false), (b i, false)] st))).cnf
        = ((σ (r i) == (σ (a i) && σ (b i))) && cnfSat σ st.cnf) := by
    intro st i
    simp only [cnfSat_clause]
    simp only [evalClause, List.any_cons, List.any_nil, evalLit]
    generalize σ (r i) = x
    generalize σ (a i) = y
    generalize σ (b i) = z
    cases x <;> cases y <;> cases z <;> simp
  simp only [and2]
  rw [cnfSat_foldl hstep]
  rfl

theorem cnfSat_or2 (r a b : Nat → Var) (n : Nat) (st : St) :
    cnfSat σ (or2 r a b n st).cnf
      = (bitsEq σ r (fun i => σ (a i) || σ (b i)) n && cnfSat σ st.cnf) := by
  have hstep : ∀ (st : St) i,
      cnfSat σ (clause [(r i, true), (b i, false)]
        (clause [(r i, true), (a i, false)]
          (clause [(r i, false), (a i, true), (b i, true)] st))).cnf
        = ((σ (r i) == (σ (a i) || σ (b i))) && cnfSat σ st.cnf) := by
    intro st i
    simp only [cnfSat_clause]
    simp only [evalClause, List.any_cons, List.any_nil, evalLit]
    generalize σ (r i) = x
    generalize σ (a i) = y
    generalize σ (b i) = z
    cases x <;> cases y <;> cases z <;> simp
  simp only [or2]
  rw [cnfSat_foldl hstep]
  rfl

theorem cnfSat_xor2 {cfg : Config} (hx : cfg.use_xor_clauses = false)
    (r a b : Nat → Var) (n : Nat) (st : St) :
    cnfSat σ (xor2 cfg r a b n st).cnf
      = (bitsEq σ r (fun i => xor (σ (a i)) (σ (b i))) n && cnfSat σ st.cnf) := by
  have hstep : ∀ (st : St) i,
      cnfSat σ ((List.range 8).foldl
        (fun st j =>
          if popcount (j ^^^ 1) % 2 = 1 then st
          else clause [(r i, j &&& 1 == 0), (a i, !(j &&& 2 == 0)), (b i, !(j &&& 4 == 0))] st)
        st).cnf
        = ((σ (r i) == xor (σ (a i)) (σ (b i))) && cnfSat σ st.cnf) := by
    intro st i
    rw [show (List.range 8).foldl
        (fun st j =>
          if popcount (j ^^^ 1) % 2 = 1 then st
          else clause [(r i, j &&& 1 == 0), (a i, !(j &&& 2 == 0)), (b i, !(j &&& 4 == 0))] st)
        st
        = (clause [(r i, false), (a i, true), (b i, true)]
            (clause [(r i, true), (a i, false), (b i, true)]
              (clause [(r i, true), (a i, true), (b i, false)]
                (clause [(r i, false), (a i, false), (b i, false)] st)))) from rfl]
    simp only [cnfSat_clause]
    simp only [evalClause, List.any_cons, List.any_nil, evalLit]
    generalize σ (r i) = x
    generalize σ (a i) = y
    generalize σ (b i) = z
    cases x <;> cases y <;> cases z <;> simp
  simp only [xor2, hx, Bool.false_eq_true, if_false]
  rw [cnfSat_foldl hstep, cnfSat_comment]
  rfl

theorem cnfSat_xor3 {cfg : Config} (hx : cfg.use_xor_clauses = false)
    (r a b c : Nat → Var) (n : Nat) (st : St) :
    cnfSat σ (xor3 cfg r a b c n st).cnf
      = (bitsEq σ r (fun i => xor (σ (a i)) (xor (σ (b i)) (σ (c i)))) n
          && cnfSat σ st.cnf) := by
  have hstep : ∀ (st : St) i,
      cnfSat σ ((List.range 16).foldl
        (fun st j =>
          if popcount (j ^^^ 1) % 2 = 0 then st
          else clause [(r i, j &&& 1 == 0), (a i, !(j &&& 2 == 0)), (b i, !(j &&& 4 == 0)),
                       (c i, !(j &&& 8 == 0))] st)
        st).cnf
        = ((σ (r i) == xor (σ (a i)) (xor (σ (b i)) (σ (c i)))) && cnfSat σ st.cnf) := by
    intro st i
    rw [show (List.range 16).foldl
        (fun st j =>
          if popcount (j ^^^ 1) % 2 = 0 then st
          else clause [(r i, j &&& 1 == 0), (a i, !(j &&& 2 == 0)), (b i, !(j &&& 4 == 0)),
                       (c i, !(j &&& 8 == 0))] st)
        st
        = (clause [(r i, false), (a i, true), (b i, true), (c i, true)]
            (clause [(r i, true), (a i, false), (b i, true), (c i, true)]
              (clause [(r i, true), (a i, true), (b i, false), (c i, true)]
                (clause [(r i, false), (a i, false), (b i, false), (c i, true)]
                  (clause [(r i, true), (a i, true), (b i, true), (c i, false)]
                    (clause [(r i, false), (a i, false), (b i, true), (c i, false)]
                      (clause [(r i, false), (a i, true), (b i, false), (c i, false)]
                        (clause [(r i, true), (a i, false), (b i, false), (c i, false)] st)))))))) from rfl]
    simp only [cnfSat_clause]
    simp only [evalClause, List.any_cons, List.any_nil, evalLit]
    generalize σ (r i) = x
    generalize σ (a i) = y
    generalize σ (b i) = z
    generalize σ (c i) = u
    cases x <;> cases y <;> cases z <;> cases u <;> simp
  simp only [xor3, hx, Bool.false_eq_true, if_false]
  rw [cnfSat_foldl hstep, cnfSat_comment]
  rfl

theorem cnfSat_xor4 {cfg : Config} (hx : cfg.use_xor_clauses = false)
    (r a b c d : Nat → Var) (st : St) :
    cnfSat σ (xor4 cfg r a b c d st).cnf
      = (bitsEq σ r (fun i => xor (σ (a i)) (xor (σ (b i)) (xor (σ (c i)) (σ (d i))))) 32
          && cnfSat σ st.cnf) := by
  have hstep : ∀ (st : St) i,
      cnfSat σ ((List.range 32).foldl
        (fun st j =>
          if popcount (j ^^^ 1) % 2 = 1 then st
          else clause [(r i, j &&& 1 == 0), (a i, !(j &&& 2 == 0)), (b i, !(j &&& 4 == 0)),
                       (c i, !(j &&& 8 == 0)), (d i, !(j &&& 16 == 0))] st)
        st).cnf
        = ((σ (r i) == xor (σ (a i)) (xor (σ (b i)) (xor (σ (c i)) (σ (d i)))))
            && cnfSat σ st.cnf) := by
    intro st i
    rw [show (List.range 32).foldl
        (fun st j =>
          if popcount (j ^^^ 1) % 2 = 1 then st
          else clause [(r i, j &&& 1 == 0), (a i, !(j &&& 2 == 0)), (b i, !(j &&& 4 == 0)),
                       (c i, !(j &&& 8 == 0)), (d i, !(j &&& 16 == 0))] st)
        st
        = (clause [(r i, false), (a i, true), (b i, true), (c i, true), (d i, true)]
            (clause [(r i, true), (a i, false), (b i, true), (c i, true), (d i, true)]
              (clause [(r i, true), (a i, true), (b i, false), (c i, true), (d i, true)]
                (clause [(r i, false), (a i, false), (b i, false), (c i, true), (d i, true)]
                  (clause [(r i, true), (a i, true), (b i, true), (c i, false), (d i, true)]
                    (clause [(r i, false), (a i, false), (b i, true), (c i, false), (d i, true)]
                      (clause [(r i, false), (a i, true), (b i, false), (c i, false), (d i, true)]
                        (clause [(r i, true), (a i, false), (b i, false), (c i, false), (d i, true)]
                          (clause [(r i, true), (a i, true), (b i, true), (c i, true), (d i, false)]
                            (clause [(r i, false), (a i, false), (b i, true), (c i, true), (d i, false)]
                              (clause [(r i, false), (a i, true), (b i, false), (c i, true), (d i, false)]
                                (clause [(r i, true), (a i, false), (b i, false), (c i, true), (d i, false)]
                                  (clause [(r i, false), (a i, true), (b i, true), (c i, false), (d i, false)]
                                    (clause [(r i, true), (a i, false), (b i, true), (c i, false), (d i, false)]
                                      (clause [(r i, true), (a i, true), (b i, false), (c i, false), (d i, false)]
                                        (clause [(r i, false), (a i, false), (b i, false), (c i, false), (d i, false)] st)))))))))))))))) from rfl]
    simp only [cnfSat_clause]
    simp only [evalClause, List.any_cons, List.any_nil, evalLit]
    generalize σ (r i) = x
    generalize σ (a i) = y
    generalize σ (b i) = z
    generalize σ (c i) = u
    generalize σ (d i) = v
    cases x <;> cases y <;> cases z <;> cases u <;> cases v <;> simp
  simp only [xor4, hx, Bool.false_eq_true, if_false]
  rw [cnfSat_foldl hstep, cnfSat_comment]
  rfl

end GateLemmas

/-! ### Round functions and adders, bit level -/

/-- The choice function of rounds 0..19, per bit. -/
def chB (b c d : Bool) : Bool := (b && c) || (!b && d)

/-- The majority function of rounds 40..59, per bit. -/
def majB (b c d : Bool) : Bool := (b && c) || (b && d) || (c && d)

section RoundBitLemmas

variable (σ : Var → Bool)

theorem cnfSat_chBit (f b c d : Nat → Var) (j : Nat) (st : St) :
    cnfSat σ (chBit f b c d j st).cnf
      = ((σ (f j) == chB (σ (b j)) (σ (c j)) (σ (d j))) && cnfSat σ st.cnf) := by
  simp only [chBit, cnfSat_clause]
  simp only [evalClause, List.any_cons, List.any_nil, evalLit, chB]
  generalize σ (f j) = x
  generalize σ (b j) = y
  generalize σ (c j) = z
  generalize σ (d j) = u
  cases x <;> cases y <;> cases z <;> cases u <;> simp

theorem cnfSat_majBit (f b c d : Nat → Var) (j : Nat) (st : St) :
    cnfSat σ (majBit f b c d j st).cnf
      = ((σ (f j) == majB (σ (b j)) (σ (c j)) (σ (d j))) && cnfSat σ st.cnf) := by
  simp only [majBit, cnfSat_clause]
  simp only [evalClause, List.any_cons, List.any_nil, evalLit, majB]
  generalize σ (f j) = x
  generalize σ (b j) = y
  generalize σ (c j) = z
  generalize σ (d j) = u
  cases x <;> cases y <;> cases z <;> cases u <;> simp

theorem chBit_nr_variables (f b c d : Nat → Var) (j : Nat) (st : St) :
    (chBit f b c d j st).nr_variables = st.nr_variables := rfl

theorem majBit_nr_variables (f b c d : Nat → Var) (j : Nat) (st : St) :
    (majBit f b c d j st).nr_variables = st.nr_variables := rfl

theorem and2_nr_variables (r a b : Nat → Var) (n : Nat) (st : St) :
    (and2 r a b n st).nr_variables = st.nr_variables := by
  simp only [and2]
  apply nrv_foldl_const
  intro st i
  rfl

theorem or2_nr_variables (r a b : Nat → Var) (n : Nat) (st : St) :
    (or2 r a b n st).nr_variables = st.nr_variables := by
  simp only [or2]
  apply nrv_foldl_const
  intro st i
  rfl

theorem xor2_nr_variables {cfg : Config} (hx : cfg.use_xor_clauses = false)
    (r a b : Nat → Var) (n : Nat) (st : St) :
    (xor2 cfg r a b n st).nr_variables = st.nr_variables := by
  simp only [xor2, hx, Bool.false_eq_true, if_false]
  refine (nrv_foldl_const ?_ _ _).trans (comment_nr_variables _ _)
  intro st i
  rfl

theorem xor3_nr_variables {cfg : Config} (hx : cfg.use_xor_clauses = false)
    (r a b c : Nat → Var) (n : Nat) (st : St) :
    (xor3 cfg r a b c n st).nr_variables = st.nr_variables := by
  simp only [xor3, hx, Bool.false_eq_true, if_false]
  refine (nrv_foldl_const ?_ _ _).trans (comment_nr_variables _ _)
  intro st i
  rfl

theorem xor4_nr_variables {cfg : Config} (hx : cfg.use_xor_clauses = false)
    (r a b c d : Nat → Var) (st : St) :
    (xor4 cfg r a b c d st).nr_variables = st.nr_variables := by
  simp only [xor4, hx, Bool.false_eq_true, if_false]
  refine (nrv_foldl_const ?_ _ _).trans (comment_nr_variables _ _)
  intro st i
  rfl

end RoundBitLemmas

/-! ### Tseitin adder facts -/

/-- The semantic content of the constraints emitted by `add2` in Tseitin mode
entered with variable counter `n0`: the defining equations of the carry word
and the temporaries, conjoined in emission order (latest first, matching the
buffer decomposition). -/
def add2Fact (σ : Var → Bool) (n0 : Nat) (r a b : Nat → Var) : Bool :=
  let c : Nat → Var := fun i => n0 + 1 + i
  let t0 : Nat → Var := fun i => n0 + 31 + 1 + i
  let t1 : Nat → Var := fun i => n0 + 31 + 31 + 1 + i
  let t2 : Nat → Var := fun i => n0 + 31 + 31 + 31 + 1 + i
  bitsEq σ (fun i => r (i + 1)) (fun i => xor (σ (t0 i)) (σ (c i))) 31 &&
  (bitsEq σ (fun i => c (i + 1)) (fun i => σ (t1 i) || σ (t2 i)) 30 &&
  (bitsEq σ t2 (fun i => σ (t0 i) && σ (c i)) 31 &&
  (bitsEq σ t1 (fun i => σ (a (i + 1)) && σ (b (i + 1))) 31 &&
  (bitsEq σ t0 (fun i => xor (σ (a (i + 1))) (σ (b (i + 1)))) 31 &&
  (bitsEq σ r (fun i => xor (σ (a i)) (σ (b i))) 1 &&
  bitsEq σ c (fun i => σ (a i) && σ (b i)) 1)))))

theorem cnfSat_add2T (σ : Var → Bool) {cfg : Config}
    (ht : cfg.use_tseitin_adders = true) (hx : cfg.use_xor_clauses = false)
    (lab : String) (r a b : Nat → Var) (st : St) :
    cnfSat σ (add2 cfg lab r a b st).cnf
      = (add2Fact σ st.nr_variables r a b && cnfSat σ st.cnf) := by
  simp only [add2, ht, if_true]
  rw [cnfSat_xor2 σ hx, cnfSat_or2, cnfSat_and2, cnfSat_and2, cnfSat_xor2 σ hx,
    cnfSat_xor2 σ hx, cnfSat_and2, cnfSat_new_vars, cnfSat_new_vars, cnfSat_new_vars,
    cnfSat_new_vars, cnfSat_comment]
  simp only [new_vars_fst, new_vars_nr_variables, comment_nr_variables, add2Fact,
    Bool.and_assoc]

theorem add2T_nr_variables {cfg : Config}
    (ht : cfg.use_tseitin_adders = true) (hx : cfg.use_xor_clauses = false)
    (lab : String) (r a b : Nat → Var) (st : St) :
    (add2 cfg lab r a b st).nr_variables = st.nr_variables + 124 := by
  simp only [add2, ht, if_true]
  rw [xor2_nr_variables hx, or2_nr_variables, and2_nr_variables, and2_nr_variables,
    xor2_nr_variables hx, xor2_nr_variables hx, and2_nr_variables,
    new_vars_nr_variables, new_vars_nr_variables, new_vars_nr_variables,
    new_vars_nr_variables, comment_nr_variables]

/-- The semantic content of the constraints emitted by `add5` in Tseitin mode
entered with variable counter `n0`. -/
def add5Fact (σ : Var → Bool) (n0 : Nat) (r a b c d e : Nat → Var) : Bool :=
  let t0 : Nat → Var := fun i => n0 + 1 + i
  let t1 : Nat → Var := fun i => n0 + 32 + 1 + i
  let t2 : Nat → Var := fun i => n0 + 32 + 32 + 1 + i
  add2Fact σ (n0 + 32 + 32 + 32 + 124 + 124 + 124) r t2 e &&
  (add2Fact σ (n0 + 32 + 32 + 32 + 124 + 124) t2 t0 t1 &&
  (add2Fact σ (n0 + 32 + 32 + 32 + 124) t1 c d &&
  add2Fact σ (n0 + 32 + 32 + 32) t0 a b))

theorem cnfSat_add5T (σ : Var → Bool) {cfg : Config}
    (ht : cfg.use_tseitin_adders = true) (hx : cfg.use_xor_clauses = false)
    (lab : String) (r a b c d e : Nat → Var) (st : St) :
    cnfSat σ (add5 cfg lab r a b c d e st).cnf
      = (add5Fact σ st.nr_variables r a b c d e && cnfSat σ st.cnf) := by
  simp only [add5, ht, if_true]
  rw [cnfSat_add2T σ ht hx, cnfSat_add2T σ ht hx, cnfSat_add2T σ ht hx,
    cnfSat_add2T σ ht hx, cnfSat_new_vars, cnfSat_new_vars, cnfSat_new_vars,
    cnfSat_comment]
  simp only [add2T_nr_variables ht hx, new_vars_nr_variables, new_vars_fst,
    comment_nr_variables, add5Fact, Bool.and_assoc]

theorem add5T_nr_variables {cfg : Config}
    (ht : cfg.use_tseitin_adders = true) (hx : cfg.use_xor_clauses = false)
    (lab : String) (r a b c d e : Nat → Var) (st : St) :
    (add5 cfg lab r a b c d e st).nr_variables = st.nr_variables + 592 := by
  simp only [add5, ht, if_true]
  rw [add2T_nr_variables ht hx, add2T_nr_variables ht hx, add2T_nr_variables ht hx,
    add2T_nr_variables ht hx, new_vars_nr_variables, new_vars_nr_variables,
    new_vars_nr_variables, comment_nr_variables]

section AllocLemmas

variable (σ : Var → Bool) (cfg : Config) (lab : Nat → String) (dec : Bool)

theorem allocFold_spec :
    ∀ (idxs : List Nat) (acc : List (Nat → Var)) (st : St),
      (allocFold cfg lab dec idxs (acc, st)).2.nr_variables
          = st.nr_variables + 32 * idxs.length
      ∧ cnfSat σ (allocFold cfg lab dec idxs (acc, st)).2.cnf = cnfSat σ st.cnf
      ∧ opbSat σ (allocFold cfg lab dec idxs (acc, st)).2.opb = opbSat σ st.opb
      ∧ (allocFold cfg lab dec idxs (acc, st)).1.length = acc.length + idxs.length
      ∧ (∀ p z, p < acc.length →
          (allocFold cfg lab dec idxs (acc, st)).1.getD p z = acc.getD p z)
      ∧ (∀ p z j, p < idxs.length →
          (allocFold cfg lab dec idxs (acc, st)).1.getD (acc.length + p) z j
            = st.nr_variables + 32 * p + 1 + j) := by
  intro idxs
  induction idxs with
  | nil =>
    intro acc st
    refine ⟨by simp [allocFold], by simp [allocFold], by simp [allocFold],
      by simp [allocFold], ?_, ?_⟩
    · intro p z hp; simp [allocFold]
    · intro p z j hp; simp at hp
  | cons i idxs ih =>
    intro acc st
    have hstep : allocFold cfg lab dec (i :: idxs) (acc, st)
        = allocFold cfg lab dec idxs
            (acc ++ [fun j => st.nr_variables + 1 + j],
              (new_vars cfg (lab i) 32 dec st).2) := by
      simp only [allocFold, List.foldl_cons, new_vars_fst]
    obtain ⟨h1, h2, h3, h4, h5, h6⟩ :=
      ih (acc ++ [fun j => st.nr_variables + 1 + j]) (new_vars cfg (lab i) 32 dec st).2
    rw [hstep]
    refine ⟨?_, ?_, ?_, ?_, ?_, ?_⟩
    · rw [h1, new_vars_nr_variables]
      simp only [List.length_cons]
      omega
    · rw [h2, cnfSat_new_vars]
    · rw [h3, opbSat_new_vars]
    · rw [h4]
      simp only [List.length_append, List.length_cons, List.length_nil]
      omega
    · intro p z hp
      rw [h5 p z (by simp; omega)]
      exact List.getD_append _ _ _ _ (by omega)
    · intro p z j hp
      match p with
      | 0 =>
        have hlt : acc.length < (acc ++ [fun j => st.nr_variables + 1 + j]).length := by
          simp
        rw [show acc.length + 0 = acc.length by omega,
          h5 acc.length z (by simp)]
        have : (acc ++ [fun j => st.nr_variables + 1 + j]).getD acc.length z
            = fun j => st.nr_variables + 1 + j := by
          rw [List.getD_eq_getElem?_getD, List.getElem?_concat_length]
          rfl
        rw [this]
      | p + 1 =>
        have := h6 p z j (by simp at hp; omega)
        rw [show acc.length + (p + 1)
            = (acc ++ [fun j => st.nr_variables + 1 + j]).length + p by simp; omega]
        rw [this, new_vars_nr_variables]
        ring

theorem allocWords_nr_variables (idxs : List Nat) (st : St) :
    (allocWords cfg idxs lab dec st).2.nr_variables
      = st.nr_variables + 32 * idxs.length :=
  (allocFold_spec (fun _ => false) cfg lab dec idxs [] st).1

theorem cnfSat_allocWords (idxs : List Nat) (st : St) :
    cnfSat σ (allocWords cfg idxs lab dec st).2.cnf = cnfSat σ st.cnf :=
  (allocFold_spec σ cfg lab dec idxs [] st).2.1

theorem opbSat_allocWords (idxs : List Nat) (st : St) :
    opbSat σ (allocWords cfg idxs lab dec st).2.opb = opbSat σ st.opb :=
  (allocFold_spec σ cfg lab dec idxs [] st).2.2.1

theorem allocWords_getD (idxs : List Nat) (st : St) (p j : Nat) (z : Nat → Var)
    (hp : p < idxs.length) :
    (allocWords cfg idxs lab dec st).1.getD p z j
      = st.nr_variables + 32 * p + 1 + j := by
  have := (allocFold_spec (fun _ => false) cfg lab dec idxs [] st).2.2.2.2.2 p z j hp
  simpa using this

end AllocLemmas

/-- The semantic content of the constraints emitted by one compression round
in Tseitin mode entered with variable counter `n0`: the round function word
and the `add5`. -/
def roundFact (σ : Var → Bool) (aF wF kF : Nat → Nat → Var) (n0 : Nat) (i : Nat) :
    Bool :=
  let f : Nat → Var := fun j => n0 + 1 + j
  let b := rotl (aF (i + 3)) 0
  let c := rotl (aF (i + 2)) 30
  let d := rotl (aF (i + 1)) 30
  add5Fact σ (n0 + 32) (aF (i + 5)) (rotl (aF (i + 4)) 5) f (rotl (aF i) 30)
      (kF (i / 20)) (wF i) &&
  (if i < 20 then
    bitsEq σ f (fun j => chB (σ (b j)) (σ (c j)) (σ (d j))) 32
  else if i < 40 then
    bitsEq σ f (fun j => xor (σ (b j)) (xor (σ (c j)) (σ (d j)))) 32
  else if i < 60 then
    bitsEq σ f (fun j => majB (σ (b j)) (σ (c j)) (σ (d j))) 32
  else
    bitsEq σ f (fun j => xor (σ (b j)) (xor (σ (c j)) (σ (d j)))) 32)

theorem cnfSat_sha1Round (σ : Var → Bool) {cfg : Config}
    (ht : cfg.use_tseitin_adders = true) (hx : cfg.use_xor_clauses = false)
    (aF wF kF : Nat → Nat → Var) (st : St) (i : Nat) :
    cnfSat σ (sha1Round cfg aF wF kF st i).cnf
      = (roundFact σ aF wF kF st.nr_variables i && cnfSat σ st.cnf) := by
  have hch : ∀ (f b c d : Nat → Var) (st : St),
      cnfSat σ ((List.range 32).foldl (fun st j => chBit f b c d j st) st).cnf
        = (bitsEq σ f (fun j => chB (σ (b j)) (σ (c j)) (σ (d j))) 32
            && cnfSat σ st.cnf) := by
    intro f b c d st
    exact cnfSat_foldl (fun st j => cnfSat_chBit σ f b c d j st) _ st
  have hmaj : ∀ (f b c d : Nat → Var) (st : St),
      cnfSat σ ((List.range 32).foldl (fun st j => majBit f b c d j st) st).cnf
        = (bitsEq σ f (fun j => majB (σ (b j)) (σ (c j)) (σ (d j))) 32
            && cnfSat σ st.cnf) := by
    intro f b c d st
    exact cnfSat_foldl (fun st j => cnfSat_majBit σ f b c d j st) _ st
  have hchn : ∀ (f b c d : Nat → Var) (st : St),
      ((List.range 32).foldl (fun st j => chBit f b c d j st) st).nr_variables
        = st.nr_variables := by
    intro f b c d st
    apply nrv_foldl_const
    intro st j
    rfl
  have hmajn : ∀ (f b c d : Nat → Var) (st : St),
      ((List.range 32).foldl (fun st j => majBit f b c d j st) st).nr_variables
        = st.nr_variables := by
    intro f b c d st
    apply nrv_foldl_const
    intro st j
    rfl
  simp only [sha1Round, roundFact]
  rw [cnfSat_add5T σ ht hx]
  by_cases h20 : i < 20
  · simp only [h20, if_true]
    rw [hch, cnfSat_new_vars, hchn, new_vars_nr_variables]
    simp only [new_vars_fst, Bool.and_assoc]
  · by_cases h40 : i < 40
    · simp only [h20, h40, if_true, if_false]
      rw [cnfSat_xor3 σ hx, cnfSat_new_vars, xor3_nr_variables hx, new_vars_nr_variables]
      simp only [new_vars_fst, Bool.and_assoc]
    · by_cases h60 : i < 60
      · simp only [h20, h40, h60, if_true, if_false]
        rw [hmaj, cnfSat_new_vars, hmajn, new_vars_nr_variables]
        simp only [new_vars_fst, Bool.and_assoc]
      · simp only [h20, h40, h60, if_false]
        rw [cnfSat_xor3 σ hx, cnfSat_new_vars, xor3_nr_variables hx, new_vars_nr_variables]
        simp only [new_vars_fst, Bool.and_assoc]

theorem cnfSat_new_constant (σ : Var → Bool) (cfg : Config) (lab : String)
    (v : Nat) (st : St) :
    cnfSat σ (new_constant cfg lab v st).2.cnf
      = (bitsEq σ (fun j => st.nr_variables + 1 + j) (fun i => v.testBit i) 32
          && cnfSat σ st.cnf) := by
  simp only [new_constant]
  rw [cnfSat_constant32, cnfSat_new_vars]
  simp only [new_vars_fst]

theorem new_constant_nr_variables (cfg : Config) (lab : String) (v : Nat) (st : St) :
    (new_constant cfg lab v st).2.nr_variables = st.nr_variables + 32 := by
  simp only [new_constant]
  rw [constant32_nr_variables, new_vars_nr_variables]

theorem new_constant_fst (cfg : Config) (lab : String) (v : Nat) (st : St) :
    (new_constant cfg lab v st).1 = fun j => st.nr_variables + 1 + j := rfl

theorem cnfSat_schedFold (σ : Var → Bool) {cfg : Config}
    (hx : cfg.use_xor_clauses = false) (wt w : Nat → Nat → Var)
    (l : List Nat) (st : St) :
    cnfSat σ (l.foldl (schedStep cfg wt w) st).cnf
      = (l.all (fun i => bitsEq σ (wt i)
          (fun j => xor (σ (w (i - 3) j)) (xor (σ (w (i - 8) j))
            (xor (σ (w (i - 14) j)) (σ (w (i - 16) j))))) 32)
          && cnfSat σ st.cnf) :=
  cnfSat_foldl (fun st i => cnfSat_xor4 σ hx (wt i) (w (i - 3)) (w (i - 8))
    (w (i - 14)) (w (i - 16)) st) l st

theorem schedFold_nr_variables {cfg : Config}
    (hx : cfg.use_xor_clauses = false) (wt w : Nat → Nat → Var)
    (l : List Nat) (st : St) :
    (l.foldl (schedStep cfg wt w) st).nr_variables = st.nr_variables :=
  nrv_foldl_const (fun st i => xor4_nr_variables hx _ _ _ _ _ st) l st

theorem sha1Round_nr_variables {cfg : Config}
    (ht : cfg.use_tseitin_adders = true) (hx : cfg.use_xor_clauses = false)
    (aF wF kF : Nat → Nat → Var) (st : St) (i : Nat) :
    (sha1Round cfg aF wF kF st i).nr_variables = st.nr_variables + 624 := by
  have hch : ∀ (f b c d : Nat → Var) (st : St),
      ((List.range 32).foldl (fun st j => chBit f b c d j st) st).nr_variables
        = st.nr_variables := by
    intro f b c d st
    apply nrv_foldl_const
    intro st j
    rfl
  have hmaj : ∀ (f b c d : Nat → Var) (st : St),
      ((List.range 32).foldl (fun st j => majBit f b c d j st) st).nr_variables
        = st.nr_variables := by
    intro f b c d st
    apply nrv_foldl_const
    intro st j
    rfl
  simp only [sha1Round]
  rw [add5T_nr_variables ht hx]
  by_cases h20 : i < 20
  · simp only [h20, if_true]
    rw [hch, new_vars_nr_variables]
  · by_cases h40 : i < 40
    · simp only [h20, h40, if_true, if_false]
      rw [xor3_nr_variables hx, new_vars_nr_variables]
    · by_cases h60 : i < 60
      · simp only [h20, h40, h60, if_true, if_false]
        rw [hmaj, new_vars_nr_variables]
      · simp only [h20, h40, h60, if_false]
        rw [xor3_nr_variables hx, new_vars_nr_variables]

theorem cnfSat_roundFold (σ : Var → Bool) {cfg : Config}
    (ht : cfg.use_tseitin_adders = true) (hx : cfg.use_xor_clauses = false)
    (aF wF kF : Nat → Nat → Var) (l : List Nat) (st : St) :
    cnfSat σ (l.foldl (sha1Round cfg aF wF kF) st).cnf
      = goFacts (roundFact σ aF wF kF) 624 st.nr_variables l (cnfSat σ st.cnf) :=
  sat_foldl_ctr (P := fun st => cnfSat σ st.cnf)
    (fun st i => cnfSat_sha1Round σ ht hx aF wF kF st i)
    (fun st i => sha1Round_nr_variables ht hx aF wF kF st i) l st

theorem roundFold_nr_variables {cfg : Config}
    (ht : cfg.use_tseitin_adders = true) (hx : cfg.use_xor_clauses = false)
    (aF wF kF : Nat → Nat → Var) (l : List Nat) (st : St) :
    (l.foldl (sha1Round cfg aF wF kF) st).nr_variables
      = st.nr_variables + 624 * l.length :=
  nrv_foldl (fun st i => sha1Round_nr_variables ht hx aF wF kF st i) l st

theorem cnfSat_sha1AllocPhase (σ : Var → Bool) (cfg : Config) (R : Nat)
    (name : String) (st : St) :
    cnfSat σ (sha1AllocPhase cfg R name st).2.cnf = cnfSat σ st.cnf := by
  simp only [sha1AllocPhase]
  rw [cnfSat_allocWords, cnfSat_allocWords, cnfSat_allocWords, cnfSat_allocWords,
    cnfSat_allocWords]

theorem sha1AllocPhase_nr_variables (cfg : Config) (R : Nat) (name : String)
    (st : St) :
    (sha1AllocPhase cfg R name st).2.nr_variables
      = st.nr_variables + 32 * 16 + 32 * (R - 16) + 32 * 5 + 32 * 5 + 32 * R := by
  simp only [sha1AllocPhase]
  rw [allocWords_nr_variables, allocWords_nr_variables, allocWords_nr_variables,
    allocWords_nr_variables, allocWords_nr_variables]
  simp only [List.length_range, List.length_range']

/-- The full semantic content of the CNF constraints emitted by the `sha1`
constructor in Tseitin mode (the message schedule, the pinned constants and
chaining inputs, the `nr_rounds` round facts and the five final additions),
with the wire words written exactly as the constructor wires them. -/
def buildFact (σ : Var → Bool) (cfg : Config) (R : Nat) (name : String)
    (st0 : St) (rest : Bool) : Bool :=
  let alloc := sha1AllocPhase cfg R name
    (comment ("parameter nr_rounds = " ++ toString R) (comment "sha1" st0))
  let z : Nat → Var := fun _ => 0
  let wtF : Nat → Nat → Var := fun i => alloc.1.2.1.getD (i - 16) z
  let wF : Nat → Nat → Var := fun i =>
    if i < 16 then alloc.1.1.getD i z else rotl (wtF i) 1
  let hinF : Nat → Nat → Var := fun i => alloc.1.2.2.1.getD i z
  let houtF : Nat → Nat → Var := fun i => alloc.1.2.2.2.1.getD i z
  let aF : Nat → Nat → Var := fun i =>
    if i = 4 then rotl (hinF 0) 32
    else if i = 3 then rotl (hinF 1) 32
    else if i = 2 then rotl (hinF 2) 2
    else if i = 1 then rotl (hinF 3) 2
    else if i = 0 then rotl (hinF 4) 2
    else alloc.1.2.2.2.2.getD (i - 5) z
  let n1 := st0.nr_variables + 32 * 16 + 32 * (R - 16) + 32 * 5 + 32 * 5 + 32 * R
  let kF : Nat → Nat → Var := fun i =>
    [fun j => n1 + 1 + j, fun j => n1 + 32 + 1 + j,
     fun j => n1 + 32 + 32 + 1 + j, fun j => n1 + 32 + 32 + 32 + 1 + j].getD i z
  let n2 := n1 + 32 + 32 + 32 + 32
  let n3 := n2 + 624 * R
  let schedAll : Bool := (List.range' 16 (R - 16)).all (fun i => bitsEq σ (wtF i)
    (fun j => xor (σ (wF (i - 3) j)) (xor (σ (wF (i - 8) j))
      (xor (σ (wF (i - 14) j)) (σ (wF (i - 16) j))))) 32)
  let kpins : Bool :=
    bitsEq σ (fun j => n1 + 32 + 32 + 32 + 1 + j) (fun i => K3.testBit i) 32 &&
    (bitsEq σ (fun j => n1 + 32 + 32 + 1 + j) (fun i => K2.testBit i) 32 &&
    (bitsEq σ (fun j => n1 + 32 + 1 + j) (fun i => K1.testBit i) 32 &&
    (bitsEq σ (fun j => n1 + 1 + j) (fun i => K0.testBit i) 32 && (schedAll && rest))))
  let hpins : Bool :=
    bitsEq σ (hinF 4) (fun i => H4.testBit i) 32 &&
    (bitsEq σ (hinF 3) (fun i => H3.testBit i) 32 &&
    (bitsEq σ (hinF 2) (fun i => H2.testBit i) 32 &&
    (bitsEq σ (hinF 1) (fun i => H1.testBit i) 32 &&
    (bitsEq σ (hinF 0) (fun i => H0.testBit i) 32 && kpins))))
  let rounds : Bool := goFacts (roundFact σ aF wF kF) 624 n2 (List.range R) hpins
  add2Fact σ (n3 + 124 + 124 + 124 + 124) (houtF 4) (hinF 4) (rotl (aF (R + 0)) 30) &&
  (add2Fact σ (n3 + 124 + 124 + 124) (houtF 3) (hinF 3) (rotl (aF (R + 1)) 30) &&
  (add2Fact σ (n3 + 124 + 124) (houtF 2) (hinF 2) (rotl (aF (R + 2)) 30) &&
  (add2Fact σ (n3 + 124) (houtF 1) (hinF 1) (aF (R + 3)) &&
  (add2Fact σ n3 (houtF 0) (hinF 0) (aF (R + 4)) && rounds))))

/-! ### Word values: the arithmetic toolbox -/

section WordArith

variable (σ : Var → Bool)

theorem wordVal_lt (x : Nat → Var) : ∀ n, wordVal σ x n < 2 ^ n := by
  intro n
  induction n with
  | zero => simp [wordVal]
  | succ n ih =>
    simp only [wordVal, pow_succ]
    cases σ (x n) <;> simp [Bool.toNat] <;> omega

theorem testBit_wordVal (x : Nat → Var) :
    ∀ n j, j < n → (wordVal σ x n).testBit j = σ (x j) := by
  intro n
  induction n with
  | zero => intro j hj; omega
  | succ n ih =>
    intro j hj
    simp only [wordVal]
    rw [Nat.add_comm (wordVal σ x n), Nat.testBit_mul_pow_two_add _ (wordVal_lt σ x n)]
    rcases Nat.lt_or_ge j n with h | h
    · simp [h, ih j h]
    · have hj' : j = n := by omega
      subst hj'
      simp only [Nat.lt_irrefl, if_false, Nat.sub_self]
      cases σ (x j) <;> rfl

theorem testBit_wval (x : Nat → Var) (j : Nat) (hj : j < 32) :
    (wval σ x).testBit j = σ (x j) :=
  testBit_wordVal σ x 32 j hj

theorem wval_lt (x : Nat → Var) : wval σ x < 2 ^ 32 := wordVal_lt σ x 32

/-- Equate a word value with a number by comparing bits. -/
theorem wval_eq_of_testBit (x : Nat → Var) (V : Nat) (hV : V < 2 ^ 32)
    (h : ∀ j, j < 32 → σ (x j) = V.testBit j) : wval σ x = V := by
  apply Nat.eq_of_testBit_eq
  intro j
  rcases Nat.lt_or_ge j 32 with hj | hj
  · rw [testBit_wval σ x j hj, h j hj]
  · rw [Nat.testBit_lt_two_pow (lt_of_lt_of_le (wval_lt σ x) (Nat.pow_le_pow_right (by omega) hj)),
      Nat.testBit_lt_two_pow (lt_of_lt_of_le hV (Nat.pow_le_pow_right (by omega) hj))]

theorem rotl32_lt (v n : Nat) (hv : v < 2 ^ 32) (hn : n ≤ 32) :
    rotl32 v n < 2 ^ 32 := by
  have h1 : (v <<< n) % 2 ^ 32 < 2 ^ 32 := Nat.mod_lt _ (by norm_num)
  have h2 : v >>> (32 - n) < 2 ^ 32 := by
    rw [Nat.shiftRight_eq_div_pow]
    exact lt_of_le_of_lt (Nat.div_le_self _ _) hv
  rw [rotl32]
  exact Nat.or_lt_two_pow h1 h2

theorem testBit_rotl32 (v n j : Nat) (hv : v < 2 ^ 32) (hn : n ≤ 32)
    (hj : j < 32) :
    (rotl32 v n).testBit j = v.testBit ((j + 32 - n) % 32) := by
  rw [rotl32, Nat.testBit_or, Nat.testBit_mod_two_pow, Nat.testBit_shiftLeft,
    Nat.testBit_shiftRight]
  rw [decide_eq_true hj, Bool.true_and]
  rcases Nat.lt_or_ge j n with h | h
  · rw [decide_eq_false (by omega : ¬ (n ≤ j)), Bool.false_and, Bool.false_or]
    congr 1
    omega
  · rw [decide_eq_true h, Bool.true_and]
    rcases Nat.eq_or_lt_of_le hn with h32 | h32
    · exact absurd hj (by omega)
    · have hhigh : v.testBit (32 - n + j) = false := by
        apply Nat.testBit_lt_two_pow
        exact lt_of_lt_of_le hv (Nat.pow_le_pow_right (by omega) (by omega))
      rw [hhigh, Bool.or_false]
      congr 1
      omega

theorem rotl32_rotl32 (v a b : Nat) (hv : v < 2 ^ 32) (ha : 0 < a) (hab : a + b = 32) :
    rotl32 (rotl32 v a) b = v := by
  have h1 : rotl32 v a < 2 ^ 32 := rotl32_lt v a hv (by omega)
  apply Nat.eq_of_testBit_eq
  intro j
  rcases Nat.lt_or_ge j 32 with hj | hj
  · rw [testBit_rotl32 _ b j h1 (by omega) hj,
      testBit_rotl32 v a _ hv (by omega) (Nat.mod_lt _ (by omega))]
    congr 1
    omega
  · rw [Nat.testBit_lt_two_pow (lt_of_lt_of_le (rotl32_lt _ b h1 (by omega))
        (Nat.pow_le_pow_right (by omega) hj)),
      Nat.testBit_lt_two_pow (lt_of_lt_of_le hv (Nat.pow_le_pow_right (by omega) hj))]

/-- The value of a rewired (rotated) word is the rotated value. -/
theorem wval_rotl (x : Nat → Var) (n : Nat) (hn : n ≤ 32) :
    wval σ (rotl x n) = rotl32 (wval σ x) n := by
  apply wval_eq_of_testBit
  · exact rotl32_lt _ n (wval_lt σ x) hn
  · intro j hj
    rw [testBit_rotl32 _ n j (wval_lt σ x) hn hj, rotl]
    exact (testBit_wval σ x _ (Nat.mod_lt _ (by omega))).symm

theorem bitsEq_extract {x : Nat → Var} {g : Nat → Bool} {n : Nat}
    (h : bitsEq σ x g n = true) : ∀ j, j < n → σ (x j) = g j := by
  intro j hj
  have := all_range_extract h j hj
  simpa using this

end WordArith

/-! ### Soundness of the Tseitin adders -/

section AdderArith

theorem fullAdderBit (x y z : Bool) :
    x.toNat + y.toNat + z.toNat
      = (xor (xor x y) z).toNat + 2 * ((x && y) || (xor x y && z)).toNat := by
  cases x <;> cases y <;> cases z <;> rfl

/-- Ripple-carry soundness: the constraints recorded in `add2Fact` force the
result word to be the 32-bit sum of the two addend words. -/
theorem add2Fact_wval (σ : Var → Bool) (n0 : Nat) (r a b : Nat → Var)
    (h : add2Fact σ n0 r a b = true) :
    wval σ r = (wval σ a + wval σ b) % 2 ^ 32 := by
  simp only [add2Fact, Bool.and_eq_true] at h
  obtain ⟨hr1, hc1, ht2, ht1, ht0, hr0, hc0⟩ := h
  have Hr0 : σ (r 0) = xor (σ (a 0)) (σ (b 0)) := bitsEq_extract σ hr0 0 (by omega)
  have HC0 : σ (n0 + 1 + 0) = (σ (a 0) && σ (b 0)) := bitsEq_extract σ hc0 0 (by omega)
  have Hrrec : ∀ j, j < 31 →
      σ (r (j + 1)) = xor (xor (σ (a (j + 1))) (σ (b (j + 1)))) (σ (n0 + 1 + j)) := by
    intro j hj
    have e1 : σ (r (j + 1)) = xor (σ (n0 + 31 + 1 + j)) (σ (n0 + 1 + j)) :=
      bitsEq_extract σ hr1 j hj
    have e2 : σ (n0 + 31 + 1 + j) = xor (σ (a (j + 1))) (σ (b (j + 1))) :=
      bitsEq_extract σ ht0 j hj
    rw [e1, e2]
  have Hcrec : ∀ j : Nat, j < 30 →
      σ (n0 + 1 + (j + 1))
        = ((σ (a (j + 1)) && σ (b (j + 1)))
            || (xor (σ (a (j + 1))) (σ (b (j + 1))) && σ (n0 + 1 + j))) := by
    intro j hj
    have e1 : σ (n0 + 1 + (j + 1))
        = (σ (n0 + 31 + 31 + 1 + j) || σ (n0 + 31 + 31 + 31 + 1 + j)) :=
      bitsEq_extract σ hc1 j hj
    have e2 : σ (n0 + 31 + 31 + 1 + j) = (σ (a (j + 1)) && σ (b (j + 1))) :=
      bitsEq_extract σ ht1 j (by omega)
    have e3 : σ (n0 + 31 + 31 + 31 + 1 + j) = (σ (n0 + 31 + 1 + j) && σ (n0 + 1 + j)) :=
      bitsEq_extract σ ht2 j (by omega)
    have e4 : σ (n0 + 31 + 1 + j) = xor (σ (a (j + 1))) (σ (b (j + 1))) :=
      bitsEq_extract σ ht0 j (by omega)
    rw [e1, e2, e3, e4]
  have inv : ∀ k, k < 31 →
      wordVal σ a (k + 1) + wordVal σ b (k + 1)
        = wordVal σ r (k + 1) + 2 ^ (k + 1) * (σ (n0 + 1 + k)).toNat := by
    intro k
    induction k with
    | zero =>
      intro _
      show 0 + 2 ^ 0 * (σ (a 0)).toNat + (0 + 2 ^ 0 * (σ (b 0)).toNat)
        = 0 + 2 ^ 0 * (σ (r 0)).toNat + 2 ^ (0 + 1) * (σ (n0 + 1 + 0)).toNat
      rw [Hr0, HC0]
      cases σ (a 0) <;> cases σ (b 0) <;> rfl
    | succ k ih =>
      intro _
      have hinv := ih (by omega)
      have ea : wordVal σ a (k + 1 + 1)
          = wordVal σ a (k + 1) + 2 ^ (k + 1) * (σ (a (k + 1))).toNat := rfl
      have eb : wordVal σ b (k + 1 + 1)
          = wordVal σ b (k + 1) + 2 ^ (k + 1) * (σ (b (k + 1))).toNat := rfl
      have er : wordVal σ r (k + 1 + 1)
          = wordVal σ r (k + 1) + 2 ^ (k + 1) * (σ (r (k + 1))).toNat := rfl
      have hps : (2 : Nat) ^ (k + 1 + 1) = 2 ^ (k + 1) * 2 := pow_succ 2 (k + 1)
      rw [ea, eb, er, hps, Hrrec k (by omega), Hcrec k (by omega)]
      cases hz : σ (n0 + 1 + k) <;> rw [hz] at hinv <;>
        cases σ (a (k + 1)) <;> cases σ (b (k + 1)) <;>
          simp at hinv ⊢ <;> omega
  have ha32 : wval σ a = wordVal σ a 31 + 2 ^ 31 * (σ (a 31)).toNat := rfl
  have hb32 : wval σ b = wordVal σ b 31 + 2 ^ 31 * (σ (b 31)).toNat := rfl
  have hr32 : wval σ r = wordVal σ r 31 + 2 ^ 31 * (σ (r 31)).toNat := rfl
  have h31 : wordVal σ a 31 + wordVal σ b 31
      = wordVal σ r 31 + 2 ^ 31 * (σ (n0 + 1 + 30)).toNat := inv 30 (by omega)
  have hbit : σ (r 31) = xor (xor (σ (a 31)) (σ (b 31))) (σ (n0 + 1 + 30)) :=
    Hrrec 30 (by omega)
  have hsum : wval σ a + wval σ b
      = wval σ r + 2 ^ 32 * ((σ (a 31) && σ (b 31))
          || (xor (σ (a 31)) (σ (b 31)) && σ (n0 + 1 + 30))).toNat := by
    rw [ha32, hb32, hr32, hbit]
    cases hz : σ (n0 + 1 + 30) <;> rw [hz] at h31 <;>
      cases σ (a 31) <;> cases σ (b 31) <;> simp at h31 ⊢ <;> omega
  rw [hsum, Nat.add_mul_mod_self_left]
  exact (Nat.mod_eq_of_lt (wval_lt σ r)).symm

/-- Soundness of the four chained `add2`s recorded in `add5Fact`. -/
theorem add5Fact_wval (σ : Var → Bool) (n0 : Nat) (r a b c d e : Nat → Var)
    (h : add5Fact σ n0 r a b c d e = true) :
    wval σ r = (wval σ a + wval σ b + wval σ c + wval σ d + wval σ e) % 2 ^ 32 := by
  simp only [add5Fact, Bool.and_eq_true] at h
  obtain ⟨h1, h2, h3, h4⟩ := h
  have e4 := add2Fact_wval σ _ _ _ _ h4
  have e3 := add2Fact_wval σ _ _ _ _ h3
  have e2 := add2Fact_wval σ _ _ _ _ h2
  have e1 := add2Fact_wval σ _ _ _ _ h1
  rw [e1, e2, e3, e4]
  omega

end AdderArith

set_option maxHeartbeats 8000000 in
theorem cnfSat_build (σ : Var → Bool) {cfg : Config}
    (ht : cfg.use_tseitin_adders = true) (hx : cfg.use_xor_clauses = false)
    (R : Nat) (name : String) (st0 : St) :
    cnfSat σ (sha1.build cfg R name st0).2.cnf
      = buildFact σ cfg R name st0 (cnfSat σ st0.cnf) := by
  simp only [sha1.build, buildFact]
  rw [cnfSat_add2T σ ht hx, cnfSat_add2T σ ht hx, cnfSat_add2T σ ht hx,
    cnfSat_add2T σ ht hx, cnfSat_add2T σ ht hx, cnfSat_roundFold σ ht hx,
    cnfSat_constant32, cnfSat_constant32, cnfSat_constant32, cnfSat_constant32,
    cnfSat_constant32, cnfSat_new_constant, cnfSat_new_constant,
    cnfSat_new_constant, cnfSat_new_constant, cnfSat_schedFold σ hx,
    cnfSat_sha1AllocPhase, cnfSat_comment, cnfSat_comment]
  simp only [new_constant_fst, add2T_nr_variables ht hx, roundFold_nr_variables ht hx,
    constant32_nr_variables, new_constant_nr_variables, schedFold_nr_variables hx,
    sha1AllocPhase_nr_variables, comment_nr_variables, List.length_range,
    Bool.and_assoc]

/-! ### Word-level readings of the bit facts -/

section BitLifts

variable (σ : Var → Bool)

theorem rotl32_zero (v : Nat) (hv : v < 2 ^ 32) : rotl32 v 0 = v := by
  rw [rotl32, Nat.shiftLeft_zero, Nat.mod_eq_of_lt hv]
  have h : v >>> 32 = 0 := by
    rw [Nat.shiftRight_eq_div_pow]
    exact Nat.div_eq_of_lt hv
  rw [Nat.sub_zero, h, Nat.or_zero]

theorem rotl32_full (v : Nat) (hv : v < 2 ^ 32) : rotl32 v 32 = v := by
  rw [rotl32]
  have h1 : v <<< 32 % 2 ^ 32 = 0 := by
    rw [Nat.shiftLeft_eq]
    simp [Nat.mul_mod_left]
  rw [h1, Nat.sub_self, Nat.shiftRight_zero, Nat.zero_or]

theorem wval_eq_const (x : Nat → Var) (V : Nat) (hV : V < 2 ^ 32)
    (h : bitsEq σ x (fun i => V.testBit i) 32 = true) : wval σ x = V :=
  wval_eq_of_testBit σ x V hV (fun j hj => bitsEq_extract σ h j hj)

theorem wval_eq_xor4 (x p q s t : Nat → Var)
    (h : ∀ j, j < 32 → σ (x j)
        = xor (σ (p j)) (xor (σ (q j)) (xor (σ (s j)) (σ (t j))))) :
    wval σ x = wval σ p ^^^ wval σ q ^^^ wval σ s ^^^ wval σ t := by
  apply wval_eq_of_testBit
  · exact Nat.xor_lt_two_pow (Nat.xor_lt_two_pow
      (Nat.xor_lt_two_pow (wval_lt σ p) (wval_lt σ q)) (wval_lt σ s)) (wval_lt σ t)
  · intro j hj
    rw [h j hj, Nat.testBit_xor, Nat.testBit_xor, Nat.testBit_xor,
      testBit_wval σ p j hj, testBit_wval σ q j hj, testBit_wval σ s j hj,
      testBit_wval σ t j hj]
    cases σ (p j) <;> cases σ (q j) <;> cases σ (s j) <;> cases σ (t j) <;> rfl

theorem wval_eq_parity3 (x p q s : Nat → Var)
    (h : ∀ j, j < 32 → σ (x j) = xor (σ (p j)) (xor (σ (q j)) (σ (s j)))) :
    wval σ x = wval σ p ^^^ wval σ q ^^^ wval σ s := by
  apply wval_eq_of_testBit
  · exact Nat.xor_lt_two_pow (Nat.xor_lt_two_pow (wval_lt σ p) (wval_lt σ q))
      (wval_lt σ s)
  · intro j hj
    rw [h j hj, Nat.testBit_xor, Nat.testBit_xor,
      testBit_wval σ p j hj, testBit_wval σ q j hj, testBit_wval σ s j hj]
    cases σ (p j) <;> cases σ (q j) <;> cases σ (s j) <;> rfl

theorem wval_eq_ch (x p q s : Nat → Var)
    (h : ∀ j, j < 32 → σ (x j) = chB (σ (p j)) (σ (q j)) (σ (s j))) :
    wval σ x = (wval σ p &&& wval σ q)
      ||| ((wval σ p ^^^ (2 ^ 32 - 1)) &&& wval σ s) := by
  apply wval_eq_of_testBit
  · exact Nat.or_lt_two_pow (Nat.and_lt_two_pow _ (wval_lt σ q))
      (Nat.and_lt_two_pow _ (wval_lt σ s))
  · intro j hj
    rw [h j hj, Nat.testBit_or, Nat.testBit_and, Nat.testBit_and, Nat.testBit_xor,
      Nat.testBit_two_pow_sub_one, decide_eq_true hj,
      testBit_wval σ p j hj, testBit_wval σ q j hj, testBit_wval σ s j hj]
    cases σ (p j) <;> cases σ (q j) <;> cases σ (s j) <;> rfl

theorem wval_eq_maj (x p q s : Nat → Var)
    (h : ∀ j, j < 32 → σ (x j) = majB (σ (p j)) (σ (q j)) (σ (s j))) :
    wval σ x = (wval σ p &&& wval σ q) ||| (wval σ p &&& wval σ s)
      ||| (wval σ q &&& wval σ s) := by
  apply wval_eq_of_testBit
  · exact Nat.or_lt_two_pow (Nat.or_lt_two_pow
      (Nat.and_lt_two_pow _ (wval_lt σ q)) (Nat.and_lt_two_pow _ (wval_lt σ s)))
      (Nat.and_lt_two_pow _ (wval_lt σ s))
  · intro j hj
    rw [h j hj, Nat.testBit_or, Nat.testBit_or, Nat.testBit_and, Nat.testBit_and,
      Nat.testBit_and, testBit_wval σ p j hj, testBit_wval σ q j hj,
      testBit_wval σ s j hj]
    cases σ (p j) <;> cases σ (q j) <;> cases σ (s j) <;> rfl

end BitLifts

/-! ### The native schedule and round loops -/

section ForwardLoops

theorem all_range'_extract {f : Nat → Bool} {s n : Nat}
    (h : (List.range' s n).all f = true) : ∀ i, s ≤ i → i < s + n → f i = true := by
  intro i h1 h2
  rw [List.all_eq_true] at h
  exact h i (List.mem_range'_1.mpr ⟨h1, h2⟩)

theorem fwdSchedFold_length : ∀ (l : List Nat) (L : List Nat),
    (l.foldl fwdSchedStep L).length = L.length := by
  intro l
  induction l with
  | nil => intro L; rfl
  | cons a l ih =>
    intro L
    rw [List.foldl_cons, ih]
    simp [fwdSchedStep]

theorem map_range_getD (w : Nat → Nat) (i : Nat) (hi : i < 80) :
    ((List.range 80).map w).getD i 0 = w i := by
  rw [List.getD_eq_getElem?_getD, List.getElem?_map, List.getElem?_range hi]
  rfl

/-- After `k` steps of the schedule loop of `sha1_forward`, entries below
`16 + k` of the work list hold the values of the circuit's schedule words,
provided the initial entries below 16 agree with the circuit's input words
and the circuit's schedule constraints hold up to `R`. -/
theorem fwdSched_invariant (σ : Var → Bool) (wF : Nat → Nat → Var)
    (w0 : Nat → Nat) (R : Nat) (hR80 : R ≤ 80)
    (hagree : ∀ i, i < 16 → w0 i = wval σ (wF i))
    (hsched : ∀ i, 16 ≤ i → i < R →
      wval σ (wF i) = rotl32 (wval σ (wF (i - 3)) ^^^ wval σ (wF (i - 8))
        ^^^ wval σ (wF (i - 14)) ^^^ wval σ (wF (i - 16))) 1) :
    ∀ k, 16 + k ≤ R → ∀ i, i < 16 + k →
      ((List.range' 16 k).foldl fwdSchedStep
          ((List.range 80).map w0)).getD i 0
        = wval σ (wF i) := by
  intro k
  induction k with
  | zero =>
    intro _ i hi
    show ((List.range 80).map w0).getD i 0 = wval σ (wF i)
    rw [map_range_getD w0 i (by omega)]
    exact hagree i (by omega)
  | succ k ih =>
    intro hk i hi
    have hcat : List.range' 16 (k + 1) = List.range' 16 k ++ [16 + k] := by
      rw [List.range'_concat]
      simp
    rw [hcat, List.foldl_append, List.foldl_cons, List.foldl_nil]
    have hlen : ((List.range' 16 k).foldl fwdSchedStep
        ((List.range 80).map w0)).length = 80 := by
      rw [fwdSchedFold_length]
      simp
    rw [fwdSchedStep, List.getD_eq_getElem?_getD]
    by_cases heq : i = 16 + k
    · subst heq
      rw [List.getElem?_set_self (by omega)]
      show rotl32 (_ ^^^ _ ^^^ _ ^^^ _) 1 = _
      rw [ih (by omega) (16 + k - 3) (by omega), ih (by omega) (16 + k - 8) (by omega),
        ih (by omega) (16 + k - 14) (by omega), ih (by omega) (16 + k - 16) (by omega)]
      exact (hsched (16 + k) (by omega) (by omega)).symm
    · rw [List.getElem?_set_ne (fun hc => heq hc.symm), ← List.getD_eq_getElem?_getD]
      exact ih (by omega) i (by omega)

/-- The two-sided invariant carried through the round loop: the circuit's
round-output words, read as 32-bit values with the wiring rotations undone,
equal the native state tuple. -/
def fwdInv (σ : Var → Bool) (aF : Nat → Nat → Var) (r : Nat)
    (s : Nat × Nat × Nat × Nat × Nat) : Prop :=
  wval σ (aF (r + 4)) = s.1 ∧ wval σ (aF (r + 3)) = s.2.1
    ∧ rotl32 (wval σ (aF (r + 2))) 30 = s.2.2.1
    ∧ rotl32 (wval σ (aF (r + 1))) 30 = s.2.2.2.1
    ∧ rotl32 (wval σ (aF r)) 30 = s.2.2.2.2

theorem fwdStep_eq (w : Nat → Nat) (s : Nat × Nat × Nat × Nat × Nat) (i : Nat) :
    fwdStep w s i
      = ((rotl32 s.1 5 + fwdF i s.2.1 s.2.2.1 s.2.2.2.1 + s.2.2.2.2
          + fwdK i + w i) % 2 ^ 32, s.1, rotl32 s.2.1 30, s.2.2.1, s.2.2.2.1) := rfl

/-- Soundness of the circuit at word level: if the word values of the wires
satisfy the schedule recurrence, the pinned chaining inputs, the round-step
recurrence and the five final additions, then `h_out` reads back exactly
`sha1_forward` of any message function agreeing with `w[0..16)`. -/
theorem circuit_sound (σ : Var → Bool) (wF hinF houtF aF : Nat → Nat → Var)
    (R : Nat) (hR16 : 16 ≤ R) (hR80 : R ≤ 80) (w0 : Nat → Nat)
    (hagree : ∀ i, i < 16 → w0 i = wval σ (wF i))
    (hsched : ∀ i, 16 ≤ i → i < R →
      wval σ (wF i) = rotl32 (wval σ (wF (i - 3)) ^^^ wval σ (wF (i - 8))
        ^^^ wval σ (wF (i - 14)) ^^^ wval σ (wF (i - 16))) 1)
    (ha4 : wval σ (aF 4) = H0) (ha3 : wval σ (aF 3) = H1)
    (ha2 : rotl32 (wval σ (aF 2)) 30 = H2)
    (ha1 : rotl32 (wval σ (aF 1)) 30 = H3)
    (ha0 : rotl32 (wval σ (aF 0)) 30 = H4)
    (hstep : ∀ i, i < R → wval σ (aF (i + 5))
        = (rotl32 (wval σ (aF (i + 4))) 5
            + fwdF i (wval σ (aF (i + 3))) (rotl32 (wval σ (aF (i + 2))) 30)
                (rotl32 (wval σ (aF (i + 1))) 30)
            + rotl32 (wval σ (aF i)) 30 + fwdK i + wval σ (wF i)) % 2 ^ 32)
    (hin0 : wval σ (hinF 0) = H0) (hin1 : wval σ (hinF 1) = H1)
    (hin2 : wval σ (hinF 2) = H2) (hin3 : wval σ (hinF 3) = H3)
    (hin4 : wval σ (hinF 4) = H4)
    (hout0 : wval σ (houtF 0) = (wval σ (hinF 0) + wval σ (aF (R + 4))) % 2 ^ 32)
    (hout1 : wval σ (houtF 1) = (wval σ (hinF 1) + wval σ (aF (R + 3))) % 2 ^ 32)
    (hout2 : wval σ (houtF 2)
        = (wval σ (hinF 2) + rotl32 (wval σ (aF (R + 2))) 30) % 2 ^ 32)
    (hout3 : wval σ (houtF 3)
        = (wval σ (hinF 3) + rotl32 (wval σ (aF (R + 1))) 30) % 2 ^ 32)
    (hout4 : wval σ (houtF 4)
        = (wval σ (hinF 4) + rotl32 (wval σ (aF R)) 30) % 2 ^ 32) :
    ∀ j, j < 5 → wval σ (houtF j) = sha1_forward R w0 j := by
  have hws : ∀ i, i < R →
      ((List.range' 16 (R - 16)).foldl fwdSchedStep
          ((List.range 80).map w0)).getD i 0 = wval σ (wF i) := by
    intro i hi
    exact fwdSched_invariant σ wF w0 R hR80 hagree hsched (R - 16) (by omega) i
      (by omega)
  have main : ∀ r, r ≤ R → fwdInv σ aF r
      ((List.range r).foldl
        (fwdStep (fun i =>
          ((List.range' 16 (R - 16)).foldl fwdSchedStep
            ((List.range 80).map w0)).getD i 0))
        (H0, H1, H2, H3, H4)) := by
    intro r
    induction r with
    | zero =>
      intro _
      simp only [List.range_zero, List.foldl_nil, fwdInv]
      exact ⟨ha4, ha3, ha2, ha1, ha0⟩
    | succ r ih =>
      intro hr
      obtain ⟨i1, i2, i3, i4, i5⟩ := ih (by omega)
      rw [show List.range (r + 1) = List.range r ++ [r] from List.range_succ r,
        List.foldl_append, List.foldl_cons, List.foldl_nil, fwdStep_eq]
      simp only [fwdInv]
      rw [(by omega : r + 1 + 4 = r + 5), (by omega : r + 1 + 3 = r + 4),
        (by omega : r + 1 + 2 = r + 3), (by omega : r + 1 + 1 = r + 2)]
      refine ⟨?_, ?_, ?_, ?_, ?_⟩
      · rw [hstep r (by omega), i1, i2, i3, i4, i5, hws r (by omega)]
      · exact i1
      · rw [i2]
      · exact i3
      · exact i4
  obtain ⟨m1, m2, m3, m4, m5⟩ := main R (le_refl R)
  intro j hj
  simp only [sha1_forward]
  rcases j with _ | _ | _ | _ | _ | j
  · rw [hout0, hin0, m1]
    norm_num
  · rw [hout1, hin1, m2]
    norm_num
  · rw [hout2, hin2, m3]
    norm_num
  · rw [hout3, hin3, m4]
    norm_num
  · rw [hout4, hin4, m5]
    norm_num
  · omega

end ForwardLoops

/-! ### From satisfaction of the emitted CNF to the hash equation -/

theorem getD_list4_zero {α : Type} (a b c d z : α) : [a, b, c, d].getD 0 z = a := rfl

theorem getD_list4_one {α : Type} (a b c d z : α) : [a, b, c, d].getD 1 z = b := rfl

theorem getD_list4_two {α : Type} (a b c d z : α) : [a, b, c, d].getD 2 z = c := rfl

theorem getD_list4_three {α : Type} (a b c d z : α) : [a, b, c, d].getD 3 z = d := rfl

/-- Soundness of the full Tseitin-mode circuit: any assignment satisfying the
emitted CNF reads back, in `h_out`, exactly `sha1_forward` applied to any
message function that agrees with the bits of `w[0..16)`. -/
theorem build_h_out (σ : Var → Bool) {cfg : Config}
    (ht : cfg.use_tseitin_adders = true) (hx : cfg.use_xor_clauses = false)
    (R : Nat) (hR16 : 16 ≤ R) (hR80 : R ≤ 80) (name : String) (st0 : St)
    (hsat : cnfSat σ (sha1.build cfg R name st0).2.cnf = true)
    (w0 : Nat → Nat)
    (hw : ∀ i, i < 16 → w0 i = wval σ ((sha1.build cfg R name st0).1.w i)) :
    ∀ j, j < 5 →
      wval σ ((sha1.build cfg R name st0).1.h_out j) = sha1_forward R w0 j := by
  rw [cnfSat_build σ ht hx R name st0] at hsat
  simp only [buildFact, Bool.and_eq_true] at hsat
  obtain ⟨hadd4, hadd3, hadd2, hadd1, hadd0, hrounds⟩ := hsat
  obtain ⟨hpins, hround⟩ := goFacts_extract _ _ _ hrounds
  simp only [Bool.and_eq_true] at hpins
  obtain ⟨hH4, hH3, hH2, hH1, hH0, hK3, hK2, hK1, hK0, hschedAll, _⟩ := hpins
  simp only [sha1.build] at hw ⊢
  have hin0v := wval_eq_const σ _ H0 (by decide) hH0
  have hin1v := wval_eq_const σ _ H1 (by decide) hH1
  have hin2v := wval_eq_const σ _ H2 (by decide) hH2
  have hin3v := wval_eq_const σ _ H3 (by decide) hH3
  have hin4v := wval_eq_const σ _ H4 (by decide) hH4
  have hK0v := wval_eq_const σ _ K0 (by decide) hK0
  have hK1v := wval_eq_const σ _ K1 (by decide) hK1
  have hK2v := wval_eq_const σ _ K2 (by decide) hK2
  have hK3v := wval_eq_const σ _ K3 (by decide) hK3
  refine circuit_sound σ _ ((sha1.build cfg R name st0).1.h_in) _
    ((sha1.build cfg R name st0).1.a) R hR16 hR80 w0 hw ?hsched ?ha4 ?ha3 ?ha2 ?ha1
    ?ha0 ?hstep ?hin0 ?hin1 ?hin2 ?hin3 ?hin4 ?hout0 ?hout1 ?hout2 ?hout3 ?hout4
  case hsched =>
    intro i h16 hiR
    have hmem := all_range'_extract hschedAll i h16 (by omega)
    have hxor := wval_eq_xor4 σ _ _ _ _ _ (bitsEq_extract σ hmem)
    rw [if_neg (by omega : ¬ i < 16), wval_rotl σ _ 1 (by omega), hxor]
  case ha4 =>
    have h : wval σ ((sha1.build cfg R name st0).1.a 4)
        = rotl32 (wval σ ((sha1.build cfg R name st0).1.h_in 0)) 32 :=
      wval_rotl σ ((sha1.build cfg R name st0).1.h_in 0) 32 (by omega)
    have h0 : wval σ ((sha1.build cfg R name st0).1.h_in 0) = H0 := hin0v
    rw [h, h0]
    exact rotl32_full H0 (by decide)
  case ha3 =>
    have h : wval σ ((sha1.build cfg R name st0).1.a 3)
        = rotl32 (wval σ ((sha1.build cfg R name st0).1.h_in 1)) 32 :=
      wval_rotl σ ((sha1.build cfg R name st0).1.h_in 1) 32 (by omega)
    have h0 : wval σ ((sha1.build cfg R name st0).1.h_in 1) = H1 := hin1v
    rw [h, h0]
    exact rotl32_full H1 (by decide)
  case ha2 =>
    have h : wval σ ((sha1.build cfg R name st0).1.a 2)
        = rotl32 (wval σ ((sha1.build cfg R name st0).1.h_in 2)) 2 :=
      wval_rotl σ ((sha1.build cfg R name st0).1.h_in 2) 2 (by omega)
    have h0 : wval σ ((sha1.build cfg R name st0).1.h_in 2) = H2 := hin2v
    rw [h, h0]
    exact rotl32_rotl32 H2 2 30 (by decide) (by omega) (by omega)
  case ha1 =>
    have h : wval σ ((sha1.build cfg R name st0).1.a 1)
        = rotl32 (wval σ ((sha1.build cfg R name st0).1.h_in 3)) 2 :=
      wval_rotl σ ((sha1.build cfg R name st0).1.h_in 3) 2 (by omega)
    have h0 : wval σ ((sha1.build cfg R name st0).1.h_in 3) = H3 := hin3v
    rw [h, h0]
    exact rotl32_rotl32 H3 2 30 (by decide) (by omega) (by omega)
  case ha0 =>
    have h : wval σ ((sha1.build cfg R name st0).1.a 0)
        = rotl32 (wval σ ((sha1.build cfg R name st0).1.h_in 4)) 2 :=
      wval_rotl σ ((sha1.build cfg R name st0).1.h_in 4) 2 (by omega)
    have h0 : wval σ ((sha1.build cfg R name st0).1.h_in 4) = H4 := hin4v
    rw [h, h0]
    exact rotl32_rotl32 H4 2 30 (by decide) (by omega) (by omega)
  case hstep =>
    intro i hiR
    have hfact := hround i (by simpa using hiR)
    simp only [List.get_eq_getElem, List.getElem_range] at hfact
    simp only [roundFact, Bool.and_eq_true] at hfact
    obtain ⟨hadd5, hf⟩ := hfact
    have hval := add5Fact_wval σ _ _ _ _ _ _ _ hadd5
    rw [wval_rotl σ _ 5 (by omega), wval_rotl σ _ 30 (by omega)] at hval
    simp only [fwdF, fwdK]
    by_cases h20 : i < 20
    · rw [if_pos h20] at hf
      have hlift := wval_eq_ch σ _ _ _ _ (bitsEq_extract σ hf)
      rw [wval_rotl σ _ 0 (by omega), wval_rotl σ _ 30 (by omega),
        wval_rotl σ _ 30 (by omega), rotl32_zero _ (wval_lt σ _)] at hlift
      rw [hlift, (by omega : i / 20 = 0), getD_list4_zero, hK0v] at hval
      rw [if_pos h20, if_pos h20]
      exact hval
    · by_cases h40 : i < 40
      · rw [if_neg h20, if_pos h40] at hf
        have hlift := wval_eq_parity3 σ _ _ _ _ (bitsEq_extract σ hf)
        rw [wval_rotl σ _ 0 (by omega), wval_rotl σ _ 30 (by omega),
          wval_rotl σ _ 30 (by omega), rotl32_zero _ (wval_lt σ _)] at hlift
        rw [hlift, (by omega : i / 20 = 1), getD_list4_one, hK1v] at hval
        rw [if_neg h20, if_pos h40, if_neg h20, if_pos h40]
        exact hval
      · by_cases h60 : i < 60
        · rw [if_neg h20, if_neg h40, if_pos h60] at hf
          have hlift := wval_eq_maj σ _ _ _ _ (bitsEq_extract σ hf)
          rw [wval_rotl σ _ 0 (by omega), wval_rotl σ _ 30 (by omega),
            wval_rotl σ _ 30 (by omega), rotl32_zero _ (wval_lt σ _)] at hlift
          rw [hlift, (by omega : i / 20 = 2), getD_list4_two, hK2v] at hval
          rw [if_neg h20, if_neg h40, if_pos h60, if_neg h20, if_neg h40, if_pos h60]
          exact hval
        · rw [if_neg h20, if_neg h40, if_neg h60] at hf
          have hlift := wval_eq_parity3 σ _ _ _ _ (bitsEq_extract σ hf)
          rw [wval_rotl σ _ 0 (by omega), wval_rotl σ _ 30 (by omega),
            wval_rotl σ _ 30 (by omega), rotl32_zero _ (wval_lt σ _)] at hlift
          rw [hlift, (by omega : i / 20 = 3), getD_list4_three, hK3v] at hval
          rw [if_neg h20, if_neg h40, if_neg h60, if_neg h20, if_neg h40, if_neg h60]
          exact hval
  case hin0 => exact hin0v
  case hin1 => exact hin1v
  case hin2 => exact hin2v
  case hin3 => exact hin3v
  case hin4 => exact hin4v
  case hout0 => exact add2Fact_wval σ _ _ _ _ hadd0
  case hout1 => exact add2Fact_wval σ _ _ _ _ hadd1
  case hout2 =>
    have h := add2Fact_wval σ _ _ _ _ hadd2
    rw [wval_rotl σ _ 30 (by omega)] at h
    exact h
  case hout3 =>
    have h := add2Fact_wval σ _ _ _ _ hadd3
    rw [wval_rotl σ _ 30 (by omega)] at h
    exact h
  case hout4 =>
    have h := add2Fact_wval σ _ _ _ _ hadd4
    rw [wval_rotl σ _ 30 (by omega)] at h
    exact h

/-! ### The OPB mirror of the satisfaction chain (Tseitin mode) -/

theorem opbSat_and2 (σ : Var → Bool) (r a b : Nat → Var) (n : Nat) (st : St) :
    opbSat σ (and2 r a b n st).opb
      = (bitsEq σ r (fun i => σ (a i) && σ (b i)) n && opbSat σ st.opb) := by
  have hstep : ∀ (st : St) i,
      opbSat σ (clause [(r i, false), (b i, true)]
        (clause [(r i, false), (a i, true)]
          (clause [(r i, true), (a i, false), (b i, false)] st))).opb
        = ((σ (r i) == (σ (a i) && σ (b i))) && opbSat σ st.opb) := by
    intro st i
    simp only [opbSat_clause]
    simp only [evalClause, List.any_cons, List.any_nil, evalLit]
    generalize σ (r i) = x
    generalize σ (a i) = y
    generalize σ (b i) = z
    cases x <;> cases y <;> cases z <;> simp
  simp only [and2]
  rw [opbSat_foldl hstep]
  rfl

theorem opbSat_or2 (σ : Var → Bool) (r a b : Nat → Var) (n : Nat) (st : St) :
    opbSat σ (or2 r a b n st).opb
      = (bitsEq σ r (fun i => σ (a i) || σ (b i)) n && opbSat σ st.opb) := by
  have hstep : ∀ (st : St) i,
      opbSat σ (clause [(r i, true), (b i, false)]
        (clause [(r i, true), (a i, false)]
          (clause [(r i, false), (a i, true), (b i, true)] st))).opb
        = ((σ (r i) == (σ (a i) || σ (b i))) && opbSat σ st.opb) := by
    intro st i
    simp only [opbSat_clause]
    simp only [evalClause, List.any_cons, List.any_nil, evalLit]
    generalize σ (r i) = x
    generalize σ (a i) = y
    generalize σ (b i) = z
    cases x <;> cases y <;> cases z <;> simp
  simp only [or2]
  rw [opbSat_foldl hstep]
  rfl

theorem opbSat_xor2 (σ : Var → Bool) {cfg : Config} (hx : cfg.use_xor_clauses = false)
    (r a b : Nat → Var) (n : Nat) (st : St) :
    opbSat σ (xor2 cfg r a b n st).opb
      = (bitsEq σ r (fun i => xor (σ (a i)) (σ (b i))) n && opbSat σ st.opb) := by
  have hstep : ∀ (st : St) i,
      opbSat σ ((List.range 8).foldl
        (fun st j =>
          if popcount (j ^^^ 1) % 2 = 1 then st
          else clause [(r i, j &&& 1 == 0), (a i, !(j &&& 2 == 0)), (b i, !(j &&& 4 == 0))] st)
        st).opb
        = ((σ (r i) == xor (σ (a i)) (σ (b i))) && opbSat σ st.opb) := by
    intro st i
    rw [show (List.range 8).foldl
        (fun st j =>
          if popcount (j ^^^ 1) % 2 = 1 then st
          else clause [(r i, j &&& 1 == 0), (a i, !(j &&& 2 == 0)), (b i, !(j &&& 4 == 0))] st)
        st
        = (clause [(r i, false), (a i, true), (b i, true)]
            (clause [(r i, true), (a i, false), (b i, true)]
              (clause [(r i, true), (a i, true), (b i, false)]
                (clause [(r i, false), (a i, false), (b i, false)] st)))) from rfl]
    simp only [opbSat_clause]
    simp only [evalClause, List.any_cons, List.any_nil, evalLit]
    generalize σ (r i) = x
    generalize σ (a i) = y
    generalize σ (b i) = z
    cases x <;> cases y <;> cases z <;> simp
  simp only [xor2, hx, Bool.false_eq_true, if_false]
  rw [opbSat_foldl hstep, opbSat_comment]
  rfl

theorem opbSat_xor3 (σ : Var → Bool) {cfg : Config} (hx : cfg.use_xor_clauses = false)
    (r a b c : Nat → Var) (n : Nat) (st : St) :
    opbSat σ (xor3 cfg r a b c n st).opb
      = (bitsEq σ r (fun i => xor (σ (a i)) (xor (σ (b i)) (σ (c i)))) n
          && opbSat σ st.opb) := by
  have hstep : ∀ (st : St) i,
      opbSat σ ((List.range 16).foldl
        (fun st j =>
          if popcount (j ^^^ 1) % 2 = 0 then st
          else clause [(r i, j &&& 1 == 0), (a i, !(j &&& 2 == 0)), (b i, !(j &&& 4 == 0)),
                       (c i, !(j &&& 8 == 0))] st)
        st).opb
        = ((σ (r i) == xor (σ (a i)) (xor (σ (b i)) (σ (c i)))) && opbSat σ st.opb) := by
    intro st i
    rw [show (List.range 16).foldl
        (fun st j =>
          if popcount (j ^^^ 1) % 2 = 0 then st
          else clause [(r i, j &&& 1 == 0), (a i, !(j &&& 2 == 0)), (b i, !(j &&& 4 == 0)),
                       (c i, !(j &&& 8 == 0))] st)
        st
        = (clause [(r i, false), (a i, true), (b i, true), (c i, true)]
            (clause [(r i, true), (a i, false), (b i, true), (c i, true)]
              (clause [(r i, true), (a i, true), (b i, false), (c i, true)]
                (clause [(r i, false), (a i, false), (b i, false), (c i, true)]
                  (clause [(r i, true), (a i, true), (b i, true), (c i, false)]
                    (clause [(r i, false), (a i, false), (b i, true), (c i, false)]
                      (clause [(r i, false), (a i, true), (b i, false), (c i, false)]
                        (clause [(r i, true), (a i, false), (b i, false), (c i, false)] st)))))))) from rfl]
    simp only [opbSat_clause]
    simp only [evalClause, List.any_cons, List.any_nil, evalLit]
    generalize σ (r i) = x
    generalize σ (a i) = y
    generalize σ (b i) = z
    generalize σ (c i) = u
    cases x <;> cases y <;> cases z <;> cases u <;> simp
  simp only [xor3, hx, Bool.false_eq_true, if_false]
  rw [opbSat_foldl hstep, opbSat_comment]
  rfl

theorem opbSat_xor4 (σ : Var → Bool) {cfg : Config} (hx : cfg.use_xor_clauses = false)
    (r a b c d : Nat → Var) (st : St) :
    opbSat σ (xor4 cfg r a b c d st).opb
      = (bitsEq σ r (fun i => xor (σ (a i)) (xor (σ (b i)) (xor (σ (c i)) (σ (d i))))) 32
          && opbSat σ st.opb) := by
  have hstep : ∀ (st : St) i,
      opbSat σ ((List.range 32).foldl
        (fun st j =>
          if popcount (j ^^^ 1) % 2 = 1 then st
          else clause [(r i, j &&& 1 == 0), (a i, !(j &&& 2 == 0)), (b i, !(j &&& 4 == 0)),
                       (c i, !(j &&& 8 == 0)), (d i, !(j &&& 16 == 0))] st)
        st).opb
        = ((σ (r i) == xor (σ (a i)) (xor (σ (b i)) (xor (σ (c i)) (σ (d i)))))
            && opbSat σ st.opb) := by
    intro st i
    rw [show (List.range 32).foldl
        (fun st j =>
          if popcount (j ^^^ 1) % 2 = 1 then st
          else clause [(r i, j &&& 1 == 0), (a i, !(j &&& 2 == 0)), (b i, !(j &&& 4 == 0)),
                       (c i, !(j &&& 8 == 0)), (d i, !(j &&& 16 == 0))] st)
        st
        = (clause [(r i, false), (a i, true), (b i, true), (c i, true), (d i, true)]
            (clause [(r i, true), (a i, false), (b i, true), (c i, true), (d i, true)]
              (clause [(r i, true), (a i, true), (b i, false), (c i, true), (d i, true)]
                (clause [(r i, false), (a i, false), (b i, false), (c i, true), (d i, true)]
                  (clause [(r i, true), (a i, true), (b i, true), (c i, false), (d i, true)]
                    (clause [(r i, false), (a i, false), (b i, true), (c i, false), (d i, true)]
                      (clause [(r i, false), (a i, true), (b i, false), (c i, false), (d i, true)]
                        (clause [(r i, true), (a i, false), (b i, false), (c i, false), (d i, true)]
                          (clause [(r i, true), (a i, true), (b i, true), (c i, true), (d i, false)]
                            (clause [(r i, false), (a i, false), (b i, true), (c i, true), (d i, false)]
                              (clause [(r i, false), (a i, true), (b i, false), (c i, true), (d i, false)]
                                (clause [(r i, true), (a i, false), (b i, false), (c i, true), (d i, false)]
                                  (clause [(r i, false), (a i, true), (b i, true), (c i, false), (d i, false)]
                                    (clause [(r i, true), (a i, false), (b i, true), (c i, false), (d i, false)]
                                      (clause [(r i, true), (a i, true), (b i, false), (c i, false), (d i, false)]
                                        (clause [(r i, false), (a i, false), (b i, false), (c i, false), (d i, false)] st)))))))))))))))) from rfl]
    simp only [opbSat_clause]
    simp only [evalClause, List.any_cons, List.any_nil, evalLit]
    generalize σ (r i) = x
    generalize σ (a i) = y
    generalize σ (b i) = z
    generalize σ (c i) = u
    generalize σ (d i) = v
    cases x <;> cases y <;> cases z <;> cases u <;> cases v <;> simp
  simp only [xor4, hx, Bool.false_eq_true, if_false]
  rw [opbSat_foldl hstep, opbSat_comment]
  rfl

theorem opbSat_chBit (σ : Var → Bool) (f b c d : Nat → Var) (j : Nat) (st : St) :
    opbSat σ (chBit f b c d j st).opb
      = ((σ (f j) == chB (σ (b j)) (σ (c j)) (σ (d j))) && opbSat σ st.opb) := by
  simp only [chBit, opbSat_clause]
  simp only [evalClause, List.any_cons, List.any_nil, evalLit, chB]
  generalize σ (f j) = x
  generalize σ (b j) = y
  generalize σ (c j) = z
  generalize σ (d j) = u
  cases x <;> cases y <;> cases z <;> cases u <;> simp

theorem opbSat_majBit (σ : Var → Bool) (f b c d : Nat → Var) (j : Nat) (st : St) :
    opbSat σ (majBit f b c d j st).opb
      = ((σ (f j) == majB (σ (b j)) (σ (c j)) (σ (d j))) && opbSat σ st.opb) := by
  simp only [majBit, opbSat_clause]
  simp only [evalClause, List.any_cons, List.any_nil, evalLit, majB]
  generalize σ (f j) = x
  generalize σ (b j) = y
  generalize σ (c j) = z
  generalize σ (d j) = u
  cases x <;> cases y <;> cases z <;> cases u <;> simp

theorem opbSat_add2T (σ : Var → Bool) {cfg : Config}
    (ht : cfg.use_tseitin_adders = true) (hx : cfg.use_xor_clauses = false)
    (lab : String) (r a b : Nat → Var) (st : St) :
    opbSat σ (add2 cfg lab r a b st).opb
      = (add2Fact σ st.nr_variables r a b && opbSat σ st.opb) := by
  simp only [add2, ht, if_true]
  rw [opbSat_xor2 σ hx, opbSat_or2, opbSat_and2, opbSat_and2, opbSat_xor2 σ hx,
    opbSat_xor2 σ hx, opbSat_and2, opbSat_new_vars, opbSat_new_vars, opbSat_new_vars,
    opbSat_new_vars, opbSat_comment]
  simp only [new_vars_fst, new_vars_nr_variables, comment_nr_variables, add2Fact,
    Bool.and_assoc]

theorem opbSat_add5T (σ : Var → Bool) {cfg : Config}
    (ht : cfg.use_tseitin_adders = true) (hx : cfg.use_xor_clauses = false)
    (lab : String) (r a b c d e : Nat → Var) (st : St) :
    opbSat σ (add5 cfg lab r a b c d e st).opb
      = (add5Fact σ st.nr_variables r a b c d e && opbSat σ st.opb) := by
  simp only [add5, ht, if_true]
  rw [opbSat_add2T σ ht hx, opbSat_add2T σ ht hx, opbSat_add2T σ ht hx,
    opbSat_add2T σ ht hx, opbSat_new_vars, opbSat_new_vars, opbSat_new_vars,
    opbSat_comment]
  simp only [add2T_nr_variables ht hx, new_vars_nr_variables, new_vars_fst,
    comment_nr_variables, add5Fact, Bool.and_assoc]

theorem opbSat_sha1Round (σ : Var → Bool) {cfg : Config}
    (ht : cfg.use_tseitin_adders = true) (hx : cfg.use_xor_clauses = false)
    (aF wF kF : Nat → Nat → Var) (st : St) (i : Nat) :
    opbSat σ (sha1Round cfg aF wF kF st i).opb
      = (roundFact σ aF wF kF st.nr_variables i && opbSat σ st.opb) := by
  have hch : ∀ (f b c d : Nat → Var) (st : St),
      opbSat σ ((List.range 32).foldl (fun st j => chBit f b c d j st) st).opb
        = (bitsEq σ f (fun j => chB (σ (b j)) (σ (c j)) (σ (d j))) 32
            && opbSat σ st.opb) := by
    intro f b c d st
    exact opbSat_foldl (fun st j => opbSat_chBit σ f b c d j st) _ st
  have hmaj : ∀ (f b c d : Nat → Var) (st : St),
      opbSat σ ((List.range 32).foldl (fun st j => majBit f b c d j st) st).opb
        = (bitsEq σ f (fun j => majB (σ (b j)) (σ (c j)) (σ (d j))) 32
            && opbSat σ st.opb) := by
    intro f b c d st
    exact opbSat_foldl (fun st j => opbSat_majBit σ f b c d j st) _ st
  have hchn : ∀ (f b c d : Nat → Var) (st : St),
      ((List.range 32).foldl (fun st j => chBit f b c d j st) st).nr_variables
        = st.nr_variables := by
    intro f b c d st
    apply nrv_foldl_const
    intro st j
    rfl
  have hmajn : ∀ (f b c d : Nat → Var) (st : St),
      ((List.range 32).foldl (fun st j => majBit f b c d j st) st).nr_variables
        = st.nr_variables := by
    intro f b c d st
    apply nrv_foldl_const
    intro st j
    rfl
  simp only [sha1Round, roundFact]
  rw [opbSat_add5T σ ht hx]
  by_cases h20 : i < 20
  · simp only [h20, if_true]
    rw [hch, opbSat_new_vars, hchn, new_vars_nr_variables]
    simp only [new_vars_fst, Bool.and_assoc]
  · by_cases h40 : i < 40
    · simp only [h20, h40, if_true, if_false]
      rw [opbSat_xor3 σ hx, opbSat_new_vars, xor3_nr_variables hx, new_vars_nr_variables]
      simp only [new_vars_fst, Bool.and_assoc]
    · by_cases h60 : i < 60
      · simp only [h20, h40, h60, if_true, if_false]
        rw [hmaj, opbSat_new_vars, hmajn, new_vars_nr_variables]
        simp only [new_vars_fst, Bool.and_assoc]
      · simp only [h20, h40, h60, if_false]
        rw [opbSat_xor3 σ hx, opbSat_new_vars, xor3_nr_variables hx, new_vars_nr_variables]
        simp only [new_vars_fst, Bool.and_assoc]

theorem opbSat_new_constant (σ : Var → Bool) (cfg : Config) (lab : String)
    (v : Nat) (st : St) :
    opbSat σ (new_constant cfg lab v st).2.opb
      = (bitsEq σ (fun j => st.nr_variables + 1 + j) (fun i => v.testBit i) 32
          && opbSat σ st.opb) := by
  simp only [new_constant]
  rw [opbSat_constant32, opbSat_new_vars]
  simp only [new_vars_fst]

theorem opbSat_schedFold (σ : Var → Bool) {cfg : Config}
    (hx : cfg.use_xor_clauses = false) (wt w : Nat → Nat → Var)
    (l : List Nat) (st : St) :
    opbSat σ (l.foldl (schedStep cfg wt w) st).opb
      = (l.all (fun i => bitsEq σ (wt i)
          (fun j => xor (σ (w (i - 3) j)) (xor (σ (w (i - 8) j))
            (xor (σ (w (i - 14) j)) (σ (w (i - 16) j))))) 32)
          && opbSat σ st.opb) :=
  opbSat_foldl (fun st i => opbSat_xor4 σ hx (wt i) (w (i - 3)) (w (i - 8))
    (w (i - 14)) (w (i - 16)) st) l st

theorem opbSat_roundFold (σ : Var → Bool) {cfg : Config}
    (ht : cfg.use_tseitin_adders = true) (hx : cfg.use_xor_clauses = false)
    (aF wF kF : Nat → Nat → Var) (l : List Nat) (st : St) :
    opbSat σ (l.foldl (sha1Round cfg aF wF kF) st).opb
      = goFacts (roundFact σ aF wF kF) 624 st.nr_variables l (opbSat σ st.opb) :=
  sat_foldl_ctr (P := fun st => opbSat σ st.opb)
    (fun st i => opbSat_sha1Round σ ht hx aF wF kF st i)
    (fun st i => sha1Round_nr_variables ht hx aF wF kF st i) l st

theorem opbSat_sha1AllocPhase (σ : Var → Bool) (cfg : Config) (R : Nat)
    (name : String) (st : St) :
    opbSat σ (sha1AllocPhase cfg R name st).2.opb = opbSat σ st.opb := by
  simp only [sha1AllocPhase]
  rw [opbSat_allocWords, opbSat_allocWords, opbSat_allocWords, opbSat_allocWords,
    opbSat_allocWords]

set_option maxHeartbeats 8000000 in
theorem opbSat_build (σ : Var → Bool) {cfg : Config}
    (ht : cfg.use_tseitin_adders = true) (hx : cfg.use_xor_clauses = false)
    (R : Nat) (name : String) (st0 : St) :
    opbSat σ (sha1.build cfg R name st0).2.opb
      = buildFact σ cfg R name st0 (opbSat σ st0.opb) := by
  simp only [sha1.build, buildFact]
  rw [opbSat_add2T σ ht hx, opbSat_add2T σ ht hx, opbSat_add2T σ ht hx,
    opbSat_add2T σ ht hx, opbSat_add2T σ ht hx, opbSat_roundFold σ ht hx,
    opbSat_constant32, opbSat_constant32, opbSat_constant32, opbSat_constant32,
    opbSat_constant32, opbSat_new_constant, opbSat_new_constant,
    opbSat_new_constant, opbSat_new_constant, opbSat_schedFold σ hx,
    opbSat_sha1AllocPhase, opbSat_comment, opbSat_comment]
  simp only [new_constant_fst, add2T_nr_variables ht hx, roundFold_nr_variables ht hx,
    constant32_nr_variables, new_constant_nr_variables, schedFold_nr_variables hx,
    sha1AllocPhase_nr_variables, comment_nr_variables, List.length_range,
    Bool.and_assoc]

/-! ### Agreement of the CNF and OPB encodings -/

section CnfOpbAgree

/-- Steps that preserve the agreement of the two buffers propagate it through
a fold. -/
theorem sat_agree_foldl {σ : Var → Bool} {step : St → Nat → St}
    (h : ∀ st i, cnfSat σ st.cnf = opbSat σ st.opb →
          cnfSat σ (step st i).cnf = opbSat σ (step st i).opb) :
    ∀ (l : List Nat) (st : St), cnfSat σ st.cnf = opbSat σ st.opb →
      cnfSat σ (l.foldl step st).cnf = opbSat σ (l.foldl step st).opb := by
  intro l
  induction l with
  | nil => intro st h0; exact h0
  | cons a l ih =>
    intro st h0
    rw [List.foldl_cons]
    exact ih _ (h _ _ h0)

end CnfOpbAgree

/-! ### Counting the compact addition equations -/

section Counting

/-- An OPB line that is an equality over at least two terms: exactly the
addition equations emitted by the compact adders (every other equality the
generator emits pins a single variable). -/
def isAddEqn : OpbLine → Bool
  | OpbLine.eqn ts _ => decide (2 ≤ ts.length)
  | _ => false

/-- The number of compact addition equations in the OPB buffer. -/
def nAdds (st : St) : Nat := st.opb.countP isAddEqn

theorem nAdds_comment (s : String) (st : St) : nAdds (comment s st) = nAdds st := by
  simp [nAdds, comment, isAddEqn, List.countP_cons]

theorem nAdds_clause (v : List Lit) (st : St) : nAdds (clause v st) = nAdds st := by
  simp [nAdds, clause, isAddEqn, List.countP_cons]

theorem nAdds_xor_clause (v : List Lit) (st : St) :
    nAdds (xor_clause v st) = nAdds st := rfl

theorem nAdds_constant (r : Var) (b : Bool) (st : St) :
    nAdds (constant r b st) = nAdds st := by
  simp [nAdds, constant, isAddEqn, List.countP_cons]

theorem nAdds_new_vars (cfg : Config) (lab : String) (n : Nat) (dec : Bool)
    (st : St) : nAdds (new_vars cfg lab n dec st).2 = nAdds st := by
  simp only [new_vars]
  by_cases h : cfg.restrict_branching <;>
    simp [h, nAdds, comment, isAddEqn, List.countP_cons]

theorem nAdds_foldl_const {step : St → Nat → St}
    (h : ∀ st i, nAdds (step st i) = nAdds st) :
    ∀ (l : List Nat) (st : St), nAdds (l.foldl step st) = nAdds st := by
  intro l
  induction l with
  | nil => intro st; rfl
  | cons a l ih => intro st; rw [List.foldl_cons, ih, h]

theorem nAdds_foldl_succ {step : St → Nat → St}
    (h : ∀ st i, nAdds (step st i) = nAdds st + 1) :
    ∀ (l : List Nat) (st : St), nAdds (l.foldl step st) = nAdds st + l.length := by
  intro l
  induction l with
  | nil => intro st; rfl
  | cons a l ih =>
    intro st
    rw [List.foldl_cons, ih, h, List.length_cons]
    omega

theorem nAdds_constant32 (r : Nat → Var) (value : Nat) (st : St) :
    nAdds (constant32 r value st) = nAdds st := by
  simp only [constant32]
  rw [nAdds_foldl_const
      (fun st i => by simp [nAdds, isAddEqn, List.countP_cons]),
    nAdds_comment]

theorem nAdds_new_constant (cfg : Config) (lab : String) (v : Nat) (st : St) :
    nAdds (new_constant cfg lab v st).2 = nAdds st := by
  simp only [new_constant]
  rw [nAdds_constant32, nAdds_new_vars]

theorem allocFold_nAdds (cfg : Config) (lab : Nat → String) (dec : Bool) :
    ∀ (idxs : List Nat) (acc : List (Nat → Var)) (st : St),
      nAdds (allocFold cfg lab dec idxs (acc, st)).2 = nAdds st := by
  intro idxs
  induction idxs with
  | nil => intro acc st; rfl
  | cons i idxs ih =>
    intro acc st
    have hstep : allocFold cfg lab dec (i :: idxs) (acc, st)
        = allocFold cfg lab dec idxs
            (acc ++ [fun j => st.nr_variables + 1 + j],
              (new_vars cfg (lab i) 32 dec st).2) := by
      simp only [allocFold, List.foldl_cons, new_vars_fst]
    rw [hstep, ih, nAdds_new_vars]

theorem nAdds_allocWords (cfg : Config) (idxs : List Nat) (lab : Nat → String)
    (dec : Bool) (st : St) :
    nAdds (allocWords cfg idxs lab dec st).2 = nAdds st :=
  allocFold_nAdds cfg lab dec idxs [] st

theorem nAdds_sha1AllocPhase (cfg : Config) (R : Nat) (name : String) (st : St) :
    nAdds (sha1AllocPhase cfg R name st).2 = nAdds st := by
  simp only [sha1AllocPhase]
  rw [nAdds_allocWords, nAdds_allocWords, nAdds_allocWords, nAdds_allocWords,
    nAdds_allocWords]

theorem nAdds_chBit (f b c d : Nat → Var) (j : Nat) (st : St) :
    nAdds (chBit f b c d j st) = nAdds st := by
  simp only [chBit, nAdds_clause]

theorem nAdds_majBit (f b c d : Nat → Var) (j : Nat) (st : St) :
    nAdds (majBit f b c d j st) = nAdds st := by
  simp only [majBit, nAdds_clause]

theorem nAdds_xor2 (cfg : Config) (r a b : Nat → Var) (n : Nat) (st : St) :
    nAdds (xor2 cfg r a b n st) = nAdds st := by
  have hstep : ∀ (st : St) (i : Nat),
      nAdds ((List.range 8).foldl
        (fun st j =>
          if popcount (j ^^^ 1) % 2 = 1 then st
          else clause [(r i, j &&& 1 == 0), (a i, !(j &&& 2 == 0)), (b i, !(j &&& 4 == 0))] st)
        st) = nAdds st := by
    intro st i
    exact nAdds_foldl_const (fun st j => by split <;> simp [nAdds_clause]) _ st
  have hstepx : ∀ (st : St) (i : Nat),
      nAdds (xor_clause [(r i, false), (a i, true), (b i, true)] st) = nAdds st :=
    fun st i => rfl
  by_cases hx : cfg.use_xor_clauses = true
  · simp only [xor2, hx, if_true]
    rw [nAdds_foldl_const hstepx, nAdds_comment]
  · simp only [Bool.not_eq_true] at hx
    simp only [xor2, hx, Bool.false_eq_true, if_false]
    rw [nAdds_foldl_const hstep, nAdds_comment]

theorem nAdds_xor3 (cfg : Config) (r a b c : Nat → Var) (n : Nat) (st : St) :
    nAdds (xor3 cfg r a b c n st) = nAdds st := by
  have hstep : ∀ (st : St) (i : Nat),
      nAdds ((List.range 16).foldl
        (fun st j =>
          if popcount (j ^^^ 1) % 2 = 0 then st
          else clause [(r i, j &&& 1 == 0), (a i, !(j &&& 2 == 0)), (b i, !(j &&& 4 == 0)),
                       (c i, !(j &&& 8 == 0))] st)
        st) = nAdds st := by
    intro st i
    exact nAdds_foldl_const (fun st j => by split <;> simp [nAdds_clause]) _ st
  have hstepx : ∀ (st : St) (i : Nat),
      nAdds (xor_clause [(r i, false), (a i, true), (b i, true), (c i, true)] st)
        = nAdds st :=
    fun st i => rfl
  by_cases hx : cfg.use_xor_clauses = true
  · simp only [xor3, hx, if_true]
    rw [nAdds_foldl_const hstepx, nAdds_comment]
  · simp only [Bool.not_eq_true] at hx
    simp only [xor3, hx, Bool.false_eq_true, if_false]
    rw [nAdds_foldl_const hstep, nAdds_comment]

theorem nAdds_xor4 (cfg : Config) (r a b c d : Nat → Var) (st : St) :
    nAdds (xor4 cfg r a b c d st) = nAdds st := by
  have hstep : ∀ (st : St) (i : Nat),
      nAdds ((List.range 32).foldl
        (fun st j =>
          if popcount (j ^^^ 1) % 2 = 1 then st
          else clause [(r i, j &&& 1 == 0), (a i, !(j &&& 2 == 0)),
                       (b i, !(j &&& 4 == 0)), (c i, !(j &&& 8 == 0)),
                       (d i, !(j &&& 16 == 0))] st)
        st) = nAdds st := by
    intro st i
    exact nAdds_foldl_const (fun st j => by split <;> simp [nAdds_clause]) _ st
  have hstepx : ∀ (st : St) (i : Nat),
      nAdds (xor_clause [(r i, false), (a i, true), (b i, true), (c i, true), (d i, true)] st)
        = nAdds st :=
    fun st i => rfl
  by_cases hx : cfg.use_xor_clauses = true
  · simp only [xor4, hx, if_true]
    rw [nAdds_foldl_const hstepx, nAdds_comment]
  · simp only [Bool.not_eq_true] at hx
    simp only [xor4, hx, Bool.false_eq_true, if_false]
    rw [nAdds_foldl_const hstep, nAdds_comment]

theorem nAdds_schedFold {cfg : Config} (wt w : Nat → Nat → Var)
    (l : List Nat) (st : St) :
    nAdds (l.foldl (schedStep cfg wt w) st) = nAdds st :=
  nAdds_foldl_const
    (fun st i => nAdds_xor4 cfg (wt i) (w (i - 3)) (w (i - 8)) (w (i - 14))
      (w (i - 16)) st) l st

theorem nAdds_add2C {cfg : Config} (ht : cfg.use_tseitin_adders = false)
    (hc : cfg.use_compact_adders = true) (lab : String) (r a b : Nat → Var)
    (st : St) : nAdds (add2 cfg lab r a b st) = nAdds st + 1 := by
  simp [add2, ht, hc, nAdds, comment, isAddEqn, List.countP_cons]

theorem nAdds_add5C {cfg : Config} (ht : cfg.use_tseitin_adders = false)
    (hc : cfg.use_compact_adders = true) (lab : String)
    (r a b c d e : Nat → Var) (st : St) :
    nAdds (add5 cfg lab r a b c d e st) = nAdds st + 1 := by
  simp [add5, ht, hc, nAdds, comment, isAddEqn, List.countP_cons]

theorem nAdds_sha1Round {cfg : Config} (ht : cfg.use_tseitin_adders = false)
    (hc : cfg.use_compact_adders = true) (aF wF kF : Nat → Nat → Var)
    (st : St) (i : Nat) :
    nAdds (sha1Round cfg aF wF kF st i) = nAdds st + 1 := by
  have hch : ∀ (f b c d : Nat → Var) (st : St),
      nAdds ((List.range 32).foldl (fun st j => chBit f b c d j st) st) = nAdds st := by
    intro f b c d st
    exact nAdds_foldl_const (fun st j => nAdds_chBit f b c d j st) _ st
  have hmaj : ∀ (f b c d : Nat → Var) (st : St),
      nAdds ((List.range 32).foldl (fun st j => majBit f b c d j st) st) = nAdds st := by
    intro f b c d st
    exact nAdds_foldl_const (fun st j => nAdds_majBit f b c d j st) _ st
  simp only [sha1Round]
  rw [nAdds_add5C ht hc]
  by_cases h20 : i < 20
  · simp only [h20, if_true]
    rw [hch, nAdds_new_vars]
  · by_cases h40 : i < 40
    · simp only [h20, h40, if_true, if_false]
      rw [nAdds_xor3, nAdds_new_vars]
    · by_cases h60 : i < 60
      · simp only [h20, h40, h60, if_true, if_false]
        rw [hmaj, nAdds_new_vars]
      · simp only [h20, h40, h60, if_false]
        rw [nAdds_xor3, nAdds_new_vars]

theorem nAdds_roundFold {cfg : Config} (ht : cfg.use_tseitin_adders = false)
    (hc : cfg.use_compact_adders = true) (aF wF kF : Nat → Nat → Var)
    (l : List Nat) (st : St) :
    nAdds (l.foldl (sha1Round cfg aF wF kF) st) = nAdds st + l.length :=
  nAdds_foldl_succ (fun st i => nAdds_sha1Round ht hc aF wF kF st i) l st

set_option maxHeartbeats 4000000 in
theorem nAdds_build {cfg : Config} (ht : cfg.use_tseitin_adders = false)
    (hc : cfg.use_compact_adders = true) (R : Nat) (name : String) (st0 : St) :
    nAdds (sha1.build cfg R name st0).2 = nAdds st0 + (R + 5) := by
  simp only [sha1.build]
  rw [nAdds_add2C ht hc, nAdds_add2C ht hc, nAdds_add2C ht hc, nAdds_add2C ht hc,
    nAdds_add2C ht hc, nAdds_roundFold ht hc, nAdds_constant32, nAdds_constant32,
    nAdds_constant32, nAdds_constant32, nAdds_constant32, nAdds_new_constant,
    nAdds_new_constant, nAdds_new_constant, nAdds_new_constant, nAdds_schedFold,
    nAdds_sha1AllocPhase, nAdds_comment, nAdds_comment, List.length_range]
  omega

set_option maxHeartbeats 4000000 in
theorem nAdds_preimage {cfg : Config} (ht : cfg.use_tseitin_adders = false)
    (hc : cfg.use_compact_adders = true) (rng : Rng) (st : St) :
    nAdds (preimage cfg rng st).1 = nAdds st + (cfg.nr_rounds + 5) := by
  simp only [preimage]
  refine (nAdds_foldl_const ?_ _ _).trans ?_
  · intro st i
    exact nAdds_constant _ _ st
  · rw [nAdds_comment]
    refine (nAdds_foldl_const ?_ _ _).trans ?_
    · intro st i
      exact nAdds_constant _ _ st
    · rw [nAdds_comment, nAdds_build ht hc]

end Counting

/-! ### Integer readings of OPB terms -/

theorem evalTerms_append (σ : Var → Bool) (ts us : List OpbTerm) :
    evalTerms σ (ts ++ us) = evalTerms σ ts + evalTerms σ us := by
  simp [evalTerms]

theorem evalTerms_posWord (σ : Var → Bool) (x : Nat → Var) :
    ∀ n, evalTerms σ ((List.range n).map
        (fun i => (⟨(2 : Int) ^ i, false, x i⟩ : OpbTerm)))
      = (wordVal σ x n : Int) := by
  intro n
  induction n with
  | zero => simp [evalTerms, wordVal]
  | succ n ih =>
    rw [List.range_succ, List.map_append, evalTerms_append, ih]
    simp only [List.map_cons, List.map_nil, evalTerms, evalTerm, List.sum_cons,
      List.sum_nil, wordVal, if_neg]
    push_cast
    ring

theorem evalTerms_negWord (σ : Var → Bool) (x : Nat → Var) :
    ∀ n, evalTerms σ ((List.range n).map
        (fun i => (⟨-((2 : Int) ^ i), false, x i⟩ : OpbTerm)))
      = -(wordVal σ x n : Int) := by
  intro n
  induction n with
  | zero => simp [evalTerms, wordVal]
  | succ n ih =>
    rw [List.range_succ, List.map_append, evalTerms_append, ih]
    simp only [List.map_cons, List.map_nil, evalTerms, evalTerm, List.sum_cons,
      List.sum_nil, wordVal, if_neg]
    push_cast
    ring

theorem int_sum2_eq (A B R : Nat) :
    (((A : Int) + B + -(R : Int)) == 0) = (A + B == R) := by
  rw [Bool.eq_iff_iff]
  simp only [beq_iff_eq]
  omega

theorem int_sum5_eq (A B C D E R : Nat) :
    (((A : Int) + B + C + D + E + -(R : Int)) == 0) = (A + B + C + D + E == R) := by
  rw [Bool.eq_iff_iff]
  simp only [beq_iff_eq]
  omega

/-! ### Soundness of the half-adder column adders -/

section HalfadderSound

/-- The input row determined by an assignment: most-significant bit first, as
the espresso table reading loop orders the columns. -/
def rowOf (σ : Var → Bool) : List Var → Nat
  | [] => 0
  | v :: vs => (σ v).toNat * 2 ^ vs.length + rowOf σ vs

theorem rowOf_lt (σ : Var → Bool) : ∀ (lhs : List Var), rowOf σ lhs < 2 ^ lhs.length := by
  intro lhs
  induction lhs with
  | nil => simp [rowOf]
  | cons v vs ih =>
    simp only [rowOf, List.length_cons, pow_succ]
    cases σ v <;> simp [Bool.toNat] <;> omega

theorem rowOf_testBit (σ : Var → Bool) :
    ∀ (lhs : List Var) (t : Nat), t < lhs.length →
      (rowOf σ lhs).testBit (lhs.length - 1 - t) = σ (lhs.getD t 0) := by
  intro lhs
  induction lhs with
  | nil => intro t ht; simp at ht
  | cons v vs ih =>
    intro t ht
    have hlt := rowOf_lt σ vs
    rw [rowOf, show (σ v).toNat * 2 ^ vs.length = 2 ^ vs.length * (σ v).toNat from
      Nat.mul_comm _ _, Nat.testBit_mul_pow_two_add _ hlt]
    match t with
    | 0 =>
      simp only [List.length_cons, Nat.add_sub_cancel, Nat.sub_zero, List.getD_cons_zero]
      rw [if_neg (by omega)]
      have h0 : vs.length - vs.length = 0 := by omega
      rw [h0]
      cases σ v <;> rfl
    | t + 1 =>
      simp only [List.length_cons, List.getD_cons_succ]
      have ht' : t < vs.length := by simpa using ht
      have h1 : vs.length + 1 - 1 - (t + 1) = vs.length - 1 - t := by omega
      rw [h1, if_pos (by omega)]
      exact ih t ht'

theorem popcountAux_zero : ∀ f, popcountAux f 0 = 0 := by
  intro f
  cases f <;> rfl

theorem popcountAux_succ (f n : Nat) :
    popcountAux (f + 1) n = n % 2 + popcountAux f (n / 2) := by
  by_cases h : n = 0
  · subst h
    simp [popcountAux, popcountAux_zero]
  · simp [popcountAux, h]

theorem popcount_split :
    ∀ (L fuel : Nat), L < fuel → ∀ (c : Nat), c ≤ 1 → ∀ R, R < 2 ^ L →
      popcountAux fuel (c * 2 ^ L + R) = c + popcountAux fuel R := by
  intro L
  induction L with
  | zero =>
    intro fuel hf c hc R hR
    have hR0 : R = 0 := by omega
    subst hR0
    rw [popcountAux_zero, pow_zero, Nat.mul_one, Nat.add_zero]
    match c, hc with
    | 0, _ => rw [popcountAux_zero]
    | 1, _ =>
      match fuel, hf with
      | f + 1, _ =>
        rw [popcountAux_succ, popcountAux_zero]
  | succ L ih =>
    intro fuel hf c hc R hR
    match fuel, hf with
    | f + 1, _ =>
      rw [popcountAux_succ, popcountAux_succ]
      have hsplit : c * 2 ^ (L + 1) + R = 2 * (c * 2 ^ L) + R := by ring
      have hx2 : (c * 2 ^ (L + 1) + R) % 2 = R % 2 := by omega
      have hxd : (c * 2 ^ (L + 1) + R) / 2 = c * 2 ^ L + R / 2 := by
        rw [hsplit, Nat.mul_add_div (by omega)]
      rw [hx2, hxd, ih f (by omega) c hc (R / 2) (by omega)]
      omega

theorem popcount_rowOf (σ : Var → Bool) :
    ∀ (lhs : List Var), lhs.length ≤ 63 → popcount (rowOf σ lhs) = countTrue σ lhs := by
  intro lhs
  induction lhs with
  | nil => intro h; rfl
  | cons v vs ih =>
    intro h
    have hlen : vs.length ≤ 62 := by simpa using h
    rw [rowOf, popcount, popcount_split vs.length 64 (by omega) _
      (by cases σ v <;> simp) _ (rowOf_lt σ vs)]
    have hv := ih (by omega)
    rw [popcount] at hv
    rw [hv, countTrue, countTrue, List.map_cons, List.sum_cons]

theorem binValue_lt (σ : Var → Bool) : ∀ (rhs : List Var), binValue σ rhs < 2 ^ rhs.length := by
  intro rhs
  induction rhs with
  | nil => simp [binValue]
  | cons v vs ih =>
    simp only [binValue, List.length_cons, pow_succ]
    cases σ v <;> simp [Bool.toNat] <;> omega

theorem binValue_testBit (σ : Var → Bool) :
    ∀ (rhs : List Var) (k : Nat), k < rhs.length →
      (binValue σ rhs).testBit k = σ (rhs.getD k 0) := by
  intro rhs
  induction rhs with
  | nil => intro k hk; simp at hk
  | cons v vs ih =>
    intro k hk
    match k with
    | 0 =>
      simp only [binValue, List.getD_cons_zero]
      rw [Nat.testBit_zero]
      cases h : σ v
      · simp only [Bool.toNat_false, decide_eq_false_iff_not]
        omega
      · simp only [Bool.toNat_true, decide_eq_true_eq]
        omega
    | k + 1 =>
      simp only [binValue, List.getD_cons_succ]
      rw [Nat.testBit_succ]
      have h2 : ((σ v).toNat + 2 * binValue σ vs) / 2 = binValue σ vs := by
        cases σ v <;> simp [Bool.toNat] <;> omega
      rw [h2]
      exact ih k (by simpa using hk)

theorem espresso_clauses_sat (σ : Var → Bool) (lhs rhs : List Var)
    (hn : lhs.length ≤ 63) :
    (espressoClauses lhs rhs).all (evalClause σ)
      = (countTrue σ lhs == binValue σ rhs) := by
  rw [Bool.eq_iff_iff, List.all_eq_true, beq_iff_eq]
  constructor
  · intro hall
    by_contra hne
    have hmem : ((List.range lhs.length).map
          (fun t => ((lhs.getD t 0 : Var), !((rowOf σ lhs).testBit (lhs.length - 1 - t))))
        ++ (List.range rhs.length).map
          (fun s => ((rhs.getD (rhs.length - 1 - s) 0 : Var),
            !((binValue σ rhs).testBit (rhs.length - 1 - s)))))
        ∈ espressoClauses lhs rhs := by
      simp only [espressoClauses, List.mem_flatMap, List.mem_filterMap]
      refine ⟨rowOf σ lhs, List.mem_range.mpr (rowOf_lt σ lhs),
        binValue σ rhs, List.mem_range.mpr (binValue_lt σ rhs), ?_⟩
      rw [if_pos (show popcount (rowOf σ lhs) ≠ binValue σ rhs from by
        rw [popcount_rowOf σ lhs hn]; exact hne)]
    have hcl := hall _ hmem
    rw [evalClause, List.any_eq_true] at hcl
    obtain ⟨lit, hlmem, hlit⟩ := hcl
    rw [List.mem_append] at hlmem
    rcases hlmem with hl | hl
    · rw [List.mem_map] at hl
      obtain ⟨t, htr, rfl⟩ := hl
      rw [List.mem_range] at htr
      simp only [evalLit] at hlit
      rw [rowOf_testBit σ lhs t htr] at hlit
      cases h : σ (lhs.getD t 0) <;> rw [h] at hlit <;> simp at hlit
    · rw [List.mem_map] at hl
      obtain ⟨s, hsr, rfl⟩ := hl
      rw [List.mem_range] at hsr
      simp only [evalLit] at hlit
      rw [binValue_testBit σ rhs _ (by omega)] at hlit
      cases h : σ (rhs.getD (rhs.length - 1 - s) 0) <;> rw [h] at hlit <;> simp at hlit
  · intro heq cl hcl
    simp only [espressoClauses, List.mem_flatMap, List.mem_filterMap] at hcl
    obtain ⟨i, hir, j, hjr, hcl⟩ := hcl
    rw [List.mem_range] at hir hjr
    by_cases hij : popcount i ≠ j
    · rw [if_pos hij, Option.some_inj] at hcl
      subst hcl
      by_contra hfalse
      rw [Bool.not_eq_true, evalClause, List.any_eq_false] at hfalse
      have hli : ∀ t, t < lhs.length → σ (lhs.getD t 0) = i.testBit (lhs.length - 1 - t) := by
        intro t ht
        have hev := hfalse _ (List.mem_append_left _
          (List.mem_map.mpr ⟨t, List.mem_range.mpr ht, rfl⟩))
        simp only [evalLit] at hev
        cases h : i.testBit (lhs.length - 1 - t) <;> rw [h] at hev <;>
          cases h2 : σ (lhs.getD t 0) <;> rw [h2] at hev <;> first | rfl | simp at hev
      have hrj : ∀ s, s < rhs.length →
          σ (rhs.getD (rhs.length - 1 - s) 0) = j.testBit (rhs.length - 1 - s) := by
        intro s hs
        have hev := hfalse _ (List.mem_append_right _
          (List.mem_map.mpr ⟨s, List.mem_range.mpr hs, rfl⟩))
        simp only [evalLit] at hev
        cases h : j.testBit (rhs.length - 1 - s) <;> rw [h] at hev <;>
          cases h2 : σ (rhs.getD (rhs.length - 1 - s) 0) <;> rw [h2] at hev <;>
          first | rfl | simp at hev
      have hieq : i = rowOf σ lhs := by
        apply Nat.eq_of_testBit_eq
        intro pos
        by_cases hpos : pos < lhs.length
        · have h1 := hli (lhs.length - 1 - pos) (by omega)
          have h2 : lhs.length - 1 - (lhs.length - 1 - pos) = pos := by omega
          rw [h2] at h1
          have h3 := rowOf_testBit σ lhs (lhs.length - 1 - pos) (by omega)
          rw [h2] at h3
          rw [h3]
          exact h1.symm
        · rw [Nat.testBit_eq_false_of_lt
              (lt_of_lt_of_le hir (Nat.pow_le_pow_right (by omega) (by omega))),
            Nat.testBit_eq_false_of_lt
              (lt_of_lt_of_le (rowOf_lt σ lhs) (Nat.pow_le_pow_right (by omega) (by omega)))]
      have hjeq : j = binValue σ rhs := by
        apply Nat.eq_of_testBit_eq
        intro pos
        by_cases hpos : pos < rhs.length
        · have h1 := hrj (rhs.length - 1 - pos) (by omega)
          have h2 : rhs.length - 1 - (rhs.length - 1 - pos) = pos := by omega
          rw [h2] at h1
          rw [binValue_testBit σ rhs pos hpos]
          exact h1.symm
        · rw [Nat.testBit_eq_false_of_lt
              (lt_of_lt_of_le hjr (Nat.pow_le_pow_right (by omega) (by omega))),
            Nat.testBit_eq_false_of_lt
              (lt_of_lt_of_le (binValue_lt σ rhs) (Nat.pow_le_pow_right (by omega) (by omega)))]
      rw [hieq, hjeq, popcount_rowOf σ lhs hn] at hij
      exact hij heq
    · rw [if_neg hij] at hcl
      exact absurd hcl (by simp)

/-- The binary value of the rhs list read via `getD`, as a wire word. -/
theorem binValue_eq_wordVal (σ : Var → Bool) (rhs : List Var) :
    binValue σ rhs = wordVal σ (fun i => rhs.getD i 0) rhs.length := by
  apply Nat.eq_of_testBit_eq
  intro pos
  by_cases hpos : pos < rhs.length
  · rw [binValue_testBit σ rhs pos hpos, testBit_wordVal σ _ rhs.length pos hpos]
  · rw [Nat.testBit_eq_false_of_lt
        (lt_of_lt_of_le (binValue_lt σ rhs) (Nat.pow_le_pow_right (by omega) (by omega))),
      Nat.testBit_eq_false_of_lt
        (lt_of_lt_of_le (wordVal_lt σ _ rhs.length) (Nat.pow_le_pow_right (by omega) (by omega)))]

theorem evalTerms_ones (σ : Var → Bool) :
    ∀ (lhs : List Var),
      evalTerms σ (lhs.map (fun x => (⟨1, false, x⟩ : OpbTerm)))
        = (countTrue σ lhs : Int) := by
  intro lhs
  induction lhs with
  | nil => simp [evalTerms, countTrue]
  | cons v vs ih =>
    simp only [List.map_cons, evalTerms, List.sum_cons] at *
    rw [ih]
    simp only [evalTerm, countTrue, List.map_cons, List.sum_cons]
    push_cast
    ring

/-- Satisfaction of the pseudo-boolean half-adder equality. -/
theorem halfadder_eqn_sat (σ : Var → Bool) (lhs rhs : List Var) :
    OpbLine.sat σ (OpbLine.eqn
        ((lhs.map (fun x => (⟨1, false, x⟩ : OpbTerm)))
          ++ (List.range rhs.length).map
              (fun i => (⟨-((2 : Int) ^ i), false, rhs.getD i 0⟩ : OpbTerm))) 0)
      = (countTrue σ lhs == binValue σ rhs) := by
  simp only [OpbLine.sat, evalTerms_append]
  rw [evalTerms_ones σ lhs, evalTerms_negWord σ (fun i => rhs.getD i 0) rhs.length,
    binValue_eq_wordVal σ rhs]
  rw [Bool.eq_iff_iff, beq_iff_eq, beq_iff_eq]
  omega

theorem opbSat_halfadder (σ : Var → Bool) (cfg : Config) (lhs rhs : List Var) (st : St) :
    opbSat σ (halfadder cfg lhs rhs st).opb
      = ((countTrue σ lhs == binValue σ rhs) && opbSat σ st.opb) := by
  simp only [halfadder]
  by_cases hh : cfg.use_halfadder_clauses = true
  · simp only [hh, if_true, opbSat_cons, halfadder_eqn_sat]
  · have hh' : cfg.use_halfadder_clauses = false := by
      revert hh
      cases cfg.use_halfadder_clauses <;> simp
    simp only [hh', Bool.false_eq_true, if_false, opbSat_cons, halfadder_eqn_sat]

theorem cnfSat_map_cls (σ : Var → Bool) :
    ∀ (cs : List (List Lit)), cnfSat σ (cs.map CnfLine.cls) = cs.all (evalClause σ) := by
  intro cs
  induction cs with
  | nil => rfl
  | cons c cs ih =>
    simp only [List.map_cons, cnfSat_cons, List.all_cons, ih]
    rfl

theorem cnfSat_halfadder (σ : Var → Bool) (cfg : Config) (lhs rhs : List Var) (st : St)
    (hn : lhs.length ≤ 63) :
    cnfSat σ (halfadder cfg lhs rhs st).cnf
      = ((countTrue σ lhs == binValue σ rhs) && cnfSat σ st.cnf) := by
  simp only [halfadder]
  by_cases hh : cfg.use_halfadder_clauses = true
  · simp only [hh, if_true, cnfSat_cons]
    rfl
  · have hh' : cfg.use_halfadder_clauses = false := by
      revert hh
      cases cfg.use_halfadder_clauses <;> simp
    simp only [hh', Bool.false_eq_true, if_false, cnfSat_append]
    have hrev : cnfSat σ ((espressoClauses lhs rhs).map CnfLine.cls).reverse
        = cnfSat σ ((espressoClauses lhs rhs).map CnfLine.cls) := by
      rw [Bool.eq_iff_iff]
      simp only [cnfSat, List.all_eq_true, List.mem_reverse]
    rw [hrev]
    rw [cnfSat_map_cls σ (espressoClauses lhs rhs), espresso_clauses_sat σ lhs rhs hn]

/-- The value of the bits `[i, i + k)` of a wire word. -/
def wordValRange (σ : Var → Bool) (x : Nat → Var) : Nat → Nat → Nat
  | _, 0 => 0
  | i, k + 1 => 2 ^ i * (σ (x i)).toNat + wordValRange σ x (i + 1) k

theorem wordValRange_succ_top (σ : Var → Bool) (x : Nat → Var) :
    ∀ (k i : Nat), wordValRange σ x i (k + 1)
      = wordValRange σ x i k + 2 ^ (i + k) * (σ (x (i + k))).toNat := by
  intro k
  induction k with
  | zero =>
    intro i
    simp [wordValRange]
  | succ k ih =>
    intro i
    rw [show wordValRange σ x i (k + 1 + 1)
        = 2 ^ i * (σ (x i)).toNat + wordValRange σ x (i + 1) (k + 1) from rfl,
      ih (i + 1),
      show wordValRange σ x i (k + 1)
        = 2 ^ i * (σ (x i)).toNat + wordValRange σ x (i + 1) k from rfl,
      show i + 1 + k = i + (k + 1) from by omega]
    omega

theorem wordValRange_eq_wordVal (σ : Var → Bool) (x : Nat → Var) :
    ∀ n, wordValRange σ x 0 n = wordVal σ x n := by
  intro n
  induction n with
  | zero => rfl
  | succ n ih =>
    rw [wordValRange_succ_top, ih, wordVal]
    simp

theorem countTrue_nil (σ : Var → Bool) : countTrue σ [] = 0 := rfl

theorem countTrue_append (σ : Var → Bool) (xs ys : List Var) :
    countTrue σ (xs ++ ys) = countTrue σ xs + countTrue σ ys := by
  simp [countTrue]

theorem countTrue_concat (σ : Var → Bool) (xs : List Var) (v : Var) :
    countTrue σ (xs ++ [v]) = countTrue σ xs + (σ v).toNat := by
  simp [countTrue]

theorem sum_map_add {α : Type} (l : List α) (f g : α → Nat) :
    (l.map (fun x => f x + g x)).sum = (l.map f).sum + (l.map g).sum := by
  induction l with
  | nil => rfl
  | cons x xs ih =>
    simp only [List.map_cons, List.sum_cons, ih]
    omega

theorem sum_map_mul {α : Type} (l : List α) (c : Nat) (f : α → Nat) :
    (l.map (fun x => c * f x)).sum = c * (l.map f).sum := by
  induction l with
  | nil => simp
  | cons x xs ih =>
    simp only [List.map_cons, List.sum_cons, ih, Nat.mul_add]

theorem countTrue_map_col (σ : Var → Bool) (inputs : List (Nat → Var)) (i : Nat) :
    countTrue σ (inputs.map (fun w => w i))
      = (inputs.map (fun w => (σ (w i)).toNat)).sum := by
  rw [countTrue, List.map_map]
  rfl

/-- The body of the column loop of `addColumns`, as a named function. -/
def colStep (cfg : Config) (label : String) (inputs : List (Nat → Var)) (r : Nat → Var)
    (acc : (Nat → List Var) × St) (i : Nat) : (Nat → List Var) × St :=
  let addends := acc.1
  let st := acc.2
  let col := addends i ++ inputs.map (fun w => w i)
  let m := log2floor col.length
  let rs := new_vars cfg (label ++ "_rhs[" ++ toString i ++ "]") m true st
  let rhsv := rs.1
  let rhs : List Var := r i :: (List.range m).map rhsv
  let addends := fun j =>
    if i < j ∧ j ≤ i + m then addends j ++ [rhsv (j - i - 1)] else addends j
  (addends, halfadder cfg col rhs rs.2)

theorem addColumns_eq (cfg : Config) (label : String) (inputs : List (Nat → Var))
    (r : Nat → Var) (st : St) :
    addColumns cfg label inputs r st
      = ((List.range 32).foldl (colStep cfg label inputs r) (fun _ => [], st)).2 := rfl

theorem colStep_fst (cfg : Config) (label : String) (inputs : List (Nat → Var))
    (r : Nat → Var) (a : Nat → List Var) (st : St) (i : Nat) :
    (colStep cfg label inputs r (a, st) i).1
      = fun j =>
          if i < j ∧ j ≤ i + log2floor (a i ++ inputs.map (fun w => w i)).length
          then a j ++ [st.nr_variables + 1 + (j - i - 1)] else a j := rfl

theorem colStep_snd (cfg : Config) (label : String) (inputs : List (Nat → Var))
    (r : Nat → Var) (a : Nat → List Var) (st : St) (i : Nat) :
    (colStep cfg label inputs r (a, st) i).2
      = halfadder cfg (a i ++ inputs.map (fun w => w i))
          (r i :: (List.range (log2floor (a i ++ inputs.map (fun w => w i)).length)).map
            (fun t => st.nr_variables + 1 + t))
          ((new_vars cfg (label ++ "_rhs[" ++ toString i ++ "]")
            (log2floor (a i ++ inputs.map (fun w => w i)).length) true st).2) := rfl

set_option maxHeartbeats 1600000 in
/-- The telescoping invariant of the half-adder column loop: satisfaction of
the emitted constraints forces the output word to agree with the sum of the
remaining input bits plus the pending carries, modulo `2^32`. -/
theorem colFold_sound (σ : Var → Bool) (cfg : Config) (P : St → Bool)
    (Hha : ∀ lhs rhs st, lhs.length ≤ 7 → P (halfadder cfg lhs rhs st) = true →
      countTrue σ lhs = binValue σ rhs ∧ P st = true)
    (Hnv : ∀ lab n d st, P ((new_vars cfg lab n d st).2) = true → P st = true)
    (label : String) (inputs : List (Nat → Var)) (r : Nat → Var)
    (hp2 : 2 ≤ inputs.length) (hp5 : inputs.length ≤ 5) :
    ∀ (k i : Nat), i + k = 32 →
    ∀ (a : Nat → List Var) (st : St),
      (∀ j, i + 2 ≤ j → a j = []) →
      (a i).length ≤ 2 → (a (i + 1)).length ≤ 1 →
      P (((List.range' i k).foldl (colStep cfg label inputs r) (a, st)).2) = true →
      P st = true ∧
      ((inputs.map (fun w => wordValRange σ w i k)).sum
          + 2 ^ i * countTrue σ (a i) + 2 ^ (i + 1) * countTrue σ (a (i + 1)))
        % 2 ^ 32
        = (wordValRange σ r i k) % 2 ^ 32 := by
  intro k
  induction k with
  | zero =>
    intro i hik a st hsupp hl1 hl2 hsat
    have hi : i = 32 := by omega
    subst hi
    refine ⟨hsat, ?_⟩
    have hz : (inputs.map (fun w => wordValRange σ w 32 0)).sum = 0 := by
      simp [wordValRange]
    rw [hz, show wordValRange σ r 32 0 = 0 from rfl]
    omega
  | succ k ih =>
    intro i hik a st hsupp hl1 hl2 hsat
    rw [List.range'_succ, List.foldl_cons] at hsat
    obtain ⟨IN, hIN⟩ : ∃ IN, inputs.map (fun w => w i) = IN := ⟨_, rfl⟩
    have hINlen : IN.length = inputs.length := by
      rw [← hIN]
      simp
    have hM12 : log2floor (a i ++ IN).length = 1 ∨ log2floor (a i ++ IN).length = 2 := by
      have hlenA : (a i ++ IN).length = (a i).length + IN.length := by simp
      have h27 : (a i ++ IN).length = 2 ∨ (a i ++ IN).length = 3
          ∨ (a i ++ IN).length = 4 ∨ (a i ++ IN).length = 5
          ∨ (a i ++ IN).length = 6 ∨ (a i ++ IN).length = 7 := by omega
      rcases h27 with h | h | h | h | h | h <;> rw [h] <;> decide
    have hsupp' : ∀ j, (i + 1) + 2 ≤ j → (colStep cfg label inputs r (a, st) i).1 j = [] := by
      intro j hj
      simp only [colStep_fst]
      rw [hIN]
      have hcond : ¬(i < j ∧ j ≤ i + log2floor (a i ++ IN).length) := by
        rintro ⟨hj1, hj2⟩
        rcases hM12 with h | h <;> rw [h] at hj2 <;> omega
      rw [if_neg hcond]
      exact hsupp j (by omega)
    have hlen1' : ((colStep cfg label inputs r (a, st) i).1 (i + 1)).length ≤ 2 := by
      simp only [colStep_fst]
      rw [hIN]
      have hcond : i < i + 1 ∧ i + 1 ≤ i + log2floor (a i ++ IN).length :=
        ⟨by omega, by rcases hM12 with h | h <;> rw [h] <;> omega⟩
      rw [if_pos hcond]
      simp only [List.length_append, List.length_cons, List.length_nil]
      omega
    have hlen2' : ((colStep cfg label inputs r (a, st) i).1 (i + 1 + 1)).length ≤ 1 := by
      simp only [colStep_fst]
      rw [hIN]
      rcases hM12 with h | h <;> rw [h]
      · rw [if_neg (by rintro ⟨h1, h2⟩; omega)]
        rw [hsupp (i + 1 + 1) (by omega)]
        simp
      · rw [if_pos ⟨by omega, by omega⟩]
        rw [hsupp (i + 1 + 1) (by omega)]
        simp
    obtain ⟨hPcol, heq⟩ := ih (i + 1) (by omega)
      (colStep cfg label inputs r (a, st) i).1
      (colStep cfg label inputs r (a, st) i).2
      hsupp' hlen1' hlen2' hsat
    rw [colStep_snd, hIN] at hPcol
    obtain ⟨hfact, hPnv⟩ := Hha _ _ _
      (by
        clear heq
        have hlenA : (a i ++ IN).length = (a i).length + IN.length := by simp
        omega) hPcol
    have hPst : P st = true := Hnv _ _ _ _ hPnv
    refine ⟨hPst, ?_⟩
    -- unfold one layer of each wordValRange on the goal
    have hwvr : ∀ (x : Nat → Var), wordValRange σ x i (k + 1)
        = 2 ^ i * (σ (x i)).toNat + wordValRange σ x (i + 1) k := fun x => rfl
    rw [show (inputs.map (fun w => wordValRange σ w i (k + 1)))
        = (inputs.map (fun w => 2 ^ i * (σ (w i)).toNat + wordValRange σ w (i + 1) k)) from by
        simp only [hwvr],
      sum_map_add, sum_map_mul, hwvr r]
    -- canonical names for the carries of this column
    rw [colStep_fst, hIN] at heq
    have hfact' : countTrue σ (a i) + (inputs.map (fun w => (σ (w i)).toNat)).sum
        = binValue σ (r i
            :: (List.range (log2floor (a i ++ IN).length)).map
                 (fun t => st.nr_variables + 1 + t)) := by
      rw [← countTrue_map_col σ inputs i, ← countTrue_append, hIN]
      exact hfact
    rcases hM12 with hM | hM
    · rw [hM] at heq hfact'
      simp only at heq
      rw [if_pos (show i < i + 1 ∧ i + 1 ≤ i + 1 from by clear heq hfact'; omega),
        if_neg (show ¬(i < i + 1 + 1 ∧ i + 1 + 1 ≤ i + 1) from by clear heq hfact'; omega)] at heq
      rw [hsupp (i + 1 + 1) (by clear heq hfact'; omega), countTrue_nil, countTrue_concat,
        show st.nr_variables + 1 + (i + 1 - i - 1) = st.nr_variables + 1 from by
          clear heq hfact'; omega] at heq
      rw [show List.range 1 = [0] from rfl] at hfact'
      simp only [List.map_cons, List.map_nil, binValue] at hfact'
      rw [show st.nr_variables + 1 + 0 = st.nr_variables + 1 from rfl] at hfact'
      have hkey : 2 ^ i * (inputs.map (fun w => (σ (w i)).toNat)).sum
            + (inputs.map (fun w => wordValRange σ w (i + 1) k)).sum
            + 2 ^ i * countTrue σ (a i) + 2 ^ (i + 1) * countTrue σ (a (i + 1))
          = 2 ^ i * (σ (r i)).toNat
            + ((inputs.map (fun w => wordValRange σ w (i + 1) k)).sum
              + 2 ^ (i + 1) * (countTrue σ (a (i + 1))
                  + (σ (st.nr_variables + 1)).toNat)
              + 2 ^ (i + 1 + 1) * 0) := by
        rw [pow_succ 2 i]
        zify
        zify at hfact'
        linear_combination ((2 : Int) ^ i) * hfact'
      rw [hkey]
      exact Nat.ModEq.add_left _ heq
    · rw [hM] at heq hfact'
      simp only at heq
      rw [if_pos (show i < i + 1 ∧ i + 1 ≤ i + 2 from by clear heq hfact'; omega),
        if_pos (show i < i + 1 + 1 ∧ i + 1 + 1 ≤ i + 2 from by clear heq hfact'; omega)] at heq
      rw [hsupp (i + 1 + 1) (by clear heq hfact'; omega), countTrue_concat,
        show ([] ++ [st.nr_variables + 1 + (i + 1 + 1 - i - 1)] : List Var)
          = [st.nr_variables + 1 + (i + 1 + 1 - i - 1)] from rfl,
        show st.nr_variables + 1 + (i + 1 - i - 1) = st.nr_variables + 1 from by
          clear heq hfact'; omega,
        show st.nr_variables + 1 + (i + 1 + 1 - i - 1) = st.nr_variables + 2 from by
          clear heq hfact'; omega] at heq
      rw [show List.range 2 = [0, 1] from rfl] at hfact'
      simp only [List.map_cons, List.map_nil, binValue] at hfact'
      rw [show st.nr_variables + 1 + 0 = st.nr_variables + 1 from rfl,
        show st.nr_variables + 1 + 1 = st.nr_variables + 2 from rfl] at hfact'
      have hkey : 2 ^ i * (inputs.map (fun w => (σ (w i)).toNat)).sum
            + (inputs.map (fun w => wordValRange σ w (i + 1) k)).sum
            + 2 ^ i * countTrue σ (a i) + 2 ^ (i + 1) * countTrue σ (a (i + 1))
          = 2 ^ i * (σ (r i)).toNat
            + ((inputs.map (fun w => wordValRange σ w (i + 1) k)).sum
              + 2 ^ (i + 1) * (countTrue σ (a (i + 1))
                  + (σ (st.nr_variables + 1)).toNat)
              + 2 ^ (i + 1 + 1) * countTrue σ [st.nr_variables + 2]) := by
        rw [pow_succ 2 i, pow_succ 2 (i + 1), pow_succ 2 i,
          show countTrue σ [st.nr_variables + 2] = (σ (st.nr_variables + 2)).toNat from by
            simp [countTrue]]
        zify
        zify at hfact'
        linear_combination ((2 : Int) ^ i) * hfact'
      rw [hkey]
      exact Nat.ModEq.add_left _ heq

/-- Soundness of `addColumns`: any satisfying assignment of the emitted
half-adder constraints reads back the sum of the inputs modulo `2^32`. -/
theorem addColumns_sound (σ : Var → Bool) (cfg : Config) (P : St → Bool)
    (Hha : ∀ lhs rhs st, lhs.length ≤ 7 → P (halfadder cfg lhs rhs st) = true →
      countTrue σ lhs = binValue σ rhs ∧ P st = true)
    (Hnv : ∀ lab n d st, P ((new_vars cfg lab n d st).2) = true → P st = true)
    (label : String) (inputs : List (Nat → Var)) (r : Nat → Var) (st : St)
    (hp2 : 2 ≤ inputs.length) (hp5 : inputs.length ≤ 5)
    (hsat : P (addColumns cfg label inputs r st) = true) :
    wval σ r = (inputs.map (fun w => wval σ w)).sum % 2 ^ 32 ∧ P st = true := by
  rw [addColumns_eq] at hsat
  rw [show List.range 32 = List.range' 0 32 from by rw [List.range_eq_range']] at hsat
  obtain ⟨hPst, heq⟩ := colFold_sound σ cfg P Hha Hnv label inputs r hp2 hp5 32 0 rfl
    (fun _ => []) st (fun j hj => rfl) (by simp) (by simp) hsat
  simp only [countTrue_nil, Nat.mul_zero, Nat.add_zero] at heq
  rw [show (inputs.map (fun w => wordValRange σ w 0 32))
      = (inputs.map (fun w => wval σ w)) from by
      simp only [show ∀ (w : Nat → Var), wordValRange σ w 0 32 = wval σ w from
        fun w => wordValRange_eq_wordVal σ w 32],
    wordValRange_eq_wordVal σ r 32] at heq
  refine ⟨?_, hPst⟩
  rw [heq]
  exact (Nat.mod_eq_of_lt (wval_lt σ r)).symm

end HalfadderSound

theorem band_elim {a b : Bool} (h : (a && b) = true) : a = true ∧ b = true := by
  simp only [Bool.and_eq_true] at h
  exact h

/-! ### Gate lemmas covering the xor-clause mode -/

section XorModeGates

theorem cnfSat_xor2X (σ : Var → Bool) {cfg : Config} (hx : cfg.use_xor_clauses = true)
    (r a b : Nat → Var) (n : Nat) (st : St) :
    cnfSat σ (xor2 cfg r a b n st).cnf
      = (bitsEq σ r (fun i => xor (σ (a i)) (σ (b i))) n && cnfSat σ st.cnf) := by
  have hstep : ∀ (st : St) (i : Nat),
      cnfSat σ (xor_clause [(r i, false), (a i, true), (b i, true)] st).cnf
        = ((σ (r i) == xor (σ (a i)) (σ (b i))) && cnfSat σ st.cnf) := by
    intro st i
    rw [cnfSat_xor_clause]
    congr 1
    simp only [evalParity, List.foldr_cons, List.foldr_nil, evalLit]
    cases σ (r i) <;> cases σ (a i) <;> cases σ (b i) <;> rfl
  simp only [xor2, hx, if_true]
  rw [cnfSat_foldl hstep, cnfSat_comment]
  rfl

theorem cnfSat_xor3X (σ : Var → Bool) {cfg : Config} (hx : cfg.use_xor_clauses = true)
    (r a b c : Nat → Var) (n : Nat) (st : St) :
    cnfSat σ (xor3 cfg r a b c n st).cnf
      = (bitsEq σ r (fun i => xor (σ (a i)) (xor (σ (b i)) (σ (c i)))) n
          && cnfSat σ st.cnf) := by
  have hstep : ∀ (st : St) (i : Nat),
      cnfSat σ (xor_clause [(r i, false), (a i, true), (b i, true), (c i, true)] st).cnf
        = ((σ (r i) == xor (σ (a i)) (xor (σ (b i)) (σ (c i)))) && cnfSat σ st.cnf) := by
    intro st i
    rw [cnfSat_xor_clause]
    congr 1
    simp only [evalParity, List.foldr_cons, List.foldr_nil, evalLit]
    cases σ (r i) <;> cases σ (a i) <;> cases σ (b i) <;> cases σ (c i) <;> rfl
  simp only [xor3, hx, if_true]
  rw [cnfSat_foldl hstep, cnfSat_comment]
  rfl

theorem cnfSat_xor4X (σ : Var → Bool) {cfg : Config} (hx : cfg.use_xor_clauses = true)
    (r a b c d : Nat → Var) (st : St) :
    cnfSat σ (xor4 cfg r a b c d st).cnf
      = (bitsEq σ r
          (fun i => xor (σ (a i)) (xor (σ (b i)) (xor (σ (c i)) (σ (d i))))) 32
          && cnfSat σ st.cnf) := by
  have hstep : ∀ (st : St) (i : Nat),
      cnfSat σ (xor_clause
          [(r i, false), (a i, true), (b i, true), (c i, true), (d i, true)] st).cnf
        = ((σ (r i) == xor (σ (a i)) (xor (σ (b i)) (xor (σ (c i)) (σ (d i)))))
            && cnfSat σ st.cnf) := by
    intro st i
    rw [cnfSat_xor_clause]
    congr 1
    simp only [evalParity, List.foldr_cons, List.foldr_nil, evalLit]
    cases σ (r i) <;> cases σ (a i) <;> cases σ (b i) <;> cases σ (c i)
      <;> cases σ (d i) <;> rfl
  simp only [xor4, hx, if_true]
  rw [cnfSat_foldl hstep, cnfSat_comment]
  rfl

theorem cnfSat_xor2A (σ : Var → Bool) (cfg : Config)
    (r a b : Nat → Var) (n : Nat) (st : St) :
    cnfSat σ (xor2 cfg r a b n st).cnf
      = (bitsEq σ r (fun i => xor (σ (a i)) (σ (b i))) n && cnfSat σ st.cnf) := by
  cases hx : cfg.use_xor_clauses
  · exact cnfSat_xor2 σ hx r a b n st
  · exact cnfSat_xor2X σ hx r a b n st

theorem cnfSat_xor3A (σ : Var → Bool) (cfg : Config)
    (r a b c : Nat → Var) (n : Nat) (st : St) :
    cnfSat σ (xor3 cfg r a b c n st).cnf
      = (bitsEq σ r (fun i => xor (σ (a i)) (xor (σ (b i)) (σ (c i)))) n
          && cnfSat σ st.cnf) := by
  cases hx : cfg.use_xor_clauses
  · exact cnfSat_xor3 σ hx r a b c n st
  · exact cnfSat_xor3X σ hx r a b c n st

theorem cnfSat_xor4A (σ : Var → Bool) (cfg : Config)
    (r a b c d : Nat → Var) (st : St) :
    cnfSat σ (xor4 cfg r a b c d st).cnf
      = (bitsEq σ r
          (fun i => xor (σ (a i)) (xor (σ (b i)) (xor (σ (c i)) (σ (d i))))) 32
          && cnfSat σ st.cnf) := by
  cases hx : cfg.use_xor_clauses
  · exact cnfSat_xor4 σ hx r a b c d st
  · exact cnfSat_xor4X σ hx r a b c d st

theorem xor2_nr_variablesA (cfg : Config) (r a b : Nat → Var) (n : Nat) (st : St) :
    (xor2 cfg r a b n st).nr_variables = st.nr_variables := by
  cases hx : cfg.use_xor_clauses
  · exact xor2_nr_variables hx r a b n st
  · simp only [xor2, hx, if_true]
    rw [nrv_foldl_const (fun st i =>
        (rfl : (xor_clause [(r i, false), (a i, true), (b i, true)] st).nr_variables
          = st.nr_variables)),
      comment_nr_variables]

/-- Tseitin `add2`, with no assumption on the xor-clause mode. -/
theorem cnfSat_add2TA (σ : Var → Bool) {cfg : Config}
    (ht : cfg.use_tseitin_adders = true)
    (lab : String) (r a b : Nat → Var) (st : St) :
    cnfSat σ (add2 cfg lab r a b st).cnf
      = (add2Fact σ st.nr_variables r a b && cnfSat σ st.cnf) := by
  simp only [add2, ht, if_true]
  rw [cnfSat_xor2A, cnfSat_or2, cnfSat_and2, cnfSat_and2, cnfSat_xor2A, cnfSat_xor2A,
    cnfSat_and2, cnfSat_new_vars, cnfSat_new_vars, cnfSat_new_vars,
    cnfSat_new_vars, cnfSat_comment]
  simp only [new_vars_fst, new_vars_nr_variables, comment_nr_variables, add2Fact,
    Bool.and_assoc]

theorem add2T_nr_variablesA {cfg : Config} (ht : cfg.use_tseitin_adders = true)
    (lab : String) (r a b : Nat → Var) (st : St) :
    (add2 cfg lab r a b st).nr_variables = st.nr_variables + 124 := by
  simp only [add2, ht, if_true]
  rw [xor2_nr_variablesA, or2_nr_variables, and2_nr_variables, and2_nr_variables,
    xor2_nr_variablesA, xor2_nr_variablesA, and2_nr_variables,
    new_vars_nr_variables, new_vars_nr_variables, new_vars_nr_variables,
    new_vars_nr_variables, comment_nr_variables]

/-- Tseitin `add5`, with no assumption on the xor-clause mode. -/
theorem cnfSat_add5TA (σ : Var → Bool) {cfg : Config}
    (ht : cfg.use_tseitin_adders = true)
    (lab : String) (r a b c d e : Nat → Var) (st : St) :
    cnfSat σ (add5 cfg lab r a b c d e st).cnf
      = (add5Fact σ st.nr_variables r a b c d e && cnfSat σ st.cnf) := by
  simp only [add5, ht, if_true]
  rw [cnfSat_add2TA σ ht, cnfSat_add2TA σ ht, cnfSat_add2TA σ ht,
    cnfSat_add2TA σ ht, cnfSat_new_vars, cnfSat_new_vars, cnfSat_new_vars,
    cnfSat_comment]
  simp only [add2T_nr_variablesA ht, new_vars_nr_variables, new_vars_fst,
    comment_nr_variables, add5Fact, Bool.and_assoc]

end XorModeGates

/-! ### Compact adders: the OPB equation as a shared lemma -/

section CompactAdders

theorem opbSat_add2C (σ : Var → Bool) {cfg : Config}
    (ht : cfg.use_tseitin_adders = false) (hc : cfg.use_compact_adders = true)
    (lab : String) (r a b : Nat → Var) (st : St) :
    opbSat σ (add2 cfg lab r a b st).opb
      = ((wval σ a + wval σ b == wval σ r) && opbSat σ st.opb) := by
  simp only [add2, ht, hc, Bool.false_eq_true, if_false, if_true, opbSat_cons,
    opbSat_comment, OpbLine.sat]
  rw [evalTerms_append, evalTerms_append, evalTerms_posWord, evalTerms_posWord,
    evalTerms_negWord]
  congr 1
  exact int_sum2_eq (wval σ a) (wval σ b) (wval σ r)

theorem opbSat_add5C (σ : Var → Bool) {cfg : Config}
    (ht : cfg.use_tseitin_adders = false) (hc : cfg.use_compact_adders = true)
    (lab : String) (r a b c d e : Nat → Var) (st : St) :
    opbSat σ (add5 cfg lab r a b c d e st).opb
      = ((wval σ a + wval σ b + wval σ c + wval σ d + wval σ e == wval σ r)
          && opbSat σ st.opb) := by
  simp only [add5, ht, hc, Bool.false_eq_true, if_false, if_true, opbSat_cons,
    opbSat_comment, OpbLine.sat]
  rw [evalTerms_append, evalTerms_append, evalTerms_append, evalTerms_append,
    evalTerms_append, evalTerms_posWord, evalTerms_posWord, evalTerms_posWord,
    evalTerms_posWord, evalTerms_posWord, evalTerms_negWord]
  congr 1
  exact int_sum5_eq (wval σ a) (wval σ b) (wval σ c) (wval σ d) (wval σ e) (wval σ r)

end CompactAdders

/-! ### Monotonicity of the emitters on each buffer -/

section BufferMono

theorem opb_proj_foldl {step : St → Nat → St} (h : ∀ st i, (step st i).opb = st.opb) :
    ∀ (l : List Nat) (st : St), (l.foldl step st).opb = st.opb := by
  intro l
  induction l with
  | nil => intro st; rfl
  | cons x xs ih => intro st; rw [List.foldl_cons, ih, h]

theorem opbMono_xor2 (σ : Var → Bool) (cfg : Config) (r a b : Nat → Var) (n : Nat)
    (st : St) (h : opbSat σ (xor2 cfg r a b n st).opb = true) :
    opbSat σ st.opb = true := by
  cases hx : cfg.use_xor_clauses
  · rw [opbSat_xor2 σ hx] at h
    exact (band_elim h).2
  · simp only [xor2, hx, if_true] at h
    rw [opb_proj_foldl (fun st i =>
        (rfl : (xor_clause [(r i, false), (a i, true), (b i, true)] st).opb = st.opb)),
      comment_opb, opbSat_cons] at h
    exact (band_elim h).2

theorem opbMono_xor3 (σ : Var → Bool) (cfg : Config) (r a b c : Nat → Var) (n : Nat)
    (st : St) (h : opbSat σ (xor3 cfg r a b c n st).opb = true) :
    opbSat σ st.opb = true := by
  cases hx : cfg.use_xor_clauses
  · rw [opbSat_xor3 σ hx] at h
    exact (band_elim h).2
  · simp only [xor3, hx, if_true] at h
    rw [opb_proj_foldl (fun st i =>
        (rfl : (xor_clause [(r i, false), (a i, true), (b i, true), (c i, true)] st).opb = st.opb)),
      comment_opb, opbSat_cons] at h
    exact (band_elim h).2

theorem opbMono_xor4 (σ : Var → Bool) (cfg : Config) (r a b c d : Nat → Var)
    (st : St) (h : opbSat σ (xor4 cfg r a b c d st).opb = true) :
    opbSat σ st.opb = true := by
  cases hx : cfg.use_xor_clauses
  · rw [opbSat_xor4 σ hx] at h
    exact (band_elim h).2
  · simp only [xor4, hx, if_true] at h
    rw [opb_proj_foldl (fun st i =>
        (rfl : (xor_clause [(r i, false), (a i, true), (b i, true), (c i, true), (d i, true)] st).opb = st.opb)),
      comment_opb, opbSat_cons] at h
    exact (band_elim h).2

theorem opbMono_add2 (σ : Var → Bool) (cfg : Config) (lab : String)
    (r a b : Nat → Var) (st : St) (h : opbSat σ (add2 cfg lab r a b st).opb = true) :
    opbSat σ st.opb = true := by
  by_cases ht : cfg.use_tseitin_adders = true
  · simp only [add2, ht, if_true] at h
    have h1 := opbMono_xor2 σ cfg _ _ _ _ _ h
    rw [opbSat_or2] at h1
    have h2 := (band_elim h1).2
    rw [opbSat_and2] at h2
    have h3 := (band_elim h2).2
    rw [opbSat_and2] at h3
    have h4 := (band_elim h3).2
    have h5 := opbMono_xor2 σ cfg _ _ _ _ _ h4
    have h6 := opbMono_xor2 σ cfg _ _ _ _ _ h5
    rw [opbSat_and2] at h6
    have h7 := (band_elim h6).2
    rw [opbSat_new_vars, opbSat_new_vars, opbSat_new_vars, opbSat_new_vars,
      opbSat_comment] at h7
    exact h7
  · have ht' : cfg.use_tseitin_adders = false := by
      revert ht
      cases cfg.use_tseitin_adders <;> simp
    by_cases hc : cfg.use_compact_adders = true
    · rw [opbSat_add2C σ ht' hc] at h
      exact (band_elim h).2
    · have hc' : cfg.use_compact_adders = false := by
        revert hc
        cases cfg.use_compact_adders <;> simp
      simp only [add2, ht', hc', Bool.false_eq_true, if_false] at h
      obtain ⟨hv, hrest⟩ := addColumns_sound σ cfg (fun st => opbSat σ st.opb)
        (fun lhs rhs st hlen hsat => by
          simp only at hsat
          rw [opbSat_halfadder σ cfg lhs rhs st] at hsat
          obtain ⟨hfa, hre⟩ := band_elim hsat
          exact ⟨beq_iff_eq.mp hfa, hre⟩)
        (fun lab n d st hsat => by
          simp only at hsat
          rwa [opbSat_new_vars] at hsat)
        lab [a, b] r _ (by simp) (by simp) h
      rw [opbSat_comment] at hrest
      exact hrest

theorem opbMono_add5 (σ : Var → Bool) (cfg : Config) (lab : String)
    (r a b c d e : Nat → Var) (st : St)
    (h : opbSat σ (add5 cfg lab r a b c d e st).opb = true) :
    opbSat σ st.opb = true := by
  by_cases ht : cfg.use_tseitin_adders = true
  · simp only [add5, ht, if_true] at h
    have h1 := opbMono_add2 σ cfg _ _ _ _ _ h
    have h2 := opbMono_add2 σ cfg _ _ _ _ _ h1
    have h3 := opbMono_add2 σ cfg _ _ _ _ _ h2
    have h4 := opbMono_add2 σ cfg _ _ _ _ _ h3
    rw [opbSat_new_vars, opbSat_new_vars, opbSat_new_vars, opbSat_comment] at h4
    exact h4
  · have ht' : cfg.use_tseitin_adders = false := by
      revert ht
      cases cfg.use_tseitin_adders <;> simp
    by_cases hc : cfg.use_compact_adders = true
    · rw [opbSat_add5C σ ht' hc] at h
      exact (band_elim h).2
    · have hc' : cfg.use_compact_adders = false := by
        revert hc
        cases cfg.use_compact_adders <;> simp
      simp only [add5, ht', hc', Bool.false_eq_true, if_false] at h
      obtain ⟨hv, hrest⟩ := addColumns_sound σ cfg (fun st => opbSat σ st.opb)
        (fun lhs rhs st hlen hsat => by
          simp only at hsat
          rw [opbSat_halfadder σ cfg lhs rhs st] at hsat
          obtain ⟨hfa, hre⟩ := band_elim hsat
          exact ⟨beq_iff_eq.mp hfa, hre⟩)
        (fun lab n d st hsat => by
          simp only at hsat
          rwa [opbSat_new_vars] at hsat)
        lab [a, b, c, d, e] r _ (by simp) (by simp) h
      rw [opbSat_comment] at hrest
      exact hrest

theorem cnfMono_add2 (σ : Var → Bool) (cfg : Config) (lab : String)
    (r a b : Nat → Var) (st : St) (h : cnfSat σ (add2 cfg lab r a b st).cnf = true) :
    cnfSat σ st.cnf = true := by
  by_cases ht : cfg.use_tseitin_adders = true
  · rw [cnfSat_add2TA σ ht] at h
    exact (band_elim h).2
  · have ht' : cfg.use_tseitin_adders = false := by
      revert ht
      cases cfg.use_tseitin_adders <;> simp
    by_cases hc : cfg.use_compact_adders = true
    · simp only [add2, ht', hc, Bool.false_eq_true, if_false, if_true] at h
      rwa [cnfSat_comment] at h
    · have hc' : cfg.use_compact_adders = false := by
        revert hc
        cases cfg.use_compact_adders <;> simp
      simp only [add2, ht', hc', Bool.false_eq_true, if_false] at h
      obtain ⟨hv, hrest⟩ := addColumns_sound σ cfg (fun st => cnfSat σ st.cnf)
        (fun lhs rhs st hlen hsat => by
          simp only at hsat
          rw [cnfSat_halfadder σ cfg lhs rhs st (by omega)] at hsat
          obtain ⟨hfa, hre⟩ := band_elim hsat
          exact ⟨beq_iff_eq.mp hfa, hre⟩)
        (fun lab n d st hsat => by
          simp only at hsat
          rwa [cnfSat_new_vars] at hsat)
        lab [a, b] r _ (by simp) (by simp) h
      rw [cnfSat_comment] at hrest
      exact hrest

theorem cnfMono_add5 (σ : Var → Bool) (cfg : Config) (lab : String)
    (r a b c d e : Nat → Var) (st : St)
    (h : cnfSat σ (add5 cfg lab r a b c d e st).cnf = true) :
    cnfSat σ st.cnf = true := by
  by_cases ht : cfg.use_tseitin_adders = true
  · rw [cnfSat_add5TA σ ht] at h
    exact (band_elim h).2
  · have ht' : cfg.use_tseitin_adders = false := by
      revert ht
      cases cfg.use_tseitin_adders <;> simp
    by_cases hc : cfg.use_compact_adders = true
    · simp only [add5, ht', hc, Bool.false_eq_true, if_false, if_true] at h
      rwa [cnfSat_comment] at h
    · have hc' : cfg.use_compact_adders = false := by
        revert hc
        cases cfg.use_compact_adders <;> simp
      simp only [add5, ht', hc', Bool.false_eq_true, if_false] at h
      obtain ⟨hv, hrest⟩ := addColumns_sound σ cfg (fun st => cnfSat σ st.cnf)
        (fun lhs rhs st hlen hsat => by
          simp only at hsat
          rw [cnfSat_halfadder σ cfg lhs rhs st (by omega)] at hsat
          obtain ⟨hfa, hre⟩ := band_elim hsat
          exact ⟨beq_iff_eq.mp hfa, hre⟩)
        (fun lab n d st hsat => by
          simp only at hsat
          rwa [cnfSat_new_vars] at hsat)
        lab [a, b, c, d, e] r _ (by simp) (by simp) h
      rw [cnfSat_comment] at hrest
      exact hrest

end BufferMono

/-! ### Adder soundness per buffer and mode -/

section AdderSound

theorem add2_sound_cnf (σ : Var → Bool) {cfg : Config}
    (hmode : cfg.use_tseitin_adders = true ∨ cfg.use_compact_adders = false)
    (lab : String) (r a b : Nat → Var) (st : St)
    (h : cnfSat σ (add2 cfg lab r a b st).cnf = true) :
    wval σ r = (wval σ a + wval σ b) % 2 ^ 32 ∧ cnfSat σ st.cnf = true := by
  by_cases ht : cfg.use_tseitin_adders = true
  · rw [cnfSat_add2TA σ ht] at h
    obtain ⟨hf, hr⟩ := band_elim h
    exact ⟨add2Fact_wval σ _ _ _ _ hf, hr⟩
  · have ht' : cfg.use_tseitin_adders = false := by
      revert ht
      cases cfg.use_tseitin_adders <;> simp
    have hc' : cfg.use_compact_adders = false := by
      rcases hmode with hm | hm
      · exact absurd hm ht
      · exact hm
    simp only [add2, ht', hc', Bool.false_eq_true, if_false] at h
    obtain ⟨hv, hrest⟩ := addColumns_sound σ cfg (fun st => cnfSat σ st.cnf)
      (fun lhs rhs st hlen hsat => by
        simp only at hsat
        rw [cnfSat_halfadder σ cfg lhs rhs st (by omega)] at hsat
        obtain ⟨hfa, hre⟩ := band_elim hsat
        exact ⟨beq_iff_eq.mp hfa, hre⟩)
      (fun lab n d st hsat => by
        simp only at hsat
        rwa [cnfSat_new_vars] at hsat)
      lab [a, b] r _ (by simp) (by simp) h
    rw [cnfSat_comment] at hrest
    refine ⟨?_, hrest⟩
    rw [hv]
    simp only [List.map_cons, List.map_nil, List.sum_cons, List.sum_nil, Nat.add_zero,
      Nat.add_assoc]

theorem add5_sound_cnf (σ : Var → Bool) {cfg : Config}
    (hmode : cfg.use_tseitin_adders = true ∨ cfg.use_compact_adders = false)
    (lab : String) (r a b c d e : Nat → Var) (st : St)
    (h : cnfSat σ (add5 cfg lab r a b c d e st).cnf = true) :
    wval σ r = (wval σ a + wval σ b + wval σ c + wval σ d + wval σ e) % 2 ^ 32
      ∧ cnfSat σ st.cnf = true := by
  by_cases ht : cfg.use_tseitin_adders = true
  · rw [cnfSat_add5TA σ ht] at h
    obtain ⟨hf, hr⟩ := band_elim h
    exact ⟨add5Fact_wval σ _ _ _ _ _ _ _ hf, hr⟩
  · have ht' : cfg.use_tseitin_adders = false := by
      revert ht
      cases cfg.use_tseitin_adders <;> simp
    have hc' : cfg.use_compact_adders = false := by
      rcases hmode with hm | hm
      · exact absurd hm ht
      · exact hm
    simp only [add5, ht', hc', Bool.false_eq_true, if_false] at h
    obtain ⟨hv, hrest⟩ := addColumns_sound σ cfg (fun st => cnfSat σ st.cnf)
      (fun lhs rhs st hlen hsat => by
        simp only at hsat
        rw [cnfSat_halfadder σ cfg lhs rhs st (by omega)] at hsat
        obtain ⟨hfa, hre⟩ := band_elim hsat
        exact ⟨beq_iff_eq.mp hfa, hre⟩)
      (fun lab n d st hsat => by
        simp only at hsat
        rwa [cnfSat_new_vars] at hsat)
      lab [a, b, c, d, e] r _ (by simp) (by simp) h
    rw [cnfSat_comment] at hrest
    refine ⟨?_, hrest⟩
    rw [hv]
    simp only [List.map_cons, List.map_nil, List.sum_cons, List.sum_nil, Nat.add_zero,
      Nat.add_assoc]

theorem add2_sound_opb (σ : Var → Bool) {cfg : Config}
    (hx : cfg.use_xor_clauses = false)
    (lab : String) (r a b : Nat → Var) (st : St)
    (h : opbSat σ (add2 cfg lab r a b st).opb = true) :
    wval σ r = (wval σ a + wval σ b) % 2 ^ 32 ∧ opbSat σ st.opb = true := by
  by_cases ht : cfg.use_tseitin_adders = true
  · rw [opbSat_add2T σ ht hx] at h
    obtain ⟨hf, hr⟩ := band_elim h
    exact ⟨add2Fact_wval σ _ _ _ _ hf, hr⟩
  · have ht' : cfg.use_tseitin_adders = false := by
      revert ht
      cases cfg.use_tseitin_adders <;> simp
    by_cases hc : cfg.use_compact_adders = true
    · rw [opbSat_add2C σ ht' hc] at h
      obtain ⟨hf, hr⟩ := band_elim h
      refine ⟨?_, hr⟩
      rw [beq_iff_eq.mp hf]
      exact (Nat.mod_eq_of_lt (wval_lt σ r)).symm
    · have hc' : cfg.use_compact_adders = false := by
        revert hc
        cases cfg.use_compact_adders <;> simp
      simp only [add2, ht', hc', Bool.false_eq_true, if_false] at h
      obtain ⟨hv, hrest⟩ := addColumns_sound σ cfg (fun st => opbSat σ st.opb)
        (fun lhs rhs st hlen hsat => by
          simp only at hsat
          rw [opbSat_halfadder σ cfg lhs rhs st] at hsat
          obtain ⟨hfa, hre⟩ := band_elim hsat
          exact ⟨beq_iff_eq.mp hfa, hre⟩)
        (fun lab n d st hsat => by
          simp only at hsat
          rwa [opbSat_new_vars] at hsat)
        lab [a, b] r _ (by simp) (by simp) h
      rw [opbSat_comment] at hrest
      refine ⟨?_, hrest⟩
      rw [hv]
      simp only [List.map_cons, List.map_nil, List.sum_cons, List.sum_nil, Nat.add_zero,
        Nat.add_assoc]

theorem add5_sound_opb (σ : Var → Bool) {cfg : Config}
    (hx : cfg.use_xor_clauses = false)
    (lab : String) (r a b c d e : Nat → Var) (st : St)
    (h : opbSat σ (add5 cfg lab r a b c d e st).opb = true) :
    wval σ r = (wval σ a + wval σ b + wval σ c + wval σ d + wval σ e) % 2 ^ 32
      ∧ opbSat σ st.opb = true := by
  by_cases ht : cfg.use_tseitin_adders = true
  · rw [opbSat_add5T σ ht hx] at h
    obtain ⟨hf, hr⟩ := band_elim h
    exact ⟨add5Fact_wval σ _ _ _ _ _ _ _ hf, hr⟩
  · have ht' : cfg.use_tseitin_adders = false := by
      revert ht
      cases cfg.use_tseitin_adders <;> simp
    by_cases hc : cfg.use_compact_adders = true
    · rw [opbSat_add5C σ ht' hc] at h
      obtain ⟨hf, hr⟩ := band_elim h
      refine ⟨?_, hr⟩
      rw [beq_iff_eq.mp hf]
      exact (Nat.mod_eq_of_lt (wval_lt σ r)).symm
    · have hc' : cfg.use_compact_adders = false := by
        revert hc
        cases cfg.use_compact_adders <;> simp
      simp only [add5, ht', hc', Bool.false_eq_true, if_false] at h
      obtain ⟨hv, hrest⟩ := addColumns_sound σ cfg (fun st => opbSat σ st.opb)
        (fun lhs rhs st hlen hsat => by
          simp only at hsat
          rw [opbSat_halfadder σ cfg lhs rhs st] at hsat
          obtain ⟨hfa, hre⟩ := band_elim hsat
          exact ⟨beq_iff_eq.mp hfa, hre⟩)
        (fun lab n d st hsat => by
          simp only at hsat
          rwa [opbSat_new_vars] at hsat)
        lab [a, b, c, d, e] r _ (by simp) (by simp) h
      rw [opbSat_comment] at hrest
      refine ⟨?_, hrest⟩
      rw [hv]
      simp only [List.map_cons, List.map_nil, List.sum_cons, List.sum_nil, Nat.add_zero,
        Nat.add_assoc]

end AdderSound

/-! ### A mode-independent interface to the emitted constraints -/

/-- The facts a satisfaction predicate `P` over emitted states must deliver for
the circuit-soundness argument, whatever the adder and xor encodings are. -/
structure EmitSound (σ : Var → Bool) (cfg : Config) (P : St → Bool) : Prop where
  comm : ∀ s st, P (comment s st) = true → P st = true
  nv : ∀ lab n d st, P ((new_vars cfg lab n d st).2) = true → P st = true
  alloc : ∀ idxs lab d st, P ((allocWords cfg idxs lab d st).2) = true → P st = true
  c32 : ∀ r v st, P (constant32 r v st) = true →
    bitsEq σ r (fun i => v.testBit i) 32 = true ∧ P st = true
  x3 : ∀ r a b c st, P (xor3 cfg r a b c 32 st) = true →
    bitsEq σ r (fun j => xor (σ (a j)) (xor (σ (b j)) (σ (c j)))) 32 = true
      ∧ P st = true
  x4 : ∀ r a b c d st, P (xor4 cfg r a b c d st) = true →
    bitsEq σ r (fun j => xor (σ (a j)) (xor (σ (b j)) (xor (σ (c j)) (σ (d j))))) 32
      = true ∧ P st = true
  chF : ∀ f b c d st,
    P ((List.range 32).foldl (fun st j => chBit f b c d j st) st) = true →
    bitsEq σ f (fun j => chB (σ (b j)) (σ (c j)) (σ (d j))) 32 = true ∧ P st = true
  majF : ∀ f b c d st,
    P ((List.range 32).foldl (fun st j => majBit f b c d j st) st) = true →
    bitsEq σ f (fun j => majB (σ (b j)) (σ (c j)) (σ (d j))) 32 = true ∧ P st = true
  a2 : ∀ lab r a b st, P (add2 cfg lab r a b st) = true →
    wval σ r = (wval σ a + wval σ b) % 2 ^ 32 ∧ P st = true
  a5 : ∀ lab r a b c d e st, P (add5 cfg lab r a b c d e st) = true →
    wval σ r = (wval σ a + wval σ b + wval σ c + wval σ d + wval σ e) % 2 ^ 32
      ∧ P st = true

/-- The CNF buffer alone delivers all facts, unless the compact adders (whose
equation is written only to the OPB buffer) are selected without Tseitin
adders. -/
theorem emitSound_cnf (σ : Var → Bool) (cfg : Config)
    (hmode : cfg.use_tseitin_adders = true ∨ cfg.use_compact_adders = false) :
    EmitSound σ cfg (fun st => cnfSat σ st.cnf) := by
  refine ⟨?_, ?_, ?_, ?_, ?_, ?_, ?_, ?_, ?_, ?_⟩
  · intro s st h
    simp only at h ⊢
    rwa [cnfSat_comment] at h
  · intro lab n d st h
    simp only at h ⊢
    rwa [cnfSat_new_vars] at h
  · intro idxs lab d st h
    simp only at h ⊢
    rwa [cnfSat_allocWords] at h
  · intro r v st h
    simp only at h ⊢
    rw [cnfSat_constant32] at h
    exact band_elim h
  · intro r a b c st h
    simp only at h ⊢
    rw [cnfSat_xor3A] at h
    exact band_elim h
  · intro r a b c d st h
    simp only at h ⊢
    rw [cnfSat_xor4A] at h
    exact band_elim h
  · intro f b c d st h
    simp only at h ⊢
    rw [cnfSat_foldl (fun st j => cnfSat_chBit σ f b c d j st)] at h
    exact band_elim h
  · intro f b c d st h
    simp only at h ⊢
    rw [cnfSat_foldl (fun st j => cnfSat_majBit σ f b c d j st)] at h
    exact band_elim h
  · intro lab r a b st h
    simp only at h ⊢
    exact add2_sound_cnf σ hmode lab r a b st h
  · intro lab r a b c d e st h
    simp only at h ⊢
    exact add5_sound_cnf σ hmode lab r a b c d e st h

/-- The OPB buffer alone delivers all facts when no xor clauses are used (the
`x` lines are written only to the CNF buffer). -/
theorem emitSound_opb (σ : Var → Bool) (cfg : Config)
    (hx : cfg.use_xor_clauses = false) :
    EmitSound σ cfg (fun st => opbSat σ st.opb) := by
  refine ⟨?_, ?_, ?_, ?_, ?_, ?_, ?_, ?_, ?_, ?_⟩
  · intro s st h
    simp only at h ⊢
    rwa [opbSat_comment] at h
  · intro lab n d st h
    simp only at h ⊢
    rwa [opbSat_new_vars] at h
  · intro idxs lab d st h
    simp only at h ⊢
    rwa [opbSat_allocWords] at h
  · intro r v st h
    simp only at h ⊢
    rw [opbSat_constant32] at h
    exact band_elim h
  · intro r a b c st h
    simp only at h ⊢
    rw [opbSat_xor3 σ hx] at h
    exact band_elim h
  · intro r a b c d st h
    simp only at h ⊢
    rw [opbSat_xor4 σ hx] at h
    exact band_elim h
  · intro f b c d st h
    simp only at h ⊢
    rw [opbSat_foldl (fun st j => opbSat_chBit σ f b c d j st)] at h
    exact band_elim h
  · intro f b c d st h
    simp only at h ⊢
    rw [opbSat_foldl (fun st j => opbSat_majBit σ f b c d j st)] at h
    exact band_elim h
  · intro lab r a b st h
    simp only at h ⊢
    exact add2_sound_opb σ hx lab r a b st h
  · intro lab r a b c d e st h
    simp only at h ⊢
    exact add5_sound_opb σ hx lab r a b c d e st h

/-- Satisfaction of both buffers delivers all facts with no assumption on the
encoding flags: every gate writes to the CNF buffer in every mode, and every
adder writes to one of the two buffers in every mode. -/
theorem emitSound_both (σ : Var → Bool) (cfg : Config) :
    EmitSound σ cfg (fun st => cnfSat σ st.cnf && opbSat σ st.opb) := by
  refine ⟨?_, ?_, ?_, ?_, ?_, ?_, ?_, ?_, ?_, ?_⟩
  · intro s st h
    simp only at h ⊢
    obtain ⟨hc, ho⟩ := band_elim h
    rw [cnfSat_comment] at hc
    rw [opbSat_comment] at ho
    rw [hc, ho]
    rfl
  · intro lab n d st h
    simp only at h ⊢
    obtain ⟨hc, ho⟩ := band_elim h
    rw [cnfSat_new_vars] at hc
    rw [opbSat_new_vars] at ho
    rw [hc, ho]
    rfl
  · intro idxs lab d st h
    simp only at h ⊢
    obtain ⟨hc, ho⟩ := band_elim h
    rw [cnfSat_allocWords] at hc
    rw [opbSat_allocWords] at ho
    rw [hc, ho]
    rfl
  · intro r v st h
    simp only at h ⊢
    obtain ⟨hc, ho⟩ := band_elim h
    rw [cnfSat_constant32] at hc
    rw [opbSat_constant32] at ho
    obtain ⟨hf, hc'⟩ := band_elim hc
    obtain ⟨_, ho'⟩ := band_elim ho
    rw [hf, hc', ho']
    exact ⟨rfl, rfl⟩
  · intro r a b c st h
    simp only at h ⊢
    obtain ⟨hc, ho⟩ := band_elim h
    rw [cnfSat_xor3A] at hc
    obtain ⟨hf, hc'⟩ := band_elim hc
    have ho' := opbMono_xor3 σ cfg r a b c 32 st ho
    rw [hf, hc', ho']
    exact ⟨rfl, rfl⟩
  · intro r a b c d st h
    simp only at h ⊢
    obtain ⟨hc, ho⟩ := band_elim h
    rw [cnfSat_xor4A] at hc
    obtain ⟨hf, hc'⟩ := band_elim hc
    have ho' := opbMono_xor4 σ cfg r a b c d st ho
    rw [hf, hc', ho']
    exact ⟨rfl, rfl⟩
  · intro f b c d st h
    simp only at h ⊢
    obtain ⟨hc, ho⟩ := band_elim h
    rw [cnfSat_foldl (fun st j => cnfSat_chBit σ f b c d j st)] at hc
    obtain ⟨hf, hc'⟩ := band_elim hc
    rw [opbSat_foldl (fun st j => opbSat_chBit σ f b c d j st)] at ho
    obtain ⟨_, ho'⟩ := band_elim ho
    exact ⟨hf, by rw [hc', ho']; rfl⟩
  · intro f b c d st h
    simp only at h ⊢
    obtain ⟨hc, ho⟩ := band_elim h
    rw [cnfSat_foldl (fun st j => cnfSat_majBit σ f b c d j st)] at hc
    obtain ⟨hf, hc'⟩ := band_elim hc
    rw [opbSat_foldl (fun st j => opbSat_majBit σ f b c d j st)] at ho
    obtain ⟨_, ho'⟩ := band_elim ho
    exact ⟨hf, by rw [hc', ho']; rfl⟩
  · intro lab r a b st h
    simp only at h ⊢
    obtain ⟨hc, ho⟩ := band_elim h
    have hcr := cnfMono_add2 σ cfg lab r a b st hc
    have hor := opbMono_add2 σ cfg lab r a b st ho
    refine ⟨?_, by rw [hcr, hor]; rfl⟩
    by_cases ht : cfg.use_tseitin_adders = true
    · exact (add2_sound_cnf σ (Or.inl ht) lab r a b st hc).1
    · have ht' : cfg.use_tseitin_adders = false := by
        revert ht
        cases cfg.use_tseitin_adders <;> simp
      by_cases hcc : cfg.use_compact_adders = true
      · rw [opbSat_add2C σ ht' hcc] at ho
        obtain ⟨hf, _⟩ := band_elim ho
        rw [beq_iff_eq.mp hf]
        exact (Nat.mod_eq_of_lt (wval_lt σ r)).symm
      · have hc' : cfg.use_compact_adders = false := by
          revert hcc
          cases cfg.use_compact_adders <;> simp
        exact (add2_sound_cnf σ (Or.inr hc') lab r a b st hc).1
  · intro lab r a b c d e st h
    simp only at h ⊢
    obtain ⟨hc, ho⟩ := band_elim h
    have hcr := cnfMono_add5 σ cfg lab r a b c d e st hc
    have hor := opbMono_add5 σ cfg lab r a b c d e st ho
    refine ⟨?_, by rw [hcr, hor]; rfl⟩
    by_cases ht : cfg.use_tseitin_adders = true
    · exact (add5_sound_cnf σ (Or.inl ht) lab r a b c d e st hc).1
    · have ht' : cfg.use_tseitin_adders = false := by
        revert ht
        cases cfg.use_tseitin_adders <;> simp
      by_cases hcc : cfg.use_compact_adders = true
      · rw [opbSat_add5C σ ht' hcc] at ho
        obtain ⟨hf, _⟩ := band_elim ho
        rw [beq_iff_eq.mp hf]
        exact (Nat.mod_eq_of_lt (wval_lt σ r)).symm
      · have hc' : cfg.use_compact_adders = false := by
          revert hcc
          cases cfg.use_compact_adders <;> simp
        exact (add5_sound_cnf σ (Or.inr hc') lab r a b c d e st hc).1

/-- Fold extraction for facts independent of the threaded state. -/
theorem foldP_extract {P : St → Bool} {step : St → Nat → St} {Q : Nat → Prop}
    (h : ∀ st i, P (step st i) = true → Q i ∧ P st = true) :
    ∀ (l : List Nat) (st : St), P (l.foldl step st) = true →
      (∀ i ∈ l, Q i) ∧ P st = true := by
  intro l
  induction l with
  | nil =>
    intro st hs
    exact ⟨fun i hi => absurd hi (List.not_mem_nil i), hs⟩
  | cons a l ih =>
    intro st hs
    rw [List.foldl_cons] at hs
    obtain ⟨hQ, hP⟩ := ih _ hs
    obtain ⟨hqa, hPst⟩ := h st a hP
    refine ⟨?_, hPst⟩
    intro i hi
    rcases List.mem_cons.mp hi with h' | h'
    · rw [h']
      exact hqa
    · exact hQ i h'

/-- `new_constant` pins its fresh word, whatever the satisfaction predicate. -/
theorem new_constant_sound {σ : Var → Bool} {cfg : Config} {P : St → Bool}
    (E : EmitSound σ cfg P) (lab : String) (v : Nat) (st : St)
    (h : P ((new_constant cfg lab v st).2) = true) :
    bitsEq σ ((new_constant cfg lab v st).1) (fun i => v.testBit i) 32 = true
      ∧ P st = true := by
  simp only [new_constant] at h
  obtain ⟨hb, h2⟩ := E.c32 _ _ _ h
  exact ⟨hb, E.nv _ _ _ _ h2⟩

set_option maxHeartbeats 1600000 in
/-- One compression round forces the word recurrence of `fwdStep`, with the
round constant still read from the wired constant word. -/
theorem sha1Round_sound {σ : Var → Bool} {cfg : Config} {P : St → Bool}
    (E : EmitSound σ cfg P) (aF wF kF : Nat → Nat → Var) (st : St) (i : Nat)
    (hs : P (sha1Round cfg aF wF kF st i) = true) :
    (wval σ (aF (i + 5))
        = (rotl32 (wval σ (aF (i + 4))) 5
            + fwdF i (wval σ (aF (i + 3))) (rotl32 (wval σ (aF (i + 2))) 30)
                (rotl32 (wval σ (aF (i + 1))) 30)
            + rotl32 (wval σ (aF i)) 30 + wval σ (kF (i / 20)) + wval σ (wF i))
          % 2 ^ 32)
      ∧ P st = true := by
  simp only [sha1Round] at hs
  obtain ⟨hadd5, hrest⟩ := E.a5 _ _ _ _ _ _ _ _ hs
  rw [wval_rotl σ _ 5 (by omega), wval_rotl σ _ 30 (by omega)] at hadd5
  by_cases h20 : i < 20
  · rw [if_pos h20] at hrest
    obtain ⟨hf, hnv⟩ := E.chF _ _ _ _ _ hrest
    have hPst := E.nv _ _ _ _ hnv
    have hlift := wval_eq_ch σ _ _ _ _ (bitsEq_extract σ hf)
    rw [wval_rotl σ _ 0 (by omega), wval_rotl σ _ 30 (by omega),
      wval_rotl σ _ 30 (by omega), rotl32_zero _ (wval_lt σ _)] at hlift
    rw [hlift] at hadd5
    refine ⟨?_, hPst⟩
    simp only [fwdF]
    rw [if_pos h20]
    exact hadd5
  · by_cases h40 : i < 40
    · rw [if_neg h20, if_pos h40] at hrest
      obtain ⟨hf, hnv⟩ := E.x3 _ _ _ _ _ hrest
      have hPst := E.nv _ _ _ _ hnv
      have hlift := wval_eq_parity3 σ _ _ _ _ (bitsEq_extract σ hf)
      rw [wval_rotl σ _ 0 (by omega), wval_rotl σ _ 30 (by omega),
        wval_rotl σ _ 30 (by omega), rotl32_zero _ (wval_lt σ _)] at hlift
      rw [hlift] at hadd5
      refine ⟨?_, hPst⟩
      simp only [fwdF]
      rw [if_neg h20, if_pos h40]
      exact hadd5
    · by_cases h60 : i < 60
      · rw [if_neg h20, if_neg h40, if_pos h60] at hrest
        obtain ⟨hf, hnv⟩ := E.majF _ _ _ _ _ hrest
        have hPst := E.nv _ _ _ _ hnv
        have hlift := wval_eq_maj σ _ _ _ _ (bitsEq_extract σ hf)
        rw [wval_rotl σ _ 0 (by omega), wval_rotl σ _ 30 (by omega),
          wval_rotl σ _ 30 (by omega), rotl32_zero _ (wval_lt σ _)] at hlift
        rw [hlift] at hadd5
        refine ⟨?_, hPst⟩
        simp only [fwdF]
        rw [if_neg h20, if_neg h40, if_pos h60]
        exact hadd5
      · rw [if_neg h20, if_neg h40, if_neg h60] at hrest
        obtain ⟨hf, hnv⟩ := E.x3 _ _ _ _ _ hrest
        have hPst := E.nv _ _ _ _ hnv
        have hlift := wval_eq_parity3 σ _ _ _ _ (bitsEq_extract σ hf)
        rw [wval_rotl σ _ 0 (by omega), wval_rotl σ _ 30 (by omega),
          wval_rotl σ _ 30 (by omega), rotl32_zero _ (wval_lt σ _)] at hlift
        rw [hlift] at hadd5
        refine ⟨?_, hPst⟩
        simp only [fwdF]
        rw [if_neg h20, if_neg h40, if_neg h60]
        exact hadd5

set_option maxHeartbeats 8000000 in
/-- Soundness of the full circuit in every encoding mode: any assignment for
which `P` holds of the built state reads back, in `h_out`, exactly
`sha1_forward` applied to any message function agreeing with `w[0..16)`. -/
theorem build_sound (σ : Var → Bool) {cfg : Config} {P : St → Bool}
    (E : EmitSound σ cfg P)
    (R : Nat) (hR16 : 16 ≤ R) (hR80 : R ≤ 80) (name : String) (st0 : St)
    (hsat : P (sha1.build cfg R name st0).2 = true)
    (w0 : Nat → Nat)
    (hw : ∀ i, i < 16 → w0 i = wval σ ((sha1.build cfg R name st0).1.w i)) :
    ∀ j, j < 5 →
      wval σ ((sha1.build cfg R name st0).1.h_out j) = sha1_forward R w0 j := by
  simp only [sha1.build] at hsat hw ⊢
  obtain ⟨hout4, hsat⟩ := E.a2 _ _ _ _ _ hsat
  obtain ⟨hout3, hsat⟩ := E.a2 _ _ _ _ _ hsat
  obtain ⟨hout2, hsat⟩ := E.a2 _ _ _ _ _ hsat
  obtain ⟨hout1, hsat⟩ := E.a2 _ _ _ _ _ hsat
  obtain ⟨hout0, hsat⟩ := E.a2 _ _ _ _ _ hsat
  obtain ⟨hrounds, hsat⟩ := foldP_extract
    (fun st i hs => sha1Round_sound E _ _ _ st i hs) _ _ hsat
  obtain ⟨hH4, hsat⟩ := E.c32 _ _ _ hsat
  obtain ⟨hH3, hsat⟩ := E.c32 _ _ _ hsat
  obtain ⟨hH2, hsat⟩ := E.c32 _ _ _ hsat
  obtain ⟨hH1, hsat⟩ := E.c32 _ _ _ hsat
  obtain ⟨hH0, hsat⟩ := E.c32 _ _ _ hsat
  obtain ⟨hK3, hsat⟩ := new_constant_sound E _ _ _ hsat
  obtain ⟨hK2, hsat⟩ := new_constant_sound E _ _ _ hsat
  obtain ⟨hK1, hsat⟩ := new_constant_sound E _ _ _ hsat
  obtain ⟨hK0, hsat⟩ := new_constant_sound E _ _ _ hsat
  obtain ⟨hschedAll, hsat⟩ := foldP_extract
    (fun st i hs => E.x4 _ _ _ _ _ st hs) _ _ hsat
  have hin0v := wval_eq_const σ _ H0 (by decide) hH0
  have hin1v := wval_eq_const σ _ H1 (by decide) hH1
  have hin2v := wval_eq_const σ _ H2 (by decide) hH2
  have hin3v := wval_eq_const σ _ H3 (by decide) hH3
  have hin4v := wval_eq_const σ _ H4 (by decide) hH4
  have hK0v := wval_eq_const σ _ K0 (by decide) hK0
  have hK1v := wval_eq_const σ _ K1 (by decide) hK1
  have hK2v := wval_eq_const σ _ K2 (by decide) hK2
  have hK3v := wval_eq_const σ _ K3 (by decide) hK3
  refine circuit_sound σ _ ((sha1.build cfg R name st0).1.h_in) _
    ((sha1.build cfg R name st0).1.a) R hR16 hR80 w0 hw ?hsched ?ha4 ?ha3 ?ha2 ?ha1
    ?ha0 ?hstep ?hin0 ?hin1 ?hin2 ?hin3 ?hin4 ?hout0 ?hout1 ?hout2 ?hout3 ?hout4
  case hsched =>
    intro i h16 hiR
    have hmem := hschedAll i (List.mem_range'_1.mpr ⟨h16, by omega⟩)
    have hxor := wval_eq_xor4 σ _ _ _ _ _ (bitsEq_extract σ hmem)
    rw [if_neg (by omega : ¬ i < 16), wval_rotl σ _ 1 (by omega), hxor]
  case ha4 =>
    have h : wval σ ((sha1.build cfg R name st0).1.a 4)
        = rotl32 (wval σ ((sha1.build cfg R name st0).1.h_in 0)) 32 :=
      wval_rotl σ ((sha1.build cfg R name st0).1.h_in 0) 32 (by omega)
    have h0 : wval σ ((sha1.build cfg R name st0).1.h_in 0) = H0 := hin0v
    rw [h, h0]
    exact rotl32_full H0 (by decide)
  case ha3 =>
    have h : wval σ ((sha1.build cfg R name st0).1.a 3)
        = rotl32 (wval σ ((sha1.build cfg R name st0).1.h_in 1)) 32 :=
      wval_rotl σ ((sha1.build cfg R name st0).1.h_in 1) 32 (by omega)
    have h0 : wval σ ((sha1.build cfg R name st0).1.h_in 1) = H1 := hin1v
    rw [h, h0]
    exact rotl32_full H1 (by decide)
  case ha2 =>
    have h : wval σ ((sha1.build cfg R name st0).1.a 2)
        = rotl32 (wval σ ((sha1.build cfg R name st0).1.h_in 2)) 2 :=
      wval_rotl σ ((sha1.build cfg R name st0).1.h_in 2) 2 (by omega)
    have h0 : wval σ ((sha1.build cfg R name st0).1.h_in 2) = H2 := hin2v
    rw [h, h0]
    exact rotl32_rotl32 H2 2 30 (by decide) (by omega) (by omega)
  case ha1 =>
    have h : wval σ ((sha1.build cfg R name st0).1.a 1)
        = rotl32 (wval σ ((sha1.build cfg R name st0).1.h_in 3)) 2 :=
      wval_rotl σ ((sha1.build cfg R name st0).1.h_in 3) 2 (by omega)
    have h0 : wval σ ((sha1.build cfg R name st0).1.h_in 3) = H3 := hin3v
    rw [h, h0]
    exact rotl32_rotl32 H3 2 30 (by decide) (by omega) (by omega)
  case ha0 =>
    have h : wval σ ((sha1.build cfg R name st0).1.a 0)
        = rotl32 (wval σ ((sha1.build cfg R name st0).1.h_in 4)) 2 :=
      wval_rotl σ ((sha1.build cfg R name st0).1.h_in 4) 2 (by omega)
    have h0 : wval σ ((sha1.build cfg R name st0).1.h_in 4) = H4 := hin4v
    rw [h, h0]
    exact rotl32_rotl32 H4 2 30 (by decide) (by omega) (by omega)
  case hstep =>
    intro i hiR
    have hQ := hrounds i (List.mem_range.mpr hiR)
    simp only [fwdK]
    by_cases h20 : i < 20
    · rw [(by omega : i / 20 = 0), getD_list4_zero, hK0v] at hQ
      rw [if_pos h20]
      exact hQ
    · by_cases h40 : i < 40
      · rw [(by omega : i / 20 = 1), getD_list4_one, hK1v] at hQ
        rw [if_neg h20, if_pos h40]
        exact hQ
      · by_cases h60 : i < 60
        · rw [(by omega : i / 20 = 2), getD_list4_two, hK2v] at hQ
          rw [if_neg h20, if_neg h40, if_pos h60]
          exact hQ
        · rw [(by omega : i / 20 = 3), getD_list4_three, hK3v] at hQ
          rw [if_neg h20, if_neg h40, if_neg h60]
          exact hQ
  case hin0 => exact hin0v
  case hin1 => exact hin1v
  case hin2 => exact hin2v
  case hin3 => exact hin3v
  case hin4 => exact hin4v
  case hout0 => exact hout0
  case hout1 => exact hout1
  case hout2 =>
    have h := hout2
    rw [wval_rotl σ _ 30 (by omega)] at h
    exact h
  case hout3 =>
    have h := hout3
    rw [wval_rotl σ _ 30 (by omega)] at h
    exact h
  case hout4 =>
    have h := hout4
    rw [wval_rotl σ _ 30 (by omega)] at h
    exact h

/-- `eq` (non-xor mode) preserves CNF/OPB agreement: each emitted clause goes
to both buffers with the same satisfaction condition. -/
theorem eq_agree (σ : Var → Bool) {cfg : Config} (hx : cfg.use_xor_clauses = false)
    (a b : Nat → Var) (n : Nat) (st : St)
    (h : cnfSat σ st.cnf = opbSat σ st.opb) :
    cnfSat σ (eq cfg a b n st).cnf = opbSat σ (eq cfg a b n st).opb := by
  simp only [eq, hx, Bool.false_eq_true, if_false]
  refine sat_agree_foldl ?_ _ _ h
  intro st i hst
  simp only [cnfSat_clause, opbSat_clause, hst]

/-- `neq` (non-xor mode) preserves CNF/OPB agreement. -/
theorem neq_agree (σ : Var → Bool) {cfg : Config} (hx : cfg.use_xor_clauses = false)
    (a b : Nat → Var) (n : Nat) (st : St)
    (h : cnfSat σ st.cnf = opbSat σ st.opb) :
    cnfSat σ (neq cfg a b n st).cnf = opbSat σ (neq cfg a b n st).opb := by
  simp only [neq, hx, Bool.false_eq_true, if_false]
  refine sat_agree_foldl ?_ _ _ h
  intro st i hst
  simp only [cnfSat_clause, opbSat_clause, hst]

/-! ### The claims -/

section Claims

def sigma1N : Nat :=
9494074143015898976194746091954677134542894379378132990821183096428986188611414102805972986734295406676343537392246583867354669398320953059026555013372167176279013243490576698668974873989663391434184317867987478930857147346854573800015659513232999246980929034769531727639422357453951400367768902641464413971295009252359386340453073099580056536286648815391603553933290001574962578209243843726104719017135174301593388531059038180190465850001838061304994799103362615755516540770762926863963480183510068849649789431589427229811511763759078137324150951702480482150694565622493346190272348987396832237203544363644795913670760032639359631398311884081486755527460657018564630600707927635452570657645068272775388483515533179494013654776792801502303024068238579321921718951397002524238545175179561442127232728365572082849835659928150456485179406678250637028153886483731129482852202779678055606109802989925831257261528583850889740601670199661194502124282919826232105273277772708853922011967915406082502591750933146994123226563532768845644322826722655123024016483905280469024372479317086719063544823555184852896000762919727925517270284709781183626493294902187486923504656055350429411192708126877364495584080947709826454989957911653400178416491311835562596260568566438321603570057927152691987088823517106150106185363984210920243138664693483920365366339232497168307084490369475619944579430034503477153424572438585009521353461046658430399698974421692746778681432351221659552788867569350645785450862155332432650825428299959882915627165783092956199052557241408408149932873819265715047026500496936104948624584766800490394222627523445645173906844524849791760713991575157930231856373812138604190301146614569756178927864478180971904425656582510532570011321607004850029763687749006245892896680443863370289834221103442863376515540740551842248982477388980603525477246704007266559927530669921892070395425055514334326399593981438791442438531819078699334214808427322875938528453251694743792918030144187938728184649206637980806899217162514542738900051120924912446122556913741614737472822993545763783649918430320758865942206299780380334446130498396954691963273047835015048057315599069874252683762161218608811611285674022584793868411966937468809301935892570823176923589349607356410825514929972014673874312068934903150271927193903172923834961432474045032413419947104419134236693671231127092765488473894610674175321496339512612353723732457999009753296849656543409824064380635021150402877771779334044568100433007545193642887572133469175430079824077250533856683176260967635408618420448865813224746279322973730529434253988428137955297070625194039675913721821645699351900915427819745821540917945120142423477967113573159756417420798542558846127151350611637704591309841409493379676041020152443153794637985199887851213235835636977397308736664462630155745961273946451540839676362340413768853748160136360019527237554616977156996890709418072472215669283567726392821881924843109211355156399899770194866736154132290209026508428110833914566822030520283867199876627016594942459713490987110972550971047530858775297661459891361341198909555619012420891449375868060800027867230141243176002638740136387692236939226514223067271870247511262813005524931563031647464556744520383718129321511091570208968793747025892926791964358311595714861907758247709279486296627269894989426708655623833027441431514001563298759946319024726155114466194250545423386028744988928884025261657463623060756025249718320612816150247017008931436152576528194933873770301503405865592199341309041338058623487985820216427015772927354154185645618870517983126677731720248325666102261816038784822040093945615463398095478898

/-- A reference satisfying assignment for the 16-round Tseitin circuit: bit
`v` of this number is the value of variable `v` (obtained by evaluating
SHA-1 forward from a fixed message and filling in every auxiliary wire). -/
def sig1 : Var → Bool := fun v => sigma1N.testBit v

/-- A 16-round `--cnf --tseitin-adders` configuration. -/
def cfgT : Config :=
  { Config.default with cnf := true, use_tseitin_adders := true, nr_rounds := 16 }

/-- C1: in every encoding mode the program accepts (an output format is
selected; xor clauses only together with CNF output; compact adders only
together with OPB output), every assignment of the boolean variables that
satisfies the full constraint set emitted by the SHA-1 circuit builder — the
CNF clauses whenever CNF output is selected, and the OPB constraints whenever
OPB output is selected — has the bits of `h_out[0..5)` equal to the
`R`-round-truncated SHA-1 hash — as computed by the native reference function
`sha1_forward` — of the bits of `w[0..16)`, under the fixed initial chaining
values and round constants. -/
theorem C1_hout_reads_forward_hash (σ : Var → Bool) (cfg : Config)
    (hvout : cfg.cnf = true ∨ cfg.opb = true)
    (hvxor : cfg.use_xor_clauses = true → cfg.cnf = true)
    (hvcompact : cfg.use_compact_adders = true → cfg.opb = true)
    (R : Nat) (hR16 : 16 ≤ R) (hR80 : R ≤ 80) (name : String) (st0 : St)
    (hcnf : cfg.cnf = true → cnfSat σ (sha1.build cfg R name st0).2.cnf = true)
    (hopb : cfg.opb = true → opbSat σ (sha1.build cfg R name st0).2.opb = true)
    (w0 : Nat → Nat)
    (hw : ∀ i, i < 16 → w0 i = wval σ ((sha1.build cfg R name st0).1.w i)) :
    ∀ j, j < 5 →
      wval σ ((sha1.build cfg R name st0).1.h_out j) = sha1_forward R w0 j := by
  by_cases hc : cfg.cnf = true
  · by_cases ho : cfg.opb = true
    · exact build_sound σ (emitSound_both σ cfg) R hR16 hR80 name st0
        (show (cnfSat σ (sha1.build cfg R name st0).2.cnf
            && opbSat σ (sha1.build cfg R name st0).2.opb) = true by
          rw [hcnf hc, hopb ho]; rfl) w0 hw
    · have hcompact : cfg.use_compact_adders = false := by
        cases hcc : cfg.use_compact_adders
        · rfl
        · exact absurd (hvcompact hcc) ho
      exact build_sound σ (emitSound_cnf σ cfg (Or.inr hcompact)) R hR16 hR80
        name st0 (hcnf hc) w0 hw
  · have hxor : cfg.use_xor_clauses = false := by
      cases hxc : cfg.use_xor_clauses
      · rfl
      · exact absurd (hvxor hxc) hc
    rcases hvout with h | h
    · exact absurd h hc
    · exact build_sound σ (emitSound_opb σ cfg hxor) R hR16 hR80 name st0
        (hopb h) w0 hw

/-- Witness for C1: the 16-round Tseitin-adder CNF circuit together with a
concrete satisfying assignment; every hypothesis is discharged at this
input. -/
theorem C1_hout_reads_forward_hash_wit :
    (cfgT.cnf = true ∨ cfgT.opb = true)
    ∧ 16 ≤ 16 ∧ 16 ≤ 80
    ∧ cnfSat sig1 (sha1.build cfgT 16 "" St.init).2.cnf = true
    ∧ (∀ j, j < 5 →
        wval sig1 ((sha1.build cfgT 16 "" St.init).1.h_out j)
          = sha1_forward 16
              (fun i => wval sig1 ((sha1.build cfgT 16 "" St.init).1.w i)) j) := by
  have hs : cnfSat sig1 (sha1.build cfgT 16 "" St.init).2.cnf = true := by
    rw [cnfSat_build sig1 rfl rfl 16 "" St.init]
    decide
  refine ⟨Or.inl rfl, by omega, by omega, hs, ?_⟩
  exact C1_hout_reads_forward_hash sig1 cfgT (Or.inl rfl) (fun h => rfl)
    (fun h => absurd h (by decide)) 16 (by omega) (by omega) "" St.init
    (fun h => hs) (fun h => absurd h (by decide))
    (fun i => wval sig1 ((sha1.build cfgT 16 "" St.init).1.w i))
    (fun i h => rfl)

/-- A branching-restricted 16-round Tseitin CNF configuration. -/
def cfgR : Config :=
  { Config.default with
    cnf := true
    use_tseitin_adders := true
    restrict_branching := true
    nr_rounds := 16 }

/-- Is a CNF line a decision hint with the given polarity? -/
def isHint (pos : Bool) : CnfLine → Bool
  | CnfLine.dhint _ p => p == pos
  | _ => false

/-- C4: the code does the opposite of the claim.  Under `--restrict-branching`
(16-round Tseitin allocation phase from a fresh state) the 512 message-word
variables `w[0..16)` — ids 1..512 — are exactly the variables receiving
NEGATIVE decision hints `d -x 0`, and every other fresh allocation (the 832
ids 513..1344) receives a POSITIVE hint `d x 0`, because the constructor
passes `!config_restrict_branching` as the `decision_var` flag for `w`. -/
theorem C4_decision_hints_inverted :
    ((sha1AllocPhase cfgR 16 "" St.init).2.cnf.all (fun l =>
      match l with
      | CnfLine.dhint v pos => if v ≤ 512 then pos == false else pos == true
      | _ => true)) = true
    ∧ ((sha1AllocPhase cfgR 16 "" St.init).2.cnf.countP (isHint false)) = 512
    ∧ ((sha1AllocPhase cfgR 16 "" St.init).2.cnf.countP (isHint true)) = 832 := by
  decide

/-- C5: for rounds 40..59 the six emitted 3-literal clauses per bit are
satisfied exactly when `f[j] = (b[j]∧c[j])∨(b[j]∧d[j])∨(c[j]∧d[j])`, and the
omitted seventh clause `f ∨ ¬b ∨ ¬c ∨ ¬d` is entailed by the six emitted
clauses alone. -/
theorem C5_majority_six_clauses (σ : Var → Bool) (f b c d : Nat → Var)
    (j : Nat) (st : St) :
    (cnfSat σ (majBit f b c d j st).cnf
        = ((σ (f j) == majB (σ (b j)) (σ (c j)) (σ (d j))) && cnfSat σ st.cnf))
    ∧ (cnfSat σ (majBit f b c d j St.init).cnf = true →
        evalClause σ [(f j, true), (b j, false), (c j, false), (d j, false)] = true) := by
  constructor
  · exact cnfSat_majBit σ f b c d j st
  · intro h
    rw [cnfSat_majBit σ f b c d j St.init] at h
    simp only [Bool.and_eq_true, beq_iff_eq] at h
    simp only [evalClause, List.any_cons, List.any_nil, evalLit, h.1]
    cases σ (b j) <;> cases σ (c j) <;> cases σ (d j) <;> simp [majB]

/-- C6: with an explicitly configured seed, the run result is a deterministic
function of (seed, configuration): the modelled `time(0)` value has no
influence on the output. -/
theorem C6_output_deterministic (cfg : Config) (s : Nat) (h : cfg.seed = some s)
    (t1 t2 : Nat) (rngOf : Nat → Rng) :
    mainModel cfg t1 rngOf = mainModel cfg t2 rngOf := by
  simp only [mainModel, h, Option.getD_some]

/-- A trivial PRNG record, used to instantiate witnesses. -/
def rng0 : Rng := ⟨fun _ => 0, [], []⟩

/-- Witness for C6: two runs at different wall-clock times with seed 1. -/
theorem C6_output_deterministic_wit :
    mainModel { Config.default with cnf := true, seed := some 1 } 0 (fun _ => rng0)
      = mainModel { Config.default with cnf := true, seed := some 1 } 99 (fun _ => rng0) :=
  C6_output_deterministic { Config.default with cnf := true, seed := some 1 } 1 rfl
    0 99 (fun _ => rng0)

/-- C7: the argument-validation checks that are implemented each report to
stderr, exit non-zero and emit nothing on stdout; when none of them fires
the run exits 0.  No range validation of `--rounds`, `--message-bits` or
`--hash-bits` exists (see the counterexample). -/
theorem C7_implemented_validation (cfg : Config) (now : Nat) (rngOf : Nat → Rng) :
    ((cfg.attack ≠ "preimage" ∧ cfg.attack ≠ "second-preimage" ∧ cfg.attack ≠ "collision") →
        mainModel cfg now rngOf = ⟨1, [], ["Invalid --attack"]⟩)
    ∧ (¬(cfg.attack ≠ "preimage" ∧ cfg.attack ≠ "second-preimage" ∧ cfg.attack ≠ "collision") →
        (¬cfg.cnf ∧ ¬cfg.opb) →
        mainModel cfg now rngOf = ⟨1, [], ["Must specify either --cnf or --opb"]⟩)
    ∧ (¬(cfg.attack ≠ "preimage" ∧ cfg.attack ≠ "second-preimage" ∧ cfg.attack ≠ "collision") →
        ¬(¬cfg.cnf ∧ ¬cfg.opb) → (cfg.use_xor_clauses ∧ ¬cfg.cnf) →
        mainModel cfg now rngOf = ⟨1, [], ["Cannot specify --xor without --cnf"]⟩)
    ∧ (¬(cfg.attack ≠ "preimage" ∧ cfg.attack ≠ "second-preimage" ∧ cfg.attack ≠ "collision") →
        ¬(¬cfg.cnf ∧ ¬cfg.opb) → ¬(cfg.use_xor_clauses ∧ ¬cfg.cnf) →
        (cfg.use_halfadder_clauses ∧ ¬cfg.cnf) →
        mainModel cfg now rngOf = ⟨1, [], ["Cannot specify --halfadder without --cnf"]⟩)
    ∧ (¬(cfg.attack ≠ "preimage" ∧ cfg.attack ≠ "second-preimage" ∧ cfg.attack ≠ "collision") →
        ¬(¬cfg.cnf ∧ ¬cfg.opb) → ¬(cfg.use_xor_clauses ∧ ¬cfg.cnf) →
        ¬(cfg.use_halfadder_clauses ∧ ¬cfg.cnf) → (cfg.use_compact_adders ∧ ¬cfg.opb) →
        mainModel cfg now rngOf = ⟨1, [], ["Cannot specify --compact-adders without --opb"]⟩)
    ∧ (¬(cfg.attack ≠ "preimage" ∧ cfg.attack ≠ "second-preimage" ∧ cfg.attack ≠ "collision") →
        ¬(¬cfg.cnf ∧ ¬cfg.opb) → ¬(cfg.use_xor_clauses ∧ ¬cfg.cnf) →
        ¬(cfg.use_halfadder_clauses ∧ ¬cfg.cnf) → ¬(cfg.use_compact_adders ∧ ¬cfg.opb) →
        (mainModel cfg now rngOf).exitCode = 0) := by
  refine ⟨?_, ?_, ?_, ?_, ?_, ?_⟩
  · intro h1
    simp only [mainModel]
    rw [if_pos h1]
  · intro h1 h2
    simp only [mainModel]
    rw [if_neg h1, if_pos h2]
  · intro h1 h2 h3
    simp only [mainModel]
    rw [if_neg h1, if_neg h2, if_pos h3]
  · intro h1 h2 h3 h4
    simp only [mainModel]
    rw [if_neg h1, if_neg h2, if_neg h3, if_pos h4]
  · intro h1 h2 h3 h4 h5
    simp only [mainModel]
    rw [if_neg h1, if_neg h2, if_neg h3, if_neg h4, if_pos h5]
  · intro h1 h2 h3 h4 h5
    simp only [mainModel]
    rw [if_neg h1, if_neg h2, if_neg h3, if_neg h4, if_neg h5]

/-- An 8-round configuration: outside the range the claim says is rejected. -/
def cfg7 : Config :=
  { Config.default with
    cnf := true
    use_tseitin_adders := true
    nr_rounds := 8
    nr_hash_bits := 0 }

/-- C7 counterexample: `--rounds 8` — outside the claimed valid range
`16..80` — is not rejected: the run exits 0 and writes an instance to
stdout. -/
theorem C7_cex :
    (mainModel cfg7 0 (fun _ => rng0)).exitCode = 0
    ∧ (mainModel cfg7 0 (fun _ => rng0)).stdout ≠ [] := by
  constructor
  · rfl
  · obtain ⟨a, l, he⟩ : ∃ a l, (mainModel cfg7 0 (fun _ => rng0)).stdout = a :: l :=
      ⟨_, _, rfl⟩
    rw [he]
    exact List.cons_ne_nil a l

/-- A 16-round second-preimage configuration with `--message-bits 0`. -/
def cfg9 : Config :=
  { Config.default with
    cnf := true
    use_tseitin_adders := true
    attack := "second-preimage"
    nr_message_bits := 0
    nr_hash_bits := 0
    nr_rounds := 16 }

/-- C9: with `--message-bits 0` the second-preimage attack emits no message
pin — the emitted instance does not depend on the shuffled message-bit
positions at all — and no warning is emitted: the stderr log of the attack
is empty while generation runs to completion. -/
theorem C9_no_pin_no_warning (cfg : Config) (h : cfg.nr_message_bits = 0)
    (rng rng2 : Rng) (hl : rng.lrand48 = rng2.lrand48)
    (hp : rng.perm160 = rng2.perm160) (st : St) :
    second_preimage cfg rng st = second_preimage cfg rng2 st
    ∧ (second_preimage cfg rng st).2 = [] := by
  constructor
  · simp [second_preimage, h, hl, hp]
  · rfl

/-- Witness for C9: two PRNG records differing only in the message-bit
shuffle produce the same instance; the stderr log is empty. -/
theorem C9_no_pin_no_warning_wit :
    second_preimage cfg9 ⟨fun _ => 0, [3, 1, 2], []⟩ St.init
      = second_preimage cfg9 rng0 St.init
    ∧ (second_preimage cfg9 ⟨fun _ => 0, [3, 1, 2], []⟩ St.init).2 = [] :=
  C9_no_pin_no_warning cfg9 rfl ⟨fun _ => 0, [3, 1, 2], []⟩ rng0 rfl rfl St.init

/-- C9 counterexample: contrary to the claim, NO configuration warning is
emitted to stderr when the second-preimage attack runs with
`--message-bits 0`: the stderr log of the run is empty. -/
theorem C9_cex : (second_preimage cfg9 rng0 St.init).2 = [] := rfl

/-- Does a CNF line mention the given variable? -/
def cnfMentions (v : Var) : CnfLine → Bool
  | CnfLine.cls c => c.any (fun l => l.1 == v)
  | CnfLine.xcls c => c.any (fun l => l.1 == v)
  | CnfLine.hline lhs rhs => lhs.any (fun x => x == v) || rhs.any (fun x => x == v)
  | _ => false

/-- Does an OPB line mention the given variable? -/
def opbMentions (v : Var) : OpbLine → Bool
  | OpbLine.ge ts _ => ts.any (fun t => t.var == v)
  | OpbLine.eqn ts _ => ts.any (fun t => t.var == v)
  | _ => false

/-- The default-mode (half-adder) configuration with native `h` lines. -/
def cfgH : Config :=
  { Config.default with
    cnf := true
    opb := true
    use_halfadder_clauses := true }

def wa : Nat → Var := fun i => 1001 + i
def wb : Nat → Var := fun i => 1101 + i
def wc : Nat → Var := fun i => 1201 + i
def wd : Nat → Var := fun i => 1301 + i
def we : Nat → Var := fun i => 1401 + i
def wr : Nat → Var := fun i => 1501 + i

/-- C10 counterexample: in the half-adder encoding of `add2` the carry of bit
column 31 (variable 32, routed into column 32) is NOT absent from the
constraints: it is mentioned by the emitted half-adder line of column 31 and
by the corresponding pseudo-boolean equality. -/
theorem C10_cex :
    (add2 cfgH "x" wr wa wb St.init).nr_variables = 32
    ∧ (add2 cfgH "x" wr wa wb St.init).cnf.any (cnfMentions 32) = true
    ∧ (add2 cfgH "x" wr wa wb St.init).opb.any (opbMentions 32) = true := by
  decide

/-- C10 amended: every carry routed into a column with index ≥ 32 (variable
32 for `add2`; variables 62, 63, 64 for `add5`) appears in exactly one CNF
line and exactly one pseudo-boolean constraint — the half-adder constraint of
the column that allocated it — and in no later constraint. -/
theorem C10_high_carries_once :
    ((add2 cfgH "x" wr wa wb St.init).cnf.countP (cnfMentions 32) = 1
      ∧ (add2 cfgH "x" wr wa wb St.init).opb.countP (opbMentions 32) = 1)
    ∧ ((add5 cfgH "x" wr wa wb wc wd we St.init).nr_variables = 64
      ∧ (add5 cfgH "x" wr wa wb wc wd we St.init).cnf.countP (cnfMentions 62) = 1
      ∧ (add5 cfgH "x" wr wa wb wc wd we St.init).opb.countP (opbMentions 62) = 1
      ∧ (add5 cfgH "x" wr wa wb wc wd we St.init).cnf.countP (cnfMentions 63) = 1
      ∧ (add5 cfgH "x" wr wa wb wc wd we St.init).opb.countP (opbMentions 63) = 1
      ∧ (add5 cfgH "x" wr wa wb wc wd we St.init).cnf.countP (cnfMentions 64) = 1
      ∧ (add5 cfgH "x" wr wa wb wc wd we St.init).opb.countP (opbMentions 64) = 1) := by
  decide

/-- C3: in compact pseudo-boolean adder mode the single linear equation
emitted for a 2-input (resp. 5-input) 32-bit adder admits exactly the
assignments in which the output word `r` equals the EXACT integer sum of the
input words — it is not an equality modulo 2^32 (see the counterexample for
an assignment correct modulo 2^32 that violates the equation). -/
theorem C3_compact_equation_exact (σ : Var → Bool) (cfg : Config)
    (hT : cfg.use_tseitin_adders = false) (hC : cfg.use_compact_adders = true)
    (lab : String) (r a b c d e : Nat → Var) (st : St) :
    (opbSat σ (add2 cfg lab r a b st).opb
        = ((wval σ a + wval σ b == wval σ r) && opbSat σ st.opb))
    ∧ (opbSat σ (add5 cfg lab r a b c d e st).opb
        = ((wval σ a + wval σ b + wval σ c + wval σ d + wval σ e == wval σ r)
            && opbSat σ st.opb)) := by
  constructor
  · simp only [add2, hT, hC, Bool.false_eq_true, if_false, if_true, opbSat_cons,
      opbSat_comment, OpbLine.sat]
    rw [evalTerms_append, evalTerms_append, evalTerms_posWord, evalTerms_posWord,
      evalTerms_negWord]
    congr 1
    exact int_sum2_eq (wval σ a) (wval σ b) (wval σ r)
  · simp only [add5, hT, hC, Bool.false_eq_true, if_false, if_true, opbSat_cons,
      opbSat_comment, OpbLine.sat]
    rw [evalTerms_append, evalTerms_append, evalTerms_append, evalTerms_append,
      evalTerms_append, evalTerms_posWord, evalTerms_posWord, evalTerms_posWord,
      evalTerms_posWord, evalTerms_posWord, evalTerms_negWord]
    congr 1
    exact int_sum5_eq (wval σ a) (wval σ b) (wval σ c) (wval σ d) (wval σ e) (wval σ r)

/-- A compact-adders configuration with both output formats requested. -/
def cfgC : Config :=
  { Config.default with
    cnf := true
    opb := true
    use_compact_adders := true }

/-- The assignment that sets exactly bit 31 of the words at 1001 and 1101. -/
def sigma3 : Var → Bool := fun v => v == 1032 || v == 1132

/-- Witness for C3 at the compact configuration and concrete words. -/
theorem C3_compact_equation_exact_wit :
    (opbSat sigma3 (add2 cfgC "x" wr wa wb St.init).opb
        = ((wval sigma3 wa + wval sigma3 wb == wval sigma3 wr)
            && opbSat sigma3 St.init.opb))
    ∧ (opbSat sigma3 (add5 cfgC "x" wr wa wb wc wd we St.init).opb
        = ((wval sigma3 wa + wval sigma3 wb + wval sigma3 wc + wval sigma3 wd
              + wval sigma3 we == wval sigma3 wr)
            && opbSat sigma3 St.init.opb)) :=
  C3_compact_equation_exact sigma3 cfgC rfl rfl "x" wr wa wb wc wd we St.init

/-- C3 counterexample: under `sigma3` the two addends are both `2^31`, so the
sum modulo 2^32 is 0 and the mod-2^32 relation of the claim holds with
`r = 0`; the emitted compact equation is nevertheless violated. -/
theorem C3_cex :
    (wval sigma3 wa + wval sigma3 wb) % 2 ^ 32 = wval sigma3 wr
    ∧ opbSat sigma3 (add2 cfgC "x" wr wa wb St.init).opb = false := by
  decide

/-- The configuration of `--cnf --opb --tseitin-adders --rounds 16`. -/
def cfg2 : Config :=
  { Config.default with
    cnf := true
    opb := true
    use_tseitin_adders := true
    nr_rounds := 16 }

set_option maxHeartbeats 4000000 in
/-- C2: with `--cnf --opb` and Tseitin adders (no xor clauses), the two
emitted encodings describe the same problem for every attack: for every seed
an assignment satisfies the CNF constraint set iff it satisfies the OPB
constraint set, for the preimage, the second-preimage and the collision
instance alike. -/
theorem C2_cnf_opb_same_problem (σ : Var → Bool) (cfg : Config)
    (ht : cfg.use_tseitin_adders = true) (hx : cfg.use_xor_clauses = false)
    (rng : Rng) :
    (cnfSat σ (preimage cfg rng St.init).1.cnf
        = opbSat σ (preimage cfg rng St.init).1.opb)
    ∧ (cnfSat σ (second_preimage cfg rng St.init).1.cnf
        = opbSat σ (second_preimage cfg rng St.init).1.opb)
    ∧ (cnfSat σ (collision cfg rng St.init).1.cnf
        = opbSat σ (collision cfg rng St.init).1.opb) := by
  refine ⟨?_, ?_, ?_⟩
  · simp only [preimage]
    refine sat_agree_foldl ?_ _ _ ?_
    · intro st i hst
      simp only [cnfSat_constant, opbSat_constant, hst]
    · rw [cnfSat_comment, opbSat_comment]
      refine sat_agree_foldl ?_ _ _ ?_
      · intro st i hst
        simp only [cnfSat_constant, opbSat_constant, hst]
      · rw [cnfSat_comment, opbSat_comment, cnfSat_build σ ht hx,
          opbSat_build σ ht hx]
        rfl
  · simp only [second_preimage]
    refine sat_agree_foldl ?_ _ _ ?_
    · intro st i hst
      simp only [cnfSat_constant, opbSat_constant, hst]
    · rw [cnfSat_comment, opbSat_comment]
      refine sat_agree_foldl ?_ _ _ ?_
      · intro st i hst
        simp only [cnfSat_constant, opbSat_constant, hst]
      · by_cases hm : 0 < cfg.nr_message_bits
        · rw [if_pos hm]
          simp only [cnfSat_constant, opbSat_constant]
          rw [cnfSat_comment, opbSat_comment, cnfSat_build σ ht hx,
            opbSat_build σ ht hx]
          rfl
        · rw [if_neg hm, cnfSat_comment, opbSat_comment, cnfSat_build σ ht hx,
            opbSat_build σ ht hx]
          rfl
  · simp only [collision]
    refine sat_agree_foldl ?_ _ _ ?_
    · intro st i hst
      exact eq_agree σ hx _ _ _ _ hst
    · rw [cnfSat_comment, opbSat_comment]
      refine neq_agree σ hx _ _ _ _ ?_
      rw [cnfSat_comment, opbSat_comment, cnfSat_build σ ht hx, opbSat_build σ ht hx,
        cnfSat_build σ ht hx, opbSat_build σ ht hx]
      rfl

/-- Witness for C2 at the Tseitin configuration, a concrete assignment and a
concrete randomness record, for all three attacks. -/
theorem C2_cnf_opb_same_problem_wit :
    (cnfSat sig1 (preimage cfg2 rng0 St.init).1.cnf
        = opbSat sig1 (preimage cfg2 rng0 St.init).1.opb)
    ∧ (cnfSat sig1 (second_preimage cfg2 rng0 St.init).1.cnf
        = opbSat sig1 (second_preimage cfg2 rng0 St.init).1.opb)
    ∧ (cnfSat sig1 (collision cfg2 rng0 St.init).1.cnf
        = opbSat sig1 (collision cfg2 rng0 St.init).1.opb) :=
  C2_cnf_opb_same_problem sig1 cfg2 rfl rfl rng0

/-- The assignment that sets exactly bit 0 of the result word at 1501. -/
def sigmaC2 : Var → Bool := fun v => v == 1501

/-- C2 counterexample: under `--cnf --opb --compact-adders` the adder emits
only an OPB equation and nothing to the CNF buffer, so an assignment can
satisfy the CNF constraints of `add2` while violating its OPB constraints:
the two encodings are not equivalent for every configuration. -/
theorem C2_cex :
    cnfSat sigmaC2 (add2 cfgC "x" wr wa wb St.init).cnf = true
    ∧ opbSat sigmaC2 (add2 cfgC "x" wr wa wb St.init).opb = false := by
  decide

/-- The configuration of `--opb --compact-adders --attack preimage`
(`--rounds 80` and `--hash-bits 160` being the defaults). -/
def cfg8 : Config :=
  { Config.default with
    opb := true
    use_compact_adders := true }

/-- C8: for `--opb --compact-adders --attack preimage --rounds 80` the
compact addition equation appears once per adder, i.e. `R + 5 = 85` times
(one `add5` per round plus the five final `add2`s into `h_out`), for every
seed. -/
theorem C8_adder_equation_count (rng : Rng) :
    nAdds (preimage cfg8 rng St.init).1 = cfg8.nr_rounds + 5 := by
  rw [nAdds_preimage rfl rfl]
  decide

/-- C8 counterexample: the count is not `5·R + 5 = 405` as the spec claims;
with `R = 80` the OPB output holds 85 addition equations, not 405. -/
theorem C8_cex : nAdds (preimage cfg8 rng0 St.init).1 ≠ 5 * cfg8.nr_rounds + 5 := by
  rw [nAdds_preimage rfl rfl]
  decide

end Claims

end Sha1Sat
